import Mathlib

/-! # derod operator console: chain-consistency repair walk and command dispatcher

A shallow embedding of `cmd/derod/main.go`.  The first part embeds the two
copies of the repair walk (the `fix` console command and the start-up
self-check inside `main`) over a functional model of the topo store.
-/

namespace Derod

/-! ## Data model of the repair walk -/

/-- Block identifier (`crypto.Hash`); only equality of identifiers is used by the walk. -/
abbrev Hash := Nat

/-- Persisted triple of the topo index (`r.BLOCK_ID` is the only field the walk inspects). -/
structure TopoRecord where
  BLOCK_ID : Hash
  State_Version : Nat
  Height : Int
deriving DecidableEq, Repr

/-- Modelled from the spec: the storage collaborator `chain.Store.Topo_store`, whose code
is outside `main.go`.  A topo index either holds a record or cannot be read. -/
abbrev TopoStore := Int → Option TopoRecord

/-- Modelled from the spec: `Topo_store.Write(index, blid, version, height)` overwrites the
entry at `index` with the given triple.  `main.go` discards the value `Write` returns. -/
def TopoStore.Write (s : TopoStore) (index : Int) (blid : Hash) (version : Nat) (height : Int) :
    TopoStore :=
  fun i => if i = index then some ⟨blid, version, height⟩ else s i

/-- Read-only collaborators of the walk, taken as parameters: the current tips, the height of
a block, the snapshot version of a block, the `Tips` of a loaded block, and the lookup of the
block stored at a topo index. -/
structure Chain where
  Get_TIPS : List Hash
  Load_Height_for_BL_ID : Hash → Int
  ReadBlockSnapshotVersion : Hash → Option Nat
  Load_BL_FROM_ID : Hash → Option (List Hash)
  Load_Block_Topological_order_at_index : TopoStore → Int → Option Hash

/-- One collaborator call made by a walk, together with what it returned
(`none` is a returned error). -/
inductive Event where
  | Height (blid : Hash) (height : Int)
  | Read (index : Int) (r : Option TopoRecord)
  | Version (blid : Hash) (v : Option Nat)
  | Write (index : Int) (blid : Hash) (version : Nat) (height : Int)
  | Load (blid : Hash) (tips : Option (List Hash))
  | TopoIndex (index : Int) (blid : Option Hash)
deriving DecidableEq, Repr

/-- The reason of a `panic` raised inside a walk. -/
inductive WalkError where
  | topoRead (index : Int)
  | snapshotVersion (blid : Hash)
  | loadBlock (blid : Hash)
  | indexOutOfRange
deriving DecidableEq, Repr

/-- How a walk ended: the `break` of the loop, a `panic`, or the model ran out of fuel. -/
inductive Outcome where
  | done
  | panic (e : WalkError)
  | outOfFuel
deriving DecidableEq, Repr

/-- Final store and call trace of a walk. -/
structure WalkResult where
  outcome : Outcome
  store : TopoStore
  trace : List Event

/-- Prefix the calls of the earlier iterations to the result of the remaining ones. -/
def WalkResult.after (evs : List Event) (r : WalkResult) : WalkResult :=
  { r with trace := evs ++ r.trace }

/-- Result of one loop iteration: leave the loop, or go on with the next block. -/
inductive Step where
  | stop (o : Outcome) (store : TopoStore) (evs : List Event)
  | next (blid : Hash) (store : TopoStore) (evs : List Event)

/-- Store after an iteration. -/
def Step.store : Step → TopoStore
  | .stop _ s _ => s
  | .next _ s _ => s

/-- Calls made by an iteration. -/
def Step.evs : Step → List Event
  | .stop _ _ evs => evs
  | .next _ _ evs => evs

/-! ## The `fix` command (main.go, lines 824-866) -/

/-- Tail of one `fix` iteration: `fix_bl, err := chain.Load_BL_FROM_ID(current_blid)`, panic on
error, `current_blid = fix_bl.Tips[0]`. -/
def fix_advance (chain : Chain) (current_blid : Hash) (store : TopoStore) (evs : List Event) :
    Step :=
  match chain.Load_BL_FROM_ID current_blid with
  | none => .stop (.panic (.loadBlock current_blid)) store (evs ++ [.Load current_blid none])
  | some [] => .stop (.panic .indexOutOfRange) store (evs ++ [.Load current_blid (some [])])
  | some (tip0 :: tips) => .next tip0 store (evs ++ [.Load current_blid (some (tip0 :: tips))])

/-- One iteration of the `for` loop of the `fix` command. -/
def fix_body (chain : Chain) (current_blid : Hash) (store : TopoStore) : Step :=
  let height := chain.Load_Height_for_BL_ID current_blid
  if height < 1 then
    .stop .done store [.Height current_blid height]
  else
    match store height with
    | none =>
      .stop (.panic (.topoRead height)) store [.Height current_blid height, .Read height none]
    | some r =>
      if r.BLOCK_ID ≠ current_blid then
        match chain.ReadBlockSnapshotVersion current_blid with
        | none =>
          .stop (.panic (.snapshotVersion current_blid)) store
            [.Height current_blid height, .Read height (some r), .Version current_blid none]
        | some fix_commit_version =>
          fix_advance chain current_blid
            (store.Write height current_blid fix_commit_version height)
            [.Height current_blid height, .Read height (some r),
             .Version current_blid (some fix_commit_version),
             .Write height current_blid fix_commit_version height]
      else
        fix_advance chain current_blid store [.Height current_blid height, .Read height (some r)]

/-- The `for` loop of the `fix` command, with a bound on the number of iterations. -/
def fix_loop (chain : Chain) : Nat → Hash → TopoStore → WalkResult
  | 0, _, store => ⟨.outOfFuel, store, []⟩
  | fuel + 1, current_blid, store =>
    match fix_body chain current_blid store with
    | .stop o s evs => ⟨o, s, evs⟩
    | .next blid s evs => (fix_loop chain fuel blid s).after evs

/-- The `fix` command: `tips := chain.Get_TIPS()`, `current_blid := tips[0]`, then the loop. -/
def fix (chain : Chain) (fuel : Nat) (store : TopoStore) : WalkResult :=
  match chain.Get_TIPS with
  | [] => ⟨.panic .indexOutOfRange, store, []⟩
  | tip0 :: _ => fix_loop chain fuel tip0 store

/-! ## The start-up self-check (main.go, lines 309-344) -/

/-- Tail of one start-up iteration: load the block, panic on error, follow `Tips[0]`. -/
def startup_advance (chain : Chain) (current_blid : Hash) (store : TopoStore)
    (evs : List Event) : Step :=
  match chain.Load_BL_FROM_ID current_blid with
  | none => .stop (.panic (.loadBlock current_blid)) store (evs ++ [.Load current_blid none])
  | some [] => .stop (.panic .indexOutOfRange) store (evs ++ [.Load current_blid (some [])])
  | some (tip0 :: tips) => .next tip0 store (evs ++ [.Load current_blid (some (tip0 :: tips))])

/-- One iteration of the `for` loop of the start-up self-check. -/
def startup_body (chain : Chain) (current_blid : Hash) (store : TopoStore) : Step :=
  let height := chain.Load_Height_for_BL_ID current_blid
  if height < 17500 then
    .stop .done store [.Height current_blid height]
  else
    match store height with
    | none =>
      .stop (.panic (.topoRead height)) store [.Height current_blid height, .Read height none]
    | some r =>
      if r.BLOCK_ID ≠ current_blid then
        match chain.ReadBlockSnapshotVersion current_blid with
        | none =>
          .stop (.panic (.snapshotVersion current_blid)) store
            [.Height current_blid height, .Read height (some r), .Version current_blid none]
        | some fix_commit_version =>
          startup_advance chain current_blid
            (store.Write height current_blid fix_commit_version height)
            [.Height current_blid height, .Read height (some r),
             .Version current_blid (some fix_commit_version),
             .Write height current_blid fix_commit_version height]
      else
        startup_advance chain current_blid store
          [.Height current_blid height, .Read height (some r)]

/-- The `for` loop of the start-up self-check, with a bound on the number of iterations. -/
def startup_loop (chain : Chain) : Nat → Hash → TopoStore → WalkResult
  | 0, _, store => ⟨.outOfFuel, store, []⟩
  | fuel + 1, current_blid, store =>
    match startup_body chain current_blid store with
    | .stop o s evs => ⟨o, s, evs⟩
    | .next blid s evs => (startup_loop chain fuel blid s).after evs

/-- The start-up self-check: look up the block at topo index 17600 and walk from it only
when the lookup returned no error. -/
def startup_check (chain : Chain) (fuel : Nat) (store : TopoStore) : WalkResult :=
  match chain.Load_Block_Topological_order_at_index store 17600 with
  | none => ⟨.done, store, [.TopoIndex 17600 none]⟩
  | some current_blid =>
    (startup_loop chain fuel current_blid store).after [.TopoIndex 17600 (some current_blid)]

/-! ## The common shape of the two loops -/

/-- Tail of an iteration of either loop. -/
def walk_advance (chain : Chain) (current_blid : Hash) (store : TopoStore) (evs : List Event) :
    Step :=
  match chain.Load_BL_FROM_ID current_blid with
  | none => .stop (.panic (.loadBlock current_blid)) store (evs ++ [.Load current_blid none])
  | some [] => .stop (.panic .indexOutOfRange) store (evs ++ [.Load current_blid (some [])])
  | some (tip0 :: tips) => .next tip0 store (evs ++ [.Load current_blid (some (tip0 :: tips))])

/-- One iteration of a repair loop with the floor as a parameter.  `fix_body` is the instance
with floor 1 and `startup_body` the instance with floor 17500 (`fix_body_eq`,
`startup_body_eq`); the properties of both loops are proved once, on this shape. -/
def walk_body (floor : Int) (chain : Chain) (current_blid : Hash) (store : TopoStore) : Step :=
  let height := chain.Load_Height_for_BL_ID current_blid
  if height < floor then
    .stop .done store [.Height current_blid height]
  else
    match store height with
    | none =>
      .stop (.panic (.topoRead height)) store [.Height current_blid height, .Read height none]
    | some r =>
      if r.BLOCK_ID ≠ current_blid then
        match chain.ReadBlockSnapshotVersion current_blid with
        | none =>
          .stop (.panic (.snapshotVersion current_blid)) store
            [.Height current_blid height, .Read height (some r), .Version current_blid none]
        | some fix_commit_version =>
          walk_advance chain current_blid
            (store.Write height current_blid fix_commit_version height)
            [.Height current_blid height, .Read height (some r),
             .Version current_blid (some fix_commit_version),
             .Write height current_blid fix_commit_version height]
      else
        walk_advance chain current_blid store [.Height current_blid height, .Read height (some r)]

/-- The loop over `walk_body`. -/
def walk_loop (floor : Int) (chain : Chain) : Nat → Hash → TopoStore → WalkResult
  | 0, _, store => ⟨.outOfFuel, store, []⟩
  | fuel + 1, current_blid, store =>
    match walk_body floor chain current_blid store with
    | .stop o s evs => ⟨o, s, evs⟩
    | .next blid s evs => (walk_loop floor chain fuel blid s).after evs

/-! ## Reading a trace -/

/-- Blocks visited by a walk, in order: the arguments of its `Load_Height_for_BL_ID` calls. -/
def walked : List Event → List Hash
  | [] => []
  | .Height blid _ :: evs => blid :: walked evs
  | _ :: evs => walked evs

/-- Topo indices read or written by a walk: the arguments of its `Topo_store.Read` and
`Topo_store.Write` calls. -/
def touched : List Event → List Int
  | [] => []
  | .Read index _ :: evs => index :: touched evs
  | .Write index _ _ _ :: evs => index :: touched evs
  | _ :: evs => touched evs

/-- Topo indices looked up with `Load_Block_Topological_order_at_index`. -/
def lookedUp : List Event → List Int
  | [] => []
  | .TopoIndex index _ :: evs => index :: lookedUp evs
  | _ :: evs => lookedUp evs

/-- The `Topo_store.Write` calls of a walk, in order. -/
def writes : List Event → List Event
  | [] => []
  | .Write index blid version height :: evs => .Write index blid version height :: writes evs
  | _ :: evs => writes evs

/-- The error returned by a call of the three fallible collaborators of the loop body
(`Topo_store.Read`, `ReadBlockSnapshotVersion`, `Load_BL_FROM_ID`), if it returned one. -/
def Event.err : Event → Option WalkError
  | .Read index none => some (.topoRead index)
  | .Version blid none => some (.snapshotVersion blid)
  | .Load blid none => some (.loadBlock blid)
  | _ => none

/-- Outcome with which a loop with the given floor leaves right after a call, if it does:
`break` after the height of a block below the floor, `panic(err)` after a returned error, and
the index fault of `Tips[0]` on a block without tips. -/
def Event.final (floor : Int) : Event → Option Outcome
  | .Height _ height => if height < floor then some .done else none
  | .Read index none => some (.panic (.topoRead index))
  | .Version blid none => some (.panic (.snapshotVersion blid))
  | .Load blid none => some (.panic (.loadBlock blid))
  | .Load _ (some []) => some (.panic .indexOutOfRange)
  | _ => none

/-! ## The walk as the specification words it -/

/-- The first-tip (single-parent) walk in the words of the specification, written without
the loop of `main.go`: from `b` go on to the first listed tip of each block until the height
drops below `floor`; the block below the floor is the last one.  The walk also ends at a
block that does not load or lists no tip.  `n` bounds the number of blocks. -/
def firstTipWalk (floor : Int) (chain : Chain) : Nat → Hash → List Hash
  | 0, _ => []
  | n + 1, b =>
    if chain.Load_Height_for_BL_ID b < floor then [b]
    else
      match chain.Load_BL_FROM_ID b with
      | some (t :: _) => b :: firstTipWalk floor chain n t
      | _ => [b]

/-- What block validation guarantees of the block data the walks read: the first tip of a
block is strictly lower than the block. -/
def firstTipsDescend (chain : Chain) : Prop :=
  ∀ b t ts, chain.Load_BL_FROM_ID b = some (t :: ts) →
    chain.Load_Height_for_BL_ID t < chain.Load_Height_for_BL_ID b

/-! ## Concrete stores used for evaluation -/

/-- A healthy chain: block `b` stands at height `b` and lists block `b - 1` as its only tip,
block 0 (genesis) lists none; the current tip is block 3. -/
def chainA : Chain where
  Get_TIPS := [3]
  Load_Height_for_BL_ID := fun b => (b : Int)
  ReadBlockSnapshotVersion := fun b => some (100 + b)
  Load_BL_FROM_ID := fun b => if b = 0 then some [] else some [b - 1]
  Load_Block_Topological_order_at_index := fun s i => (s i).map (·.BLOCK_ID)

/-- Topo index for `chainA` whose entry at height 2 is corrupted (points at block 7). -/
def storeA : TopoStore := fun i =>
  if i = 1 then some ⟨1, 101, 1⟩
  else if i = 2 then some ⟨7, 107, 2⟩
  else if i = 3 then some ⟨3, 103, 3⟩
  else none

/-- A chain with side blocks: 3 → 2 → 1 → 0 along the first tips; block 3 also lists the
side block 9 (height 2) and block 2 the side block 8 (height 1). -/
def chainG : Chain where
  Get_TIPS := [3, 9]
  Load_Height_for_BL_ID := fun b => if b = 9 then 2 else if b = 8 then 1 else (b : Int)
  ReadBlockSnapshotVersion := fun b => some (100 + b)
  Load_BL_FROM_ID := fun b =>
    if b = 3 then some [2, 9] else if b = 2 then some [1, 8] else if b = 1 then some [0]
    else if b = 9 then some [1] else if b = 8 then some [0] else some []
  Load_Block_Topological_order_at_index := fun s i => (s i).map (·.BLOCK_ID)

/-- Topo index for `chainG` whose entry at height 2 names the side block 9. -/
def storeG : TopoStore := fun i =>
  if i = 1 then some ⟨1, 101, 1⟩
  else if i = 2 then some ⟨9, 109, 2⟩
  else if i = 3 then some ⟨3, 103, 3⟩
  else none

/-- Topo index for `chainA` at the heights 17498 to 17600 (block `h` at height `h`), whose
entry at height 17550 is corrupted (points at block 7). -/
def storeS : TopoStore := fun i =>
  if 17498 ≤ i ∧ i ≤ 17600 then
    if i = 17550 then some ⟨7, 107, 17550⟩ else some ⟨i.toNat, 100 + i.toNat, i⟩
  else none

/-! ## Console input (main.go, lines 571-577)

Go strings are lists of runes.  `unicode.IsSpace` is written out; `unicode.ToLower`, a table
of the Go library, is a parameter `lower` of the dispatcher. -/

/-- A Go string, as its runes. -/
abbrev Str := List Char

/-- The predicate `unicode.IsSpace` of the Go library. -/
def isSpace (r : Char) : Bool :=
  (9 ≤ r.toNat && r.toNat ≤ 13) || r.toNat == 32 || r.toNat == 0x85 || r.toNat == 0xA0 ||
  r.toNat == 0x1680 || (0x2000 ≤ r.toNat && r.toNat ≤ 0x200A) || r.toNat == 0x2028 ||
  r.toNat == 0x2029 || r.toNat == 0x202F || r.toNat == 0x205F || r.toNat == 0x3000

/-- The function `strings.TrimSpace`: drop leading and trailing white space. -/
def TrimSpace (s : Str) : Str :=
  (s.dropWhile isSpace).rdropWhile isSpace

/-- Worker of `Fields`: `cur` is the field being read. -/
def fieldsFrom : Str → Str → List Str
  | [], cur => if cur = [] then [] else [cur]
  | c :: cs, cur =>
    if isSpace c then
      if cur = [] then fieldsFrom cs [] else cur :: fieldsFrom cs []
    else fieldsFrom cs (cur ++ [c])

/-- The function `strings.Fields`: the maximal runs of runes that are not white space. -/
def Fields (s : Str) : List Str :=
  fieldsFrom s []

/-- The function `strings.ToLower`, rune by rune through `unicode.ToLower`. -/
def ToLower (lower : Char → Char) (s : Str) : Str :=
  s.map lower

/-- `unicode.ToLower` restricted to ASCII, used to evaluate the dispatcher on ASCII lines. -/
def asciiLower (c : Char) : Char :=
  if 65 ≤ c.toNat ∧ c.toNat ≤ 90 then Char.ofNat (c.toNat + 32) else c

/-- Value of a run of decimal digits. -/
def digitsValue (ds : Str) : Nat :=
  ds.foldl (fun n c => 10 * n + (c.toNat - 48)) 0

/-- Decimal digit test. -/
def isDigit (c : Char) : Bool :=
  48 ≤ c.toNat && c.toNat ≤ 57

/-- The call `strconv.ParseInt(s, 10, 64)`: an optional sign, then one or more decimal digits,
with a value in the range of `int64`; `none` is a returned error. -/
def ParseInt (s : Str) : Option Int :=
  let neg := s.head? = some '-'
  let ds := if s.head? = some '-' ∨ s.head? = some '+' then s.tail else s
  if ds = [] ∨ ds.all isDigit = false then none
  else if neg then
    if digitsValue ds ≤ 2 ^ 63 then some (-(digitsValue ds : Int)) else none
  else
    if digitsValue ds < 2 ^ 63 then some (digitsValue ds : Int) else none

/-- An `int64` product as Go computes it (wrap-around). -/
def wrap64 (x : Int) : Int :=
  (x + 2 ^ 63) % 2 ^ 64 - 2 ^ 63

/-! ## State the console commands act on -/

/-- The fields of `config.RunningConfig` that `main.go` reads or writes. -/
structure RunningConfig where
  P2PBWFactor : Int
  Min_Peers : Int
  Max_Peers : Int
  ErrorLogExpirySeconds : Int
  NetworkStatsKeepCount : Int
  DiagnosticCheckDelay : Int
  BlockRejectThreshold : Int
  PeerLatencyThreshold : Int
  GETWorkJobDispatchTime : Int
  TraceBlocks : Bool
  TraceTx : Bool
  OnlyTrusted : Bool
  TraceTagged : Bool
  P2PTurbo : Bool
  VariableDispatchTime : Bool
  WhitelistIncoming : Bool
  AntiCheat : Bool
  MinerMaintenanceMessage : Str
  OperatorName : Str
deriving DecidableEq, Repr

/-- Process state the dispatcher mutates directly: the running configuration, `p2p.Min_Peers`
and `p2p.Max_Peers`, the maintenance flags of `globals`, whether the channel
`Exit_In_Progress` has been closed, and the topo store of the chain. -/
structure Console where
  RunningConfig : RunningConfig
  Min_Peers : Int
  Max_Peers : Int
  NodeMaintenance : Bool
  MaintenanceStart : Int
  Exit_In_Progress_closed : Bool
  Topo_store : TopoStore

/-- The cases of the `switch` of `readline_loop`, in source order. -/
inductive Case where
  | help | profile | setintegratoraddress | print_bc | regpool_print | regpool_flush
  | regpool_delete_tx | mempool_dump | mempool_print | mempool_flush | mempool_delete_tx
  | version | print_tree | block_export | block_import | fix | print_block | parse_block
  | print_tx | status | debug | uptime | ban_above_height | address_to_name | active_nodes
  | active_miners | connect_to_peer | disconnect_peer | miner_info | list_miners
  | mined_blocks | peer_info | run_diagnostics | config | add_trusted | remove_trusted
  | show_selfish | list_trusted | peer_errors | clear_all_peer_stats | clear_peer_stats
  | peer_list | syncinfo | bye | exit | quit | graph | pop | gc | heap | permban | ban
  | unban | connect_to_seeds | bans | sleep | empty | default
deriving DecidableEq, Repr

/-- What a command does besides changing `Console`: text written to the operator (the text is
the format string, arguments are not rendered) and calls of collaborators.  `handler c`
stands for the body of a case that is not embedded statement by statement. -/
inductive Effect where
  | print (text : Str)
  | PermBan_Address (address : Str)
  | Ban_Address (address : Str) (ban_seconds : Nat)
  | UnBan_Address (address : Str)
  | BanList_Print
  | Add_Trusted (address : Str)
  | Del_Trusted (address : Str)
  | ConnecToNode (address : Str)
  | DisconnectAddress (address : Str)
  | SetNodeTag (tag : Str)
  | Only_Trusted_Peers
  | save_config_file
  | config_menu
  | Mempool_flush
  | Regpool_flush
  | close_Exit_In_Progress
  | walk (ev : Event)
  | handler (c : Case)
deriving DecidableEq, Repr

/-- How one pass through the loop body of `readline_loop` ends: the next `Readline`, the
statement `return nil`, a panic (recovered by the deferred function, which makes
`readline_loop` return the error `crashed`), or the model of a loop ran out of fuel. -/
inductive Control where
  | next
  | returnNil
  | panic
  | outOfFuel
deriving DecidableEq, Repr

/-- Result of one pass through the loop body. -/
structure Pass where
  state : Console
  effects : List Effect
  control : Control

/-- What the dispatcher takes from outside: `unicode.ToLower`, the clock, the chain, the
bound on loop iterations of the model, the error results of the ban calls (`true` is a
returned error), and for the body of a case that is not embedded whether it faults and what
it does to the chain store. -/
structure Env where
  lower : Char → Char
  now : Int
  chain : Chain
  fuel : Nat
  PermBan_Address_fails : Str → Bool
  Ban_Address_fails : Str → Nat → Bool
  UnBan_Address_fails : Str → Bool
  faults : Case → List Str → Bool
  store_after : Case → List Str → TopoStore → TopoStore

/-! ## Selecting the case (main.go, lines 574-583 and the `case` guards) -/

/-- The variable `command`: the lower-cased first field, or the empty string. -/
def commandOf (lower : Char → Char) (line_parts : List Str) : Str :=
  match line_parts with
  | [] => []
  | p :: _ => ToLower lower p

/-- The first `case` whose guard holds, the guards tried in source order. -/
def selectCase (lower : Char → Char) (line : Str) (command : Str) : Case :=
  if line = "help".toList then .help
  else if command = "profile".toList then .profile
  else if command = "setintegratoraddress".toList then .setintegratoraddress
  else if command = "print_bc".toList then .print_bc
  else if command = "regpool_print".toList then .regpool_print
  else if command = "regpool_flush".toList then .regpool_flush
  else if command = "regpool_delete_tx".toList then .regpool_delete_tx
  else if command = "mempool_dump".toList then .mempool_dump
  else if command = "mempool_print".toList then .mempool_print
  else if command = "mempool_flush".toList then .mempool_flush
  else if command = "mempool_delete_tx".toList then .mempool_delete_tx
  else if command = "version".toList then .version
  else if command = "print_tree".toList then .print_tree
  else if command = "block_export".toList then .block_export
  else if command = "block_import".toList then .block_import
  else if command = "fix".toList then .fix
  else if command = "print_block".toList then .print_block
  else if command = "parse_block".toList then .parse_block
  else if command = "print_tx".toList then .print_tx
  else if ToLower lower line = "status".toList then .status
  else if command = "debug".toList then .debug
  else if command = "uptime".toList then .uptime
  else if command = "ban_above_height".toList then .ban_above_height
  else if command = "address_to_name".toList then .address_to_name
  else if command = "active_nodes".toList then .active_nodes
  else if command = "active_miners".toList then .active_miners
  else if command = "connect_to_peer".toList then .connect_to_peer
  else if command = "disconnect_peer".toList then .disconnect_peer
  else if command = "miner_info".toList then .miner_info
  else if command = "list_miners".toList then .list_miners
  else if command = "mined_blocks".toList then .mined_blocks
  else if command = "peer_info".toList then .peer_info
  else if command = "run_diagnostics".toList then .run_diagnostics
  else if command = "config".toList then .config
  else if command = "add_trusted".toList then .add_trusted
  else if command = "remove_trusted".toList then .remove_trusted
  else if command = "show_selfish".toList then .show_selfish
  else if command = "list_trusted".toList then .list_trusted
  else if command = "peer_errors".toList then .peer_errors
  else if command = "clear_all_peer_stats".toList then .clear_all_peer_stats
  else if command = "clear_peer_stats".toList then .clear_peer_stats
  else if command = "peer_list".toList then .peer_list
  else if ToLower lower line = "syncinfo".toList ∨ ToLower lower line = "sync_info".toList then
    .syncinfo
  else if ToLower lower line = "bye".toList then .bye
  else if ToLower lower line = "exit".toList then .exit
  else if ToLower lower line = "quit".toList then .quit
  else if command = "graph".toList then .graph
  else if command = "pop".toList then .pop
  else if command = "gc".toList then .gc
  else if command = "heap".toList then .heap
  else if command = "permban".toList then .permban
  else if command = "ban".toList then .ban
  else if command = "unban".toList then .unban
  else if command = "connect_to_seeds".toList then .connect_to_seeds
  else if command = "bans".toList then .bans
  else if line = "sleep".toList then .sleep
  else if line = [] then .empty
  else .default

/-! ## The handlers of the cases the claims are about -/

/-- The argument `line_parts[i]` (used below only where the length guard makes it exist). -/
def arg (line_parts : List Str) (i : Nat) : Str :=
  line_parts.getD i []

/-- The case `permban` (main.go, lines 1917-1928). -/
def permban (env : Env) (line_parts : List Str) : List Effect :=
  if line_parts.length ≥ 3 ∨ line_parts.length = 1 then
    [.print "IP address required to ban\n".toList]
  else if env.PermBan_Address_fails (arg line_parts 1) then
    [.PermBan_Address (arg line_parts 1), .print "err parsing address %s".toList]
  else
    [.PermBan_Address (arg line_parts 1)]

/-- The case `ban` (main.go, lines 1930-1952). -/
def ban (env : Env) (line_parts : List Str) : List Effect :=
  if line_parts.length ≥ 4 ∨ line_parts.length = 1 then
    [.print "IP address required to ban\n".toList]
  else if line_parts.length = 3 then
    match ParseInt (arg line_parts 2) with
    | some s =>
      if s ≥ 0 then [.Ban_Address (arg line_parts 1) s.toNat]
      else [.print "err parsing ban time (only positive number) %s".toList]
    | none => [.print "err parsing ban time (only positive number) %s".toList]
  else if env.Ban_Address_fails (arg line_parts 1) (10 * 60) then
    [.Ban_Address (arg line_parts 1) (10 * 60), .print "err parsing address %s".toList]
  else
    [.Ban_Address (arg line_parts 1) (10 * 60)]

/-- The case `unban` (main.go, lines 1954-1966). -/
def unban (env : Env) (line_parts : List Str) : List Effect :=
  if line_parts.length ≥ 3 ∨ line_parts.length = 1 then
    [.print "IP address required to unban\n".toList]
  else if env.UnBan_Address_fails (arg line_parts 1) then
    [.UnBan_Address (arg line_parts 1), .print "err unbanning %s, err = %s".toList]
  else
    [.UnBan_Address (arg line_parts 1), .print "unbann %s successful".toList]

/-- The case `connect_to_peer` (main.go, lines 1355-1364). -/
def connect_to_peer (line_parts : List Str) : List Effect :=
  if line_parts.length = 2 then
    [.print "Connecting to: %s".toList, .ConnecToNode (arg line_parts 1)]
  else
    [.print "usage: connect_to_peer <ip address:port>\n".toList]

/-- The case `disconnect_peer` (main.go, lines 1366-1373). -/
def disconnect_peer (line_parts : List Str) : List Effect :=
  if line_parts.length = 2 then [.DisconnectAddress (arg line_parts 1)]
  else [.print "usage: disconnect_peer <ip address>\n".toList]

/-- The case `add_trusted` (main.go, lines 1770-1779). -/
def add_trusted (line_parts : List Str) : List Effect :=
  if line_parts.length = 2 then [.Add_Trusted (arg line_parts 1)]
  else [.print "usage: add_trusted <ip address>\n".toList]

/-- The case `remove_trusted` (main.go, lines 1781-1790). -/
def remove_trusted (line_parts : List Str) : List Effect :=
  if line_parts.length = 2 then [.Del_Trusted (arg line_parts 1)]
  else [.print "usage: remove_trusted <ip address>\n".toList]

/-! ### The case `config` (main.go, lines 1501-1768) -/

/-- An `if line_parts[1] == key && len(line_parts) == 3` block that parses an integer: on a
parse error it writes `msg`, otherwise it stores the value with `set`. -/
def config_int (line_parts : List Str) (key msg : String) (set : Int → Console → Console)
    (acc : Console × List Effect) : Console × List Effect :=
  if arg line_parts 1 = key.toList ∧ line_parts.length = 3 then
    match ParseInt (arg line_parts 2) with
    | some i => (set i acc.1, acc.2)
    | none => (acc.1, acc.2 ++ [.print msg.toList])
  else acc

/-- An `if line_parts[1] == key` block that flips a flag. -/
def config_flip (line_parts : List Str) (key : String) (flip : RunningConfig → RunningConfig)
    (acc : Console × List Effect) : Console × List Effect :=
  if arg line_parts 1 = key.toList then
    ({ acc.1 with RunningConfig := flip acc.1.RunningConfig }, acc.2)
  else acc

/-- Body of the block for `min_peers`. -/
def set_min_peers (i : Int) (st : Console) : Console :=
  if st.Max_Peers < i then
    { st with
      Min_Peers := i
      Max_Peers := i
      RunningConfig := { st.RunningConfig with Max_Peers := i, Min_Peers := i } }
  else
    { st with Min_Peers := i, RunningConfig := { st.RunningConfig with Min_Peers := i } }

/-- Body of the block for `max_peers`. -/
def set_max_peers (i : Int) (st : Console) : Console :=
  if st.Min_Peers > i then
    { st with
      Max_Peers := i
      Min_Peers := i
      RunningConfig := { st.RunningConfig with Min_Peers := i, Max_Peers := i } }
  else
    { st with Max_Peers := i, RunningConfig := { st.RunningConfig with Max_Peers := i } }

/-- The functions `strings.TrimLeft(s, " ")` then `strings.TrimRight(s, " ")`. -/
def trimBlanks (s : Str) : Str :=
  (s.dropWhile (· == ' ')).rdropWhile (· == ' ')

/-- The tag built by the `node_tag` block: the arguments from index 2 on, each preceded by
a blank, then trimmed of blanks. -/
def node_tag (line_parts : List Str) : Str :=
  trimBlanks ((line_parts.drop 2).foldl (fun new_tag p => new_tag ++ [' '] ++ p) [])

/-- The blocks inside `if len(line_parts) >= 2`, in source order, up to `save_config_file`. -/
def config_blocks (env : Env) (line_parts : List Str) (st : Console) : Console × List Effect :=
  let acc : Console × List Effect := (st, [])
  let acc := config_int line_parts "p2p_bwfactor" "bw factor need to be number\n"
    (fun i s => { s with RunningConfig := { s.RunningConfig with P2PBWFactor := i } }) acc
  let acc := config_int line_parts "min_peers" "min peers need to be number\n" set_min_peers acc
  let acc := config_int line_parts "max_peers" "max peers need to be number\n" set_max_peers acc
  let acc := config_int line_parts "peer_log_expiry"
    "peer_log_expiry time need to be in seconds\n"
    (fun i s => { s with RunningConfig := { s.RunningConfig with ErrorLogExpirySeconds := i } })
    acc
  let acc := config_int line_parts "network_stats_keep"
    "network_stats_keep <amount of blocks to keep>\n"
    (fun i s => { s with RunningConfig := { s.RunningConfig with NetworkStatsKeepCount := i } })
    acc
  let acc := config_int line_parts "diagnostic_delay" "diagnostic_delay in seconds\n"
    (fun i s => { s with RunningConfig := { s.RunningConfig with DiagnosticCheckDelay := i } })
    acc
  let acc := config_int line_parts "block_reject_threshold"
    "block_reject_threshold in seconds\n"
    (fun i s => { s with RunningConfig := { s.RunningConfig with BlockRejectThreshold := i } })
    acc
  let acc := config_int line_parts "peer_latency_threshold"
    "peer_latency_threshold in seconds\n"
    (fun i s => { s with
      RunningConfig := { s.RunningConfig with PeerLatencyThreshold := wrap64 (i * 1000000) } })
    acc
  let acc := config_int line_parts "job_dispatch_time"
    "dispatch time need to be in miliseconds\n"
    (fun i s => { s with
      RunningConfig := { s.RunningConfig with GETWorkJobDispatchTime := wrap64 (i * 1000000) } })
    acc
  let acc := config_flip line_parts "block_tracking"
    (fun c => { c with TraceBlocks := !c.TraceBlocks }) acc
  let acc := config_flip line_parts "tx_tracking" (fun c => { c with TraceTx := !c.TraceTx }) acc
  let acc : Console × List Effect :=
    if arg line_parts 1 = "trusted".toList then
      if acc.1.RunningConfig.OnlyTrusted then
        ({ acc.1 with RunningConfig := { acc.1.RunningConfig with OnlyTrusted := false } }, acc.2)
      else
        ({ acc.1 with RunningConfig := { acc.1.RunningConfig with OnlyTrusted := true } },
          acc.2 ++ [.Only_Trusted_Peers])
    else acc
  let acc := config_flip line_parts "track_tagged"
    (fun c => { c with TraceTagged := !c.TraceTagged }) acc
  let acc := config_flip line_parts "p2p_turbo" (fun c => { c with P2PTurbo := !c.P2PTurbo }) acc
  let acc := config_flip line_parts "variable_dispatch"
    (fun c => { c with VariableDispatchTime := !c.VariableDispatchTime }) acc
  let acc : Console × List Effect :=
    if arg line_parts 1 = "maintenance".toList then
      if line_parts.length = 3 then
        ({ acc.1 with
            RunningConfig :=
              { acc.1.RunningConfig with MinerMaintenanceMessage := arg line_parts 2 } },
          acc.2)
      else
        ({ acc.1 with NodeMaintenance := true, MaintenanceStart := env.now }, acc.2)
    else acc
  let acc := config_flip line_parts "whitelist_incoming"
    (fun c => { c with WhitelistIncoming := !c.WhitelistIncoming }) acc
  let acc : Console × List Effect :=
    if arg line_parts 1 = "operator".toList ∧ line_parts.length = 3 then
      ({ acc.1 with RunningConfig := { acc.1.RunningConfig with OperatorName := arg line_parts 2 } },
        acc.2)
    else acc
  let acc : Console × List Effect :=
    if arg line_parts 1 = "node_tag".toList then (acc.1, acc.2 ++ [.SetNodeTag (node_tag line_parts)])
    else acc
  let acc : Console × List Effect :=
    if arg line_parts 1 = "anti_cheat".toList ∧ line_parts.length = 2 then
      if acc.1.RunningConfig.AntiCheat then
        ({ acc.1 with RunningConfig := { acc.1.RunningConfig with AntiCheat := false } },
          acc.2 ++ [.print "anti_cheat disabled\n".toList])
      else
        ({ acc.1 with RunningConfig := { acc.1.RunningConfig with AntiCheat := true } },
          acc.2 ++ [.print "anti_cheat enabled\n".toList])
    else acc
  (acc.1, acc.2 ++ [.save_config_file])

/-- The case `config`: the blocks when there is a key, then the config menu (one effect; each
row of the menu names the option, its value and how to change it).  The menu reads block
timestamps through the chain; whether that faults is `env.faults` in `dispatch`. -/
def config (env : Env) (line_parts : List Str) (st : Console) : Console × List Effect :=
  if line_parts.length ≥ 2 then
    ((config_blocks env line_parts st).1, (config_blocks env line_parts st).2 ++ [.config_menu])
  else (st, [.config_menu])

/-! ### Lifecycle and repair cases -/

/-- The cases `bye`, `exit` and `quit` (main.go, lines 1840-1849):
`close(Exit_In_Progress)` then `return nil`; closing a closed channel panics. -/
def exit_command (st : Console) : Pass :=
  if st.Exit_In_Progress_closed then
    ⟨st, [.close_Exit_In_Progress], .panic⟩
  else
    ⟨{ st with Exit_In_Progress_closed := true }, [.close_Exit_In_Progress], .returnNil⟩

/-- The case `fix`: the walk of `fix` on the topo store of the console (its `Printf` on a
mismatch is not recorded). -/
def fix_command (env : Env) (st : Console) : Pass :=
  ⟨{ st with Topo_store := (fix env.chain env.fuel st.Topo_store).store },
    (fix env.chain env.fuel st.Topo_store).trace.map .walk,
    match (fix env.chain env.fuel st.Topo_store).outcome with
    | .done => .next
    | .panic _ => .panic
    | .outOfFuel => .outOfFuel⟩

/-- A case whose body is not embedded statement by statement: it may fault (`env.faults`), it
never executes `return`, and of `Console` it can change only the chain store
(`env.store_after`, for instance `pop` and `block_import`). -/
def other_case (env : Env) (c : Case) (line_parts : List Str) (st : Console) : Pass :=
  ⟨{ st with Topo_store := env.store_after c line_parts st.Topo_store }, [.handler c],
    if env.faults c line_parts then .panic else .next⟩

/-! ## One pass of `readline_loop` and the loop itself -/

/-- The `switch` of `readline_loop`: the selected case and its body. -/
def dispatch (env : Env) (st : Console) (line : Str) (line_parts : List Str) : Pass :=
  match selectCase env.lower line (commandOf env.lower line_parts) with
  | .permban => ⟨st, permban env line_parts, .next⟩
  | .ban => ⟨st, ban env line_parts, .next⟩
  | .unban => ⟨st, unban env line_parts, .next⟩
  | .bans => ⟨st, [.BanList_Print], .next⟩
  | .connect_to_peer => ⟨st, connect_to_peer line_parts, .next⟩
  | .disconnect_peer => ⟨st, disconnect_peer line_parts, .next⟩
  | .add_trusted => ⟨st, add_trusted line_parts, .next⟩
  | .remove_trusted => ⟨st, remove_trusted line_parts, .next⟩
  | .config =>
    ⟨(config env line_parts st).1, (config env line_parts st).2,
      if env.faults .config line_parts then .panic else .next⟩
  | .mempool_flush => ⟨st, [.Mempool_flush], .next⟩
  | .regpool_flush => ⟨st, [.Regpool_flush], .next⟩
  | .bye => exit_command st
  | .exit => exit_command st
  | .quit => exit_command st
  | .fix => fix_command env st
  | .empty => ⟨st, [], .next⟩
  | c => other_case env c line_parts st

/-- The error value of `l.Readline()`. -/
inductive ReadErr where
  | EOF
  | ErrInterrupt
  | other
deriving DecidableEq, Repr

/-- What `l.Readline()` returned. -/
structure Input where
  line : Str
  err : Option ReadErr
deriving DecidableEq, Repr

/-- A line read without error. -/
def Input.text (s : String) : Input :=
  ⟨s.toList, none⟩

/-- One pass through the body of the `for` loop of `readline_loop` (lines 556-1984). -/
def readline_pass (env : Env) (st : Console) (input : Input) : Pass :=
  if input.err = some .EOF then
    ⟨st, [.print "Ctrl-d received, to exit type - exit".toList], .next⟩
  else if input.err = some .ErrInterrupt ∧ input.line.length ≠ 0 then
    ⟨st, [], .next⟩
  else
    let hint : List Effect :=
      if input.err = some .ErrInterrupt then
        [.print "Ctrl-C received, to exit type - exit".toList]
      else []
    let line := TrimSpace input.line
    let line_parts := Fields line
    { dispatch env st line line_parts with
      effects := hint ++ (dispatch env st line line_parts).effects }

/-- The value `readline_loop` returns, or why it has not returned. -/
inductive Returned where
  | nil
  | crashed
  | waiting
  | outOfFuel
deriving DecidableEq, Repr

/-- Result of a call of `readline_loop`: state, effects, return value and unread input. -/
structure LoopResult where
  state : Console
  effects : List Effect
  returned : Returned
  rest : List Input

/-- The function `readline_loop` on the lines the operator will enter: it reads until a pass
returns `nil` or panics (the deferred function turns the panic into the error `crashed`);
with no input left it waits in `Readline`. -/
def readline_loop (env : Env) : Console → List Input → LoopResult
  | st, [] => ⟨st, [], .waiting, []⟩
  | st, input :: rest =>
    match (readline_pass env st input).control with
    | .next =>
      let r := readline_loop env (readline_pass env st input).state rest
      { r with effects := (readline_pass env st input).effects ++ r.effects }
    | .returnNil =>
      ⟨(readline_pass env st input).state, (readline_pass env st input).effects, .nil, rest⟩
    | .panic =>
      ⟨(readline_pass env st input).state, (readline_pass env st input).effects, .crashed, rest⟩
    | .outOfFuel =>
      ⟨(readline_pass env st input).state, (readline_pass env st input).effects, .outOfFuel,
        rest⟩

/-! ## The process: signal listener and dispatch loop of `main` (lines 512-529) -/

/-- What happens to the process from outside: an interrupt signal is delivered, or the
operator enters a line. -/
inductive ProcEvent where
  | interrupt
  | input (i : Input)
deriving DecidableEq, Repr

/-- Where `main` is: inside `for { readline_loop(...) }`, past it (teardown), or stuck in a
loop of a handler that the model could not finish. -/
inductive MainPhase where
  | dispatching
  | teardown
  | stuck
deriving DecidableEq, Repr

/-- The process: the console state, whether the signal goroutine is still in its loop, where
`main` is, whether an unrecovered panic has ended the process, and the effects so far. -/
structure Proc where
  console : Console
  listening : Bool
  main : MainPhase
  crashed : Bool
  log : List Effect

/-- One event.  The signal goroutine (lines 512-523) closes `Exit_In_Progress` and returns;
its panic on a closed channel is not recovered.  The dispatch loop (lines 525-529) calls
`readline_loop` again after an error and leaves only on `nil`. -/
def procStep (env : Env) (p : Proc) : ProcEvent → Proc
  | .interrupt =>
    if p.crashed ∨ p.listening = false then p
    else if p.console.Exit_In_Progress_closed then
      { p with listening := false, crashed := true, log := p.log ++ [.close_Exit_In_Progress] }
    else
      { p with
        console := { p.console with Exit_In_Progress_closed := true }
        listening := false
        log := p.log ++ [.close_Exit_In_Progress] }
  | .input i =>
    if p.crashed ∨ p.main ≠ .dispatching then p
    else
      { p with
        console := (readline_pass env p.console i).state
        log := p.log ++ (readline_pass env p.console i).effects
        main :=
          match (readline_pass env p.console i).control with
          | .next => .dispatching
          | .panic => .dispatching
          | .returnNil => .teardown
          | .outOfFuel => .stuck }

/-- A run of the process over a sequence of events. -/
def procRun (env : Env) (p : Proc) (evs : List ProcEvent) : Proc :=
  evs.foldl (procStep env) p

/-- Number of times `close(Exit_In_Progress)` has been executed. -/
def closeCount (log : List Effect) : Nat :=
  log.count .close_Exit_In_Progress

/-! ## Concrete console used for evaluation -/

/-- A running configuration with every number 0, every flag off and empty texts. -/
def config0 : RunningConfig :=
  ⟨0, 0, 0, 0, 0, 0, 0, 0, 0, false, false, false, false, false, false, false, false, [], []⟩

/-- A console with `config0`, no maintenance, `Exit_In_Progress` open and the store `storeA`. -/
def console0 : Console :=
  ⟨config0, 0, 0, false, 0, false, storeA⟩

/-- An environment over `chainA` with ASCII lower-casing in which no collaborator fails. -/
def env0 : Env :=
  ⟨asciiLower, 1000, chainA, 10, fun _ => false, fun _ _ => false, fun _ => false,
    fun _ _ => false, fun _ _ s => s⟩

/-- The process right after start-up: listener running, `main` dispatching. -/
def proc0 : Proc :=
  ⟨console0, true, .dispatching, false, []⟩

/-! ## Vocabulary of the claims on the dispatcher -/

/-- The argument counts the commands of C5 accept: one or two for `ban`, exactly one for
`unban`, `permban`, `add_trusted`, `remove_trusted`, `connect_to_peer`, `disconnect_peer`. -/
def acceptedCount (name : Str) (n : Nat) : Prop :=
  if name = "ban".toList then n = 1 ∨ n = 2 else n = 1

/-- A text that is one line: it ends in a newline and contains no other. -/
def oneLine (msg : Str) : Prop :=
  msg.getLast? = some '\n' ∧ msg.count '\n' = 1

/-- The ban requests among the effects of a command: address and seconds. -/
def banRequests : List Effect → List (Str × Nat)
  | [] => []
  | .Ban_Address address ban_seconds :: es => (address, ban_seconds) :: banRequests es
  | _ :: es => banRequests es

/-- The unban requests among the effects of a command. -/
def unbanRequests : List Effect → List Str
  | [] => []
  | .UnBan_Address address :: es => address :: unbanRequests es
  | _ :: es => unbanRequests es

/-- Modelled from the spec: the list of timed bans kept by the p2p collaborator (its code is
outside `main.go`), as `bans` shows it: each banned address with the seconds its ban still
lasts. -/
abbrev BanList := List (Str × Nat)

/-- Modelled from the spec: a ban request enters the address with the requested duration in
place of any earlier entry, an unban request removes the address, and no other effect of the
commands embedded here touches the timed bans. -/
def BanList.request (bl : BanList) : Effect → BanList
  | .Ban_Address address ban_seconds => (address, ban_seconds) :: bl.filter (fun e => e.1 != address)
  | .UnBan_Address address => bl.filter (fun e => e.1 != address)
  | _ => bl

/-- The ban list after the effects of a command. -/
def BanList.after (bl : BanList) (effects : List Effect) : BanList :=
  effects.foldl BanList.request bl

/-- Modelled from the spec: after `t` seconds every ban has `t` seconds less to run and the
bans that have run out are gone. -/
def BanList.elapse (bl : BanList) (t : Nat) : BanList :=
  bl.filterMap (fun e => if t < e.2 then some (e.1, e.2 - t) else none)

/-- What `bans` lists for an address: the remaining seconds, if the address is banned. -/
def BanList.remaining (bl : BanList) (address : Str) : Option Nat :=
  (bl.find? (fun e => e.1 == address)).map (·.2)

/-- The keys of `config` whose value is parsed as an integer. -/
def configNumericKeys : List Str :=
  ["p2p_bwfactor".toList, "min_peers".toList, "max_peers".toList, "peer_log_expiry".toList,
   "network_stats_keep".toList, "diagnostic_delay".toList, "block_reject_threshold".toList,
   "peer_latency_threshold".toList, "job_dispatch_time".toList]

/-- An invocation `config key rest...` that the handler rejects: a numeric key without
exactly one value that parses as an `int64`, `operator` without exactly one value, or
`anti_cheat` with a value. -/
def configRejected (key : Str) (rest : List Str) : Prop :=
  (key ∈ configNumericKeys ∧ ∀ v, rest = [v] → ParseInt v = none) ∨
  (key = "operator".toList ∧ rest.length ≠ 1) ∨
  (key = "anti_cheat".toList ∧ rest ≠ [])

/-- The words that end the console: `exit`, `quit`, `bye`. -/
def isExitWord (s : Str) : Prop :=
  s = "exit".toList ∨ s = "quit".toList ∨ s = "bye".toList

/-- The property of `unicode.ToLower` the claims need: it keeps the letters `a` to `z`. -/
def keepsLowerLetters (lower : Char → Char) : Prop :=
  ∀ c : Char, 97 ≤ c.toNat → c.toNat ≤ 122 → lower c = c

/-- The console after an interrupt signal has closed `Exit_In_Progress`. -/
def console1 : Console :=
  { console0 with Exit_In_Progress_closed := true }

/-- The cases whose body is `close(Exit_In_Progress)` and `return nil`. -/
def Case.isExit : Case → Bool
  | .bye => true
  | .exit => true
  | .quit => true
  | _ => false

/-! ## The dispatch loop and the teardown of `main` (main.go, lines 525-542) -/

/-- How the loop `for { if err = readline_loop(...); err == nil { break } }` stands: left by
`break`, waiting in `Readline` for more input, or inside a handler loop the model could not
finish. -/
inductive LoopExit where
  | left
  | waiting
  | outOfFuel
deriving DecidableEq, Repr

/-- Result of the dispatch loop: state, effects, how it stands, the value every call of
`readline_loop` returned (in call order) and the unread input. -/
structure DispatchResult where
  state : Console
  effects : List Effect
  exit : LoopExit
  calls : List Returned
  rest : List Input

/-- The dispatch loop of `main` (lines 525-529); `fuel` bounds the number of calls of
`readline_loop`. -/
def dispatch_loop (env : Env) : Nat → Console → List Input → DispatchResult
  | 0, st, inputs => ⟨st, [], .outOfFuel, [], inputs⟩
  | fuel + 1, st, inputs =>
    match (readline_loop env st inputs).returned with
    | .nil =>
      ⟨(readline_loop env st inputs).state, (readline_loop env st inputs).effects, .left,
        [.nil], (readline_loop env st inputs).rest⟩
    | .crashed =>
      let d := dispatch_loop env fuel (readline_loop env st inputs).state
        (readline_loop env st inputs).rest
      { d with
        effects := (readline_loop env st inputs).effects ++ d.effects
        calls := .crashed :: d.calls }
    | .waiting =>
      ⟨(readline_loop env st inputs).state, (readline_loop env st inputs).effects, .waiting,
        [.waiting], (readline_loop env st inputs).rest⟩
    | .outOfFuel =>
      ⟨(readline_loop env st inputs).state, (readline_loop env st inputs).effects,
        .outOfFuel, [.outOfFuel], (readline_loop env st inputs).rest⟩

/-- What `main` does from line 525 on, in program order: an effect of the dispatcher, a log
line, a sleep (milliseconds), the three shutdown calls, and a test of
`globals.Subsystem_Active > 0` with the value it read. -/
inductive MainEvent where
  | console (e : Effect)
  | Info (text : Str)
  | Sleep (ms : Nat)
  | RPCServer_Stop
  | P2P_Shutdown
  | chain_Shutdown
  | test_Subsystem_Active (value : Int)
deriving DecidableEq, Repr

/-- The loop `for globals.Subsystem_Active > 0 { Info; Sleep(1000) }` (lines 538-541).  The
counter is lowered by the subsystems as they stop: `active k` is the value the test number `k`
reads.  The result is the events and whether the loop was left (`false`: out of fuel). -/
def wait_subsystems (active : Nat → Int) : Nat → Nat → List MainEvent × Bool
  | 0, _ => ([], false)
  | fuel + 1, k =>
    if active k > 0 then
      ([.test_Subsystem_Active (active k),
        .Info "Exit in Progress, Please wait.".toList, .Sleep 1000]
        ++ (wait_subsystems active fuel (k + 1)).1,
       (wait_subsystems active fuel (k + 1)).2)
    else ([.test_Subsystem_Active (active k)], true)

/-- Where `main` stands at the end of a run. -/
inductive MainOutcome where
  | returned
  | dispatching (exit : LoopExit)
  | polling
deriving DecidableEq, Repr

/-- Result of `main` from line 525 on. -/
structure MainResult where
  state : Console
  events : List MainEvent
  outcome : MainOutcome

/-- The teardown (lines 531-541) after the dispatch loop was left. -/
def teardown (active : Nat → Int) (fuel : Nat) : List MainEvent × Bool :=
  ([.Info "Exit in Progress, Please wait".toList, .Sleep 100, .RPCServer_Stop, .P2P_Shutdown,
    .chain_Shutdown] ++ (wait_subsystems active fuel 0).1, (wait_subsystems active fuel 0).2)

/-- The function `main` from line 525 to its end: the dispatch loop, then the teardown. -/
def main_tail (env : Env) (active : Nat → Int) (calls polls : Nat) (st : Console)
    (inputs : List Input) : MainResult :=
  let d := dispatch_loop env calls st inputs
  match d.exit with
  | .left =>
    ⟨d.state, d.effects.map .console ++ (teardown active polls).1,
      if (teardown active polls).2 then .returned else .polling⟩
  | e => ⟨d.state, d.effects.map .console, .dispatching e⟩

/-- The shutdown calls among the events of `main`. -/
def shutdownCalls (events : List MainEvent) : List MainEvent :=
  events.filter fun e => e = .RPCServer_Stop ∨ e = .P2P_Shutdown ∨ e = .chain_Shutdown

/-- The values the tests of `globals.Subsystem_Active` read, in program order. -/
def tests : List MainEvent → List Int
  | [] => []
  | .test_Subsystem_Active v :: rest => v :: tests rest
  | _ :: rest => tests rest

/-- A chain on which every block load fails. -/
def chainD : Chain :=
  { chainA with Load_BL_FROM_ID := fun _ => none }

/-- The environment `env0` over `chainD`. -/
def envD : Env :=
  { env0 with chain := chainD }

/-- A counter that reads 2, then 1, then 0 from the third test on. -/
def active0 (k : Nat) : Int :=
  2 - min k 2

/-! ## The telemetry sampler and the status renderer of `main` (lines 357-502)

The two goroutines share the local variables of `main` declared in lines 357-383.  A
`float64` quotient is kept as its two integer operands. -/

/-- What `hashratetostring` (lines 2029-2045) returns: the empty string, or a format applied
to `float64(hash_rate) / divisor` (to `hash_rate` itself for `%d H/s`, divisor 1). -/
inductive RateString where
  | empty
  | text (format : String) (hash_rate divisor : Nat)
deriving DecidableEq, Repr

/-- The function `hashratetostring`. -/
def hashratetostring (hash_rate : Nat) : RateString :=
  if hash_rate > 1000000000000 then .text "%.3f TH/s" hash_rate 1000000000000
  else if hash_rate > 1000000000 then .text "%.3f GH/s" hash_rate 1000000000
  else if hash_rate > 1000000 then .text "%.3f MH/s" hash_rate 1000000
  else if hash_rate > 1000 then .text "%.3f KH/s" hash_rate 1000
  else if hash_rate > 0 then .text "%d H/s" hash_rate 1
  else .empty

/-- The value of `network_loss`: `float64(0)`, or
`float64(total_orphans) / float64(blockcount) * 100`. -/
inductive Loss where
  | zero
  | ratio (total_orphans blockcount : Int)
deriving DecidableEq, Repr

/-- The telemetry variables of `main` (lines 364-383). -/
structure Telemetry where
  our_height : Int
  best_height : Int
  best_topo_height : Int
  peer_count : Nat
  topo_height : Int
  peer_whitelist : Nat
  mempool_tx_count : Nat
  regpool_tx_count : Nat
  network_hashrate : Nat
  hash_rate_string : RateString
  miniblock_count : Nat
  miner_count : Nat
  total_orphans : Int
  my_orphan_blocks_count : Int
  network_loss : Loss
  blockcount : Int
deriving DecidableEq, Repr

/-- The variables of package `globals` the two goroutines read or write. -/
structure Globals where
  NetworkTurtle : Bool
  BlockChainStartHeight : Int
  CountTotalBlocks : Int
  CountOrphanBlocks : Int
  CountOrphanMinis : Int
  CountMinisAccepted : Int
  CountBlocksAccepted : Int
  CountUniqueMiners : Int
  MiniBlocksCollectionCount : Int
deriving DecidableEq, Repr

/-- The variables `last_*` of the renderer (lines 357-363). -/
structure Last where
  last_our_height : Int
  last_best_height : Int
  last_peer_count : Nat
  last_topo_height : Int
  last_mempool_tx_count : Nat
  last_regpool_tx_count : Nat
  last_second : Int
deriving DecidableEq, Repr

/-- The colour escapes of the prompt: `\033[32m`, `\033[33m`, `\033[31m`. -/
inductive Color where
  | green
  | yellow
  | red
deriving DecidableEq, Repr

/-- The text between the operator name and the heights in the prompt. -/
inductive TurtleString where
  | none
  | Turtle
  | TrustedMode
  | TrustedModeTurtle
deriving DecidableEq, Repr

/-- The arguments of the `Sprintf` calls that build the prompt (lines 481-488); the three clock
offsets of the menu string are not recorded. -/
structure Prompt where
  OperatorName : Str
  turtle_string : TurtleString
  color : Color
  our_height : Int
  topo_height : Int
  best_height : Int
  best_topo_height : Int
  pcolor : Color
  peer_whitelist : Nat
  peer_count : Nat
  mempool_tx_count : Nat
  regpool_tx_count : Nat
  hash_rate_string : RateString
  unique_miner_count : Int
  miner_count : Nat
  good_minus_orphans : Int
  good_blocks : Int
  MiniBlocksCollectionCount : Int
  miniblock_count : Nat
  network_loss : Loss
deriving DecidableEq, Repr

/-- The state the sampler and the renderer act on: telemetry, globals, running
configuration, the `last_*` variables and the prompt of the readline instance. -/
structure Status where
  t : Telemetry
  g : Globals
  config : RunningConfig
  last : Last
  prompt : Option Prompt
deriving DecidableEq, Repr

/-- The calls of the readline instance. -/
inductive UICall where
  | SetPrompt (p : Prompt)
  | Refresh
deriving DecidableEq, Repr

/-- The variable `color` (lines 451-458). -/
def color (our_height best_height : Int) : Color :=
  if our_height < best_height then .yellow
  else if our_height > best_height then .red
  else .green

/-- The variable `pcolor` (lines 460-467); `peer_count` is a `uint64`. -/
def pcolor (peer_count : Nat) : Color :=
  if peer_count < 1 then .red
  else if peer_count ≤ 8 then .yellow
  else .green

/-- The flag `globals.NetworkTurtle` after the two colour choices (lines 452-467). -/
def turtle_after (t : Telemetry) (NetworkTurtle : Bool) : Bool :=
  let by_height :=
    if t.our_height < t.best_height then true
    else if t.our_height > t.best_height then false
    else NetworkTurtle
  if t.peer_count < 1 then false
  else if t.peer_count ≤ 8 then true
  else by_height

/-- The variable `turtle_string` (lines 469-479). -/
def turtle_string (OnlyTrusted NetworkTurtle : Bool) : TurtleString :=
  if OnlyTrusted then
    if NetworkTurtle then .TrustedModeTurtle else .TrustedMode
  else if NetworkTurtle then .Turtle
  else .none

/-- The test of line 449; `now` is `time.Now().Unix()`. -/
def changed (now : Int) (s : Status) : Bool :=
  s.last.last_second != now || s.last.last_our_height != s.t.our_height ||
  s.last.last_best_height != s.t.best_height || s.last.last_peer_count != s.t.peer_count ||
  s.last.last_topo_height != s.t.topo_height ||
  s.last.last_mempool_tx_count != s.t.mempool_tx_count ||
  s.last.last_regpool_tx_count != s.t.regpool_tx_count

/-- The prompt a redraw sets (lines 450-488), `turtle` being `globals.NetworkTurtle` after the
colour choices. -/
def prompt_of (s : Status) (turtle : Bool) : Prompt where
  OperatorName := s.config.OperatorName
  turtle_string := turtle_string s.config.OnlyTrusted turtle
  color := color s.t.our_height s.t.best_height
  our_height := s.t.our_height
  topo_height := s.t.topo_height
  best_height := s.t.best_height
  best_topo_height := s.t.best_topo_height
  pcolor := pcolor s.t.peer_count
  peer_whitelist := s.t.peer_whitelist
  peer_count := s.t.peer_count
  mempool_tx_count := s.t.mempool_tx_count
  regpool_tx_count := s.t.regpool_tx_count
  hash_rate_string := s.t.hash_rate_string
  unique_miner_count := s.g.CountUniqueMiners
  miner_count := s.t.miner_count
  good_minus_orphans :=
    wrap64 (wrap64 (s.g.CountMinisAccepted + s.g.CountBlocksAccepted)
      - s.t.my_orphan_blocks_count)
  good_blocks := wrap64 (s.g.CountMinisAccepted + s.g.CountBlocksAccepted)
  MiniBlocksCollectionCount := s.g.MiniBlocksCollectionCount
  miniblock_count := s.t.miniblock_count
  network_loss := s.t.network_loss

/-- One iteration of the renderer loop (lines 449-498): `now` is the clock read by the test of
line 449, `now2` the clock read in line 490.  The result is the new state and the calls of the
readline instance. -/
def render_iteration (now now2 : Int) (s : Status) : Status × List UICall :=
  if changed now s then
    let turtle := turtle_after s.t s.g.NetworkTurtle
    let p := prompt_of s turtle
    ({ s with
        g := { s.g with NetworkTurtle := turtle }
        prompt := some p
        last :=
          { last_second := now2
            last_our_height := s.t.our_height
            last_best_height := s.t.best_height
            last_peer_count := s.t.peer_count
            last_mempool_tx_count := s.t.mempool_tx_count
            last_regpool_tx_count := s.t.regpool_tx_count
            last_topo_height := s.t.best_topo_height } },
      [.SetPrompt p, .Refresh])
  else (s, [])

/-- The collaborator calls of one sampler tick, in program order.  `Get_Height_orphans` is
the call inside the argument of `CountNetworkOrphanSince` (line 416), `Get_Height_start` the
call of line 432. -/
inductive Call where
  | Get_Height
  | Best_Peer_Height
  | Peer_Count
  | Load_TOPO_HEIGHT
  | Peer_Count_Whitelist
  | Mempool_List_TX
  | Regpool_List_TX
  | Get_Network_HashRate
  | MiniBlocks_Count
  | CountMiners
  | Get_Height_orphans
  | CountNetworkOrphanSince
  | Get_Height_start
deriving DecidableEq, Repr

/-- The source line of a call. -/
def Call.line : Call → Nat
  | .Get_Height => 403
  | .Best_Peer_Height => 404
  | .Peer_Count => 405
  | .Load_TOPO_HEIGHT => 406
  | .Peer_Count_Whitelist => 407
  | .Mempool_List_TX => 409
  | .Regpool_List_TX => 410
  | .Get_Network_HashRate => 411
  | .MiniBlocks_Count => 414
  | .CountMiners => 415
  | .Get_Height_orphans => 416
  | .CountNetworkOrphanSince => 416
  | .Get_Height_start => 432

/-- What the collaborators answer during one tick; `none` is a call that panics.  The two
pool calls give the length of the list, `CountNetworkOrphanSince` takes its `uint64`
argument. -/
structure Sample where
  Get_Height : Option Int
  Best_Peer_Height : Option (Int × Int)
  Peer_Count : Option Nat
  Load_TOPO_HEIGHT : Option Int
  Peer_Count_Whitelist : Option Nat
  Mempool_List_TX : Option Nat
  Regpool_List_TX : Option Nat
  Get_Network_HashRate : Option Nat
  MiniBlocks_Count : Option Nat
  CountMiners : Option Nat
  Get_Height_orphans : Option Int
  CountNetworkOrphanSince : Nat → Option Int
  Get_Height_start : Option Int

/-- Result of the function literal of a tick: the state it leaves and the call that
panicked, if one did. -/
structure Tick where
  state : Status
  failed : Option Call

/-- The conversion `uint64(x)` of an `int64`. -/
def toUint64 (x : Int) : Nat :=
  (x % 2 ^ 64).toNat

/-- Lines 419-429 and 431-433 of a tick, behind the last assignment from a collaborator. -/
def sampler_tail (c : Sample) (s : Status) : Tick :=
  let blockcount0 := wrap64 (s.config.NetworkStatsKeepCount * 10)
  let blockcount :=
    if s.g.CountTotalBlocks < blockcount0 then s.g.CountTotalBlocks
    else wrap64 (blockcount0 + s.t.total_orphans)
  let network_loss :=
    if s.t.total_orphans > 0 ∧ blockcount > 0 then Loss.ratio s.t.total_orphans blockcount
    else Loss.zero
  let s1 := { s with t := { s.t with network_loss := network_loss, blockcount := blockcount } }
  if s.g.BlockChainStartHeight = 0 ∧ s.g.CountTotalBlocks ≥ 1 then
    match c.Get_Height_start with
    | none => ⟨s1, some .Get_Height_start⟩
    | some h => ⟨{ s1 with g := { s1.g with BlockChainStartHeight := h } }, none⟩
  else ⟨s1, none⟩

/-- The function literal of one tick (lines 401-435): the variables are assigned one after
the other, so a panic leaves the assignments made before it. -/
def sampler_tick (c : Sample) (s : Status) : Tick :=
  match c.Get_Height with
  | none => ⟨s, some .Get_Height⟩
  | some h =>
  let s := { s with t := { s.t with our_height := h } }
  match c.Best_Peer_Height with
  | none => ⟨s, some .Best_Peer_Height⟩
  | some (bh, bth) =>
  let s := { s with t := { s.t with best_height := bh, best_topo_height := bth } }
  match c.Peer_Count with
  | none => ⟨s, some .Peer_Count⟩
  | some pc =>
  let s := { s with t := { s.t with peer_count := pc } }
  match c.Load_TOPO_HEIGHT with
  | none => ⟨s, some .Load_TOPO_HEIGHT⟩
  | some th =>
  let s := { s with t := { s.t with topo_height := th } }
  match c.Peer_Count_Whitelist with
  | none => ⟨s, some .Peer_Count_Whitelist⟩
  | some pw =>
  let s := { s with t := { s.t with peer_whitelist := pw } }
  match c.Mempool_List_TX with
  | none => ⟨s, some .Mempool_List_TX⟩
  | some m =>
  let s := { s with t := { s.t with mempool_tx_count := m } }
  match c.Regpool_List_TX with
  | none => ⟨s, some .Regpool_List_TX⟩
  | some r =>
  let s := { s with t := { s.t with regpool_tx_count := r } }
  match c.Get_Network_HashRate with
  | none => ⟨s, some .Get_Network_HashRate⟩
  | some nh =>
  let s := { s with t := { s.t with network_hashrate := nh,
                                    hash_rate_string := hashratetostring nh } }
  match c.MiniBlocks_Count with
  | none => ⟨s, some .MiniBlocks_Count⟩
  | some mb =>
  let s := { s with t := { s.t with miniblock_count := mb } }
  match c.CountMiners with
  | none => ⟨s, some .CountMiners⟩
  | some mc =>
  let s := { s with t := { s.t with miner_count := mc } }
  match c.Get_Height_orphans with
  | none => ⟨s, some .Get_Height_orphans⟩
  | some h2 =>
  match c.CountNetworkOrphanSince (toUint64 (wrap64 (h2 - s.config.NetworkStatsKeepCount))) with
  | none => ⟨s, some .CountNetworkOrphanSince⟩
  | some o =>
  let s := { s with t := { s.t with
    total_orphans := o
    my_orphan_blocks_count := wrap64 (s.g.CountOrphanBlocks + s.g.CountOrphanMinis) } }
  sampler_tail c s

/-- One iteration of the sampler loop (lines 394-437).  `recovers` says whether the deferred
`globals.Recover(0)` stops a panic of the tick; when it does not, the panic ends the
process (`none`). -/
def sampler_iteration (recovers : Bool) (c : Sample) (s : Status) : Option Status :=
  match (sampler_tick c s).failed with
  | none => some (sampler_tick c s).state
  | some _ => if recovers then some (sampler_tick c s).state else none

/-- The sampler loop over the answers of successive ticks, until `Exit_In_Progress` is
closed (here: until the answers end). -/
def sampler_loop (recovers : Bool) : List Sample → Status → Option Status
  | [], s => some s
  | c :: cs, s =>
    match sampler_iteration recovers c s with
    | none => none
    | some s1 => sampler_loop recovers cs s1

/-- The telemetry variables the claims name. -/
inductive Var where
  | our_height | best_height | best_topo_height | peer_count | peer_whitelist | topo_height
  | mempool_tx_count | regpool_tx_count | network_hashrate | miniblock_count | miner_count
  | total_orphans | my_orphan_blocks_count | network_loss
deriving DecidableEq, Repr

/-- The source line of the first assignment to a variable in a tick. -/
def Var.line : Var → Nat
  | .our_height => 403
  | .best_height => 404
  | .best_topo_height => 404
  | .peer_count => 405
  | .topo_height => 406
  | .peer_whitelist => 407
  | .mempool_tx_count => 409
  | .regpool_tx_count => 410
  | .network_hashrate => 411
  | .miniblock_count => 414
  | .miner_count => 415
  | .total_orphans => 416
  | .my_orphan_blocks_count => 417
  | .network_loss => 419

/-- The two snapshots hold the same value of a variable. -/
def Var.same (v : Var) (a b : Telemetry) : Prop :=
  match v with
  | .our_height => a.our_height = b.our_height
  | .best_height => a.best_height = b.best_height
  | .best_topo_height => a.best_topo_height = b.best_topo_height
  | .peer_count => a.peer_count = b.peer_count
  | .topo_height => a.topo_height = b.topo_height
  | .peer_whitelist => a.peer_whitelist = b.peer_whitelist
  | .mempool_tx_count => a.mempool_tx_count = b.mempool_tx_count
  | .regpool_tx_count => a.regpool_tx_count = b.regpool_tx_count
  | .network_hashrate => a.network_hashrate = b.network_hashrate
  | .miniblock_count => a.miniblock_count = b.miniblock_count
  | .miner_count => a.miner_count = b.miner_count
  | .total_orphans => a.total_orphans = b.total_orphans
  | .my_orphan_blocks_count => a.my_orphan_blocks_count = b.my_orphan_blocks_count
  | .network_loss => a.network_loss = b.network_loss

instance (v : Var) (a b : Telemetry) : Decidable (v.same a b) := by
  cases v <;> unfold Var.same <;> infer_instance

/-! ### Concrete status used for evaluation -/

/-- A node at height 5 (topo height 5) whose best peer is at height 5, topo height 7, with
twelve peers and empty pools. -/
def telemetry0 : Telemetry :=
  ⟨5, 5, 7, 12, 5, 12, 0, 0, 0, .empty, 0, 0, 0, 0, .zero, 0⟩

/-- Globals with every counter 0 and the turtle flag off. -/
def globals0 : Globals :=
  ⟨false, 0, 0, 0, 0, 0, 0, 0, 0⟩

/-- The status before the first redraw: `last_*` are 0 (lines 357-363). -/
def status0 : Status :=
  ⟨telemetry0, globals0, config0, ⟨0, 0, 0, 0, 0, 0, 0⟩, none⟩

/-- Answers of a tick in which `Get_Height` gives 6 and `Best_Peer_Height` panics. -/
def sample0 : Sample :=
  ⟨some 6, none, some 12, some 6, some 12, some 0, some 0, some 0, some 0, some 0, some 6,
    fun _ => some 0, some 6⟩

/-! ## The statistics commands (main.go, lines 1235-1353 and 1375-1414)

The bodies of the cases `active_nodes`, `active_miners` and `miner_info`, which `dispatch`
records as `handler`.  The counters are integers read with `%d`; a percentage is kept as the
two operands of its `float64` division. -/

/-- The counters of one entity in the map a statistics collaborator returns. -/
structure Counters where
  total : Int
  finals : Int
  minis : Int
  orphans : Int
  ibo : Int
  mbo : Int
deriving DecidableEq, Repr

/-- The map returned by `GetActiveNodesFromHeight` or `GetActiveMinersFromHeight`, as its
entries in the order in which `range` iterates over it. -/
abbrev StatsMap := List (Str × Counters)

/-- The index expression `m[key]`: counters of a missing key read 0. -/
def StatsMap.get (m : StatsMap) (key : Str) : Counters :=
  match m.find? (fun e => e.1 = key) with
  | some e => e.2
  | none => ⟨0, 0, 0, 0, 0, 0⟩

/-- The order `sort.SliceStable` establishes for `less`: `a` may stand before `b` when
`less b a` is false. -/
def notAfter {α : Type} (less : α → α → Bool) (a b : α) : Prop :=
  less b a = false

instance {α : Type} (less : α → α → Bool) : DecidableRel (notAfter less) :=
  fun a b => inferInstanceAs (Decidable (less b a = false))

/-- The function `sort.SliceStable` of the Go library, a stable sort, written as an
insertion sort. -/
def SliceStable {α : Type} (less : α → α → Bool) (xs : List α) : List α :=
  xs.insertionSort (notAfter less)

/-- The comparison of lines 1246-1248 and 1304-1306: a larger `total` first. -/
def more_total (m : StatsMap) (a b : Str) : Bool :=
  decide ((m.get a).total > (m.get b).total)

/-- The slice `ordered_nodes` (`ordered_minder`) after the sort (lines 1239-1248,
1297-1306). -/
def ordered_nodes (m : StatsMap) : List Str :=
  SliceStable (more_total m) (m.map (·.1))

/-- The variable `show_count` (lines 1250-1263, 1308-1321) and whether the usage line is
written; `n` is `len(active_nodes)`. -/
def show_count (line_parts : List Str) (n : Nat) : Int × Bool :=
  let asked : Int × Bool :=
    if line_parts.length = 2 then
      match ParseInt (arg line_parts 1) with
      | none => (25, true)
      | some i => (i, false)
    else (25, false)
  (if asked.1 > n then (n : Int) else asked.1, asked.2)

/-- The variable `keep_blocks` (lines 1266-1271, 1324-1329, 1381-1386). -/
def keep_blocks (height BlockChainStartHeight NetworkStatsKeepCount : Int) : Int :=
  if wrap64 (height - BlockChainStartHeight) < NetworkStatsKeepCount then
    wrap64 (height - BlockChainStartHeight)
  else NetworkStatsKeepCount

/-- A percentage as the code computes it: `float64(num) / float64(den) * 100`. -/
structure Percent where
  num : Int
  den : Int
deriving DecidableEq, Repr

/-- What `%.2f%%` prints for a percentage: a number, or the text of an IEEE 754 division by
zero. -/
inductive PercentText where
  | number (q : ℚ)
  | NaN
  | posInf
  | negInf
deriving DecidableEq

/-- The value of the `float64` expression up to rounding: division by zero gives `NaN` for
`0 / 0` and an infinity otherwise. -/
def Percent.text (p : Percent) : PercentText :=
  if p.den ≠ 0 then .number ((p.num : ℚ) / (p.den : ℚ) * 100)
  else if p.num = 0 then .NaN
  else if p.num > 0 then .posInf
  else .negInf

/-- The exact value of a percentage whose divisor is not zero. -/
def Percent.exact (p : Percent) : ℚ :=
  (p.num : ℚ) / (p.den : ℚ) * 100

/-- One line of the table of `active_nodes` (line 1287). -/
structure NodeRow where
  node : Str
  finals : Int
  minis : Int
  orphans : Int
  orphan_loss : Percent
  dominance : Percent
deriving DecidableEq, Repr

/-- The line of one node (lines 1284-1287); `total_blocks` is `ib + mb`. -/
def node_row (m : StatsMap) (total_blocks : Int) (node : Str) : NodeRow :=
  ⟨node, (m.get node).finals, (m.get node).minis, (m.get node).orphans,
    ⟨(m.get node).orphans, (m.get node).total⟩,
    ⟨(m.get node).finals + (m.get node).minis, total_blocks⟩⟩

/-- The table of `active_nodes` (lines 1275-1289): the loop leaves at `count >= show_count`.
`m` is the map, `ib` and `mb` what `GetBlockLogLenght` returned. -/
def active_nodes (m : StatsMap) (ib mb : Int) (line_parts : List Str) : List NodeRow :=
  ((ordered_nodes m).take (show_count line_parts m.length).1.toNat).map (node_row m (ib + mb))

/-- One line of the table of `active_miners` (line 1348) or `miner_info` (line 1399). -/
structure MinerRow where
  miner : Str
  finals : Int
  minis : Int
  ibo : Int
  mbo : Int
  orphans : Int
  orphan_loss : Percent
  dominance : Percent
deriving DecidableEq, Repr

/-- The line of one miner (lines 1341-1348, 1394-1399). -/
def miner_row (m : StatsMap) (keep : Int) (miner : Str) : MinerRow :=
  ⟨miner, (m.get miner).finals, (m.get miner).minis, (m.get miner).ibo, (m.get miner).mbo,
    (m.get miner).orphans, ⟨(m.get miner).orphans, (m.get miner).total⟩,
    ⟨(m.get miner).total, 10 * keep⟩⟩

/-- The table of `active_miners` (lines 1323-1351). -/
def active_miners (m : StatsMap) (height BlockChainStartHeight NetworkStatsKeepCount : Int)
    (line_parts : List Str) : List MinerRow :=
  ((ordered_nodes m).take (show_count line_parts m.length).1.toNat).map
    (miner_row m (keep_blocks height BlockChainStartHeight NetworkStatsKeepCount))

/-- The miner lines of `miner_info` (lines 1377-1399): one for every key of the map equal to
the argument; with another number of fields only the usage line is printed. -/
def miner_info (m : StatsMap) (height BlockChainStartHeight NetworkStatsKeepCount : Int)
    (line_parts : List Str) : List MinerRow :=
  if line_parts.length = 2 then
    ((m.map (·.1)).filter (fun k => k = arg line_parts 1)).map
      (miner_row m (keep_blocks height BlockChainStartHeight NetworkStatsKeepCount))
  else []

/-- The sum of the exact dominance percentages of a table. -/
def dominanceSum (ps : List Percent) : ℚ :=
  (ps.map Percent.exact).sum

/-! ### Concrete maps used for evaluation -/

/-- Two nodes with one block each, in iteration order `a`, `b`. -/
def nodes2 : StatsMap :=
  [("a".toList, ⟨1, 1, 0, 0, 0, 0⟩), ("b".toList, ⟨1, 0, 1, 0, 0, 0⟩)]

/-- Three entities with totals 2, 5, 2 in iteration order `a`, `b`, `c`. -/
def nodes3 : StatsMap :=
  [("a".toList, ⟨2, 1, 1, 0, 0, 0⟩), ("b".toList, ⟨5, 2, 3, 1, 0, 1⟩),
    ("c".toList, ⟨2, 0, 2, 0, 0, 0⟩)]

/-- One entity without any block. -/
def nodes1 : StatsMap :=
  [("a".toList, ⟨0, 0, 0, 0, 0, 0⟩)]

/-- Two miners with 6 and 4 blocks. -/
def miners2 : StatsMap :=
  [("x".toList, ⟨6, 1, 5, 0, 0, 0⟩), ("y".toList, ⟨4, 0, 4, 1, 0, 1⟩)]

/-! ## Start-up options of `main` (main.go, lines 243-296) -/

/-- The error kinds of `strconv.ParseInt`. -/
inductive NumError where
  | ErrSyntax
  | ErrRange
deriving DecidableEq, Repr

/-- Both results of `strconv.ParseInt(s, 10, 64)`: with a syntax error the value is 0, with
a range error it is the nearest `int64`.  `ParseInt` is the value when there is no error
(`ParseInt_value`). -/
def ParseInt_result (s : Str) : Int × Option NumError :=
  let neg := s.head? = some '-'
  let ds := if s.head? = some '-' ∨ s.head? = some '+' then s.tail else s
  if ds = [] ∨ ds.all isDigit = false then (0, some .ErrSyntax)
  else if neg then
    if digitsValue ds ≤ 2 ^ 63 then (-(digitsValue ds : Int), none)
    else (-(2 ^ 63), some .ErrRange)
  else
    if digitsValue ds < 2 ^ 63 then ((digitsValue ds : Int), none)
    else (2 ^ 63 - 1, some .ErrRange)

/-- Lines 293-296: `i, err := strconv.ParseInt(os.Getenv("JOB_SEND_TIME_DELAY"), 10, 64)`,
then `if err != nil && i > 0` the delay becomes `i * int64(time.Millisecond)` nanoseconds.
`value` is what `os.Getenv` returned, the empty string when the variable is unset. -/
def job_send_time_delay (value : Str) (c : RunningConfig) : RunningConfig :=
  if (ParseInt_result value).2 ≠ none ∧ (ParseInt_result value).1 > 0 then
    { c with GETWorkJobDispatchTime := wrap64 ((ParseInt_result value).1 * 1000000) }
  else c

/-- What `main` does in lines 243-280: an error or info line of the logger (the error value
when it is made in `main`, and the message), and the calls of `blockchain.Prune_Blockchain`
and `blockchain.Blockchain_Start`. -/
inductive StartEvent where
  | Error (err : Option String) (msg : String)
  | Info (msg : String)
  | Prune_Blockchain (prune_topo : Int)
  | Blockchain_Start
deriving DecidableEq, Repr

/-- Lines 276-280: start the chain; `main` returns when that fails.  The result is the events
and whether `main` has returned. -/
def start_chain (Blockchain_Start_fails : Bool) : List StartEvent × Bool :=
  if Blockchain_Start_fails then
    ([.Blockchain_Start, .Error none "Error starting blockchain"], true)
  else ([.Blockchain_Start], false)

/-- Lines 243-280.  `arg` is `globals.Arguments["--prune-history"]` (`none`: absent or nil);
the two collaborators fail as the parameters say. -/
def prune_history (arg : Option Str) (Prune_Blockchain_fails : Int → Bool)
    (Blockchain_Start_fails : Bool) : List StartEvent × Bool :=
  match arg with
  | none => start_chain Blockchain_Start_fails
  | some value =>
    match ParseInt value with
    | none => ([.Error none "error Parsing --prune-history "], true)
    | some i =>
      if i ≤ 1 then
        ([.Error (some "--prune-history should be positive and more than 1")
          "invalid argument"], true)
      else if Prune_Blockchain_fails i then
        ([.Info "will prune history till", .Prune_Blockchain i,
          .Error none "Error pruning blockchain "], true)
      else
        ([.Info "will prune history till", .Prune_Blockchain i,
          .Info "blockchain pruning successful"]
          ++ (start_chain Blockchain_Start_fails).1,
         (start_chain Blockchain_Start_fails).2)

/-- The calls of `Prune_Blockchain` and `Blockchain_Start` among the events. -/
def chainCalls (events : List StartEvent) : List StartEvent :=
  events.filter fun e =>
    match e with
    | .Prune_Blockchain _ => true
    | .Blockchain_Start => true
    | _ => false

/-- The error lines among the events. -/
def errorLines (events : List StartEvent) : List StartEvent :=
  events.filter fun e =>
    match e with
    | .Error _ _ => true
    | _ => false

/-! ## The commands `print_bc` and `graph` (main.go, lines 622-687, 1851-1883, 1990-2082) -/

/-- Read-only collaborators of the two commands besides those of `Chain`: the topo height,
the merkle hash of a snapshot version (`none` is a returned error), the blocks at a height,
and for a block whether decoding its miner address fails, its two colour tests, its topo
order and the field `Height` of the loaded block. -/
structure Explorer where
  Load_TOPO_HEIGHT : Int
  Load_Merkle_Hash : Nat → Option Nat
  Get_Blocks_At_Height : Int → List Hash
  DecodeCompressed_fails : Hash → Bool
  Isblock_SideBlock : Hash → Bool
  IsBlockSyncBlockHeight : Hash → Bool
  Load_Block_Topological_order : Hash → Int
  Block_Height : Hash → Int

/-- What `print_bc` did: the topo heights it looked up (`visited`), those it reported with
the three info lines, the messages of `logger.Error`, and how the pass ends. -/
structure PrintResult where
  visited : List Int
  reported : List Int
  errors : List String
  control : Control
deriving DecidableEq, Repr

/-- Put what an iteration did in front of the result of the remaining ones. -/
def PrintResult.after (visited reported : List Int) (errors : List String)
    (r : PrintResult) : PrintResult :=
  { r with
    visited := visited ++ r.visited
    reported := reported ++ r.reported
    errors := errors ++ r.errors }

/-- The loop `for i := start; i <= stop; i++` of `print_bc` (lines 658-687): a failed lookup
skips the height, a failed version or merkle read panics; `i++` is an `int64` increment. -/
def print_bc_loop (chain : Chain) (store : TopoStore) (x : Explorer) (stop : Int) :
    Nat → Int → PrintResult
  | 0, i => if i ≤ stop then ⟨[], [], [], .outOfFuel⟩ else ⟨[], [], [], .next⟩
  | fuel + 1, i =>
    if i ≤ stop then
      match chain.Load_Block_Topological_order_at_index store i with
      | none =>
        (print_bc_loop chain store x stop fuel (wrap64 (i + 1))).after [i] []
          ["Skipping block at height due to error \n"]
      | some current_block_id =>
        match chain.ReadBlockSnapshotVersion current_block_id with
        | none => ⟨[i], [], [], .panic⟩
        | some version =>
          match x.Load_Merkle_Hash version with
          | none => ⟨[i], [], [], .panic⟩
          | some _ =>
            (print_bc_loop chain store x stop fuel (wrap64 (i + 1))).after [i] [i] []
    else ⟨[], [], [], .next⟩

/-- The case `print_bc` (lines 622-687); every `continue` of the checks follows one
`logger.Error`. -/
def print_bc (chain : Chain) (store : TopoStore) (x : Explorer) (fuel : Nat)
    (line_parts : List Str) : PrintResult :=
  if line_parts.length ≠ 3 then
    ⟨[], [], ["This function requires 2 parameters, start and endpoint"], .next⟩
  else
    match ParseInt (arg line_parts 1) with
    | none => ⟨[], [], ["Invalid start value"], .next⟩
    | some start =>
      match ParseInt (arg line_parts 2) with
      | none => ⟨[], [], ["Invalid stop value"], .next⟩
      | some stop =>
        if start < 0 ∨ start > x.Load_TOPO_HEIGHT then
          ⟨[], [], ["Start value should be be between 0 and current height"], .next⟩
        else if start > stop ∨ stop > x.Load_TOPO_HEIGHT then
          ⟨[], [], ["Stop value should be > start and current height"], .next⟩
        else print_bc_loop chain store x stop fuel start

/-- The topo heights `start, start + 1, ..., start + n - 1`. -/
def heightsFrom (start : Int) (n : Nat) : List Int :=
  (List.range n).map fun k : Nat => start + (k : Int)

/-- The loop over `blids` of lines 2054-2060: `none` is the panic on a block that is already
in `node_map`. -/
def add_blocks : List Hash → List Hash → Option (List Hash)
  | [], node_map => some node_map
  | blid :: blids, node_map =>
    if blid ∈ node_map then none else add_blocks blids (node_map ++ [blid])

/-- The loop `for i := start_height; i < stop_height; i++` of lines 2051-2061 with `n`
heights left; `node_map` is kept as the list of its keys in the order of insertion. -/
def collect (x : Explorer) : Nat → Int → List Hash → Option (List Hash)
  | 0, _, node_map => some node_map
  | n + 1, i, node_map =>
    match add_blocks (x.Get_Blocks_At_Height i) node_map with
    | none => none
    | some node_map1 => collect x n (i + 1) node_map1

/-- A line of the file `graph.dot`. -/
inductive GraphLine where
  | digraph
  | nodeOpen
  | node (blid : Hash) (color : String) (height : Int) (order : Int)
  | nodeClose
  | edge (tip blid : Hash)
  | close
deriving DecidableEq, Repr

/-- The function `writenode` (lines 1990-2027): the lines it writes and whether it panics.
It panics after the opening line on a block that does not load (line 2007 reads
`bl.Miner_TX` of the `nil` block before line 2017 tests `err`) and on a miner address that
cannot be decoded. -/
def writenode (chain : Chain) (x : Explorer) (blid : Hash) (start_height : Int) :
    List GraphLine × Bool :=
  let color :=
    if x.IsBlockSyncBlockHeight blid then "green"
    else if x.Isblock_SideBlock blid then "yellow"
    else "white"
  match chain.Load_BL_FROM_ID blid with
  | none => ([.nodeOpen], true)
  | some tips =>
    if x.DecodeCompressed_fails blid then ([.nodeOpen], true)
    else
      let lines := [.nodeOpen,
        .node blid color (chain.Load_Height_for_BL_ID blid)
          (x.Load_Block_Topological_order blid),
        .nodeClose]
      if x.Block_Height blid > start_height then
        (lines ++ tips.map fun tip => .edge tip blid, false)
      else (lines, false)

/-- The body of the loop `for blid := range node_map` of lines 2073-2075 run over the keys
in the order given: it ends at the first `writenode` that panics. -/
def write_nodes (chain : Chain) (x : Explorer) (start_height : Int) :
    List Hash → List GraphLine × Bool
  | [] => ([], false)
  | blid :: rest =>
    if (writenode chain x blid start_height).2 then
      ((writenode chain x blid start_height).1, true)
    else
      ((writenode chain x blid start_height).1 ++ (write_nodes chain x start_height rest).1,
        (write_nodes chain x start_height rest).2)

/-- How `WriteBlockChainTree` ends. -/
inductive TreeOutcome where
  | returned
  | createFailed
  | duplicate
  | nodePanic
deriving DecidableEq, Repr

/-- Result of `WriteBlockChainTree`: how it ends, the keys of `node_map` and the lines in
the file. -/
structure TreeResult where
  outcome : TreeOutcome
  node_map : List Hash
  file : List GraphLine
deriving DecidableEq, Repr

/-- The function `WriteBlockChainTree` (lines 2047-2082); `create_fails` says whether
`os.Create` returns an error.  Go leaves open in which order `for blid := range node_map`
meets the keys of the map: `range_keys` is that order, a parameter that maps the keys (here
in the order of insertion) to the sequence in which the loop meets them. -/
def WriteBlockChainTree (chain : Chain) (x : Explorer) (create_fails : Bool)
    (range_keys : List Hash → List Hash) (start_height stop_height : Int) : TreeResult :=
  match collect x (stop_height - start_height).toNat start_height [] with
  | none => ⟨.duplicate, [], []⟩
  | some node_map =>
    if create_fails then ⟨.createFailed, node_map, []⟩
    else if (write_nodes chain x start_height (range_keys node_map)).2 then
      ⟨.nodePanic, node_map,
        .digraph :: (write_nodes chain x start_height (range_keys node_map)).1⟩
    else
      ⟨.returned, node_map,
        .digraph :: (write_nodes chain x start_height (range_keys node_map)).1 ++ [.close]⟩

/-- What the case `graph` did: the message of a failed check and the call of
`WriteBlockChainTree`, if it was made. -/
structure GraphResult where
  message : Option String
  tree : Option TreeResult
deriving DecidableEq, Repr

/-- The case `graph` (lines 1851-1883). -/
def graph (chain : Chain) (x : Explorer) (create_fails : Bool)
    (range_keys : List Hash → List Hash) (line_parts : List Str) : GraphResult :=
  if line_parts.length ≠ 3 then
    ⟨some "This function requires 2 parameters, start height and end height\n", none⟩
  else
    match ParseInt (arg line_parts 1) with
    | none => ⟨some "Invalid start value", none⟩
    | some start =>
      match ParseInt (arg line_parts 2) with
      | none => ⟨some "Invalid stop value", none⟩
      | some stop =>
        if start < 0 ∨ start > x.Load_TOPO_HEIGHT then
          ⟨some "Start value should be be between 0 and current height", none⟩
        else if start > stop ∨ stop > x.Load_TOPO_HEIGHT then
          ⟨some "Stop value should be > start and current height\n", none⟩
        else ⟨none, some (WriteBlockChainTree chain x create_fails range_keys start stop)⟩

/-- The blocks that have a node line in the file. -/
def graphNodes : List GraphLine → List Hash
  | [] => []
  | .node blid _ _ _ :: rest => blid :: graphNodes rest
  | _ :: rest => graphNodes rest

/-- The blocks `Get_Blocks_At_Height` lists at the given heights, in order. -/
def blocksAt (x : Explorer) (heights : List Int) : List Hash :=
  (heights.map x.Get_Blocks_At_Height).flatten

/-- What the chain store guarantees of `Get_Blocks_At_Height`: a height lists no block
twice, and it lists a block only at the height of that block. -/
def listedAtOwnHeight (chain : Chain) (x : Explorer) : Prop :=
  ∀ h, (x.Get_Blocks_At_Height h).Nodup ∧
    ∀ b ∈ x.Get_Blocks_At_Height h, chain.Load_Height_for_BL_ID b = h

/-! ### Concrete explorers used for evaluation -/

/-- A chain of topo height 3 with one block per height (block `h` at height `h`), every
merkle hash readable. -/
def explorerA : Explorer where
  Load_TOPO_HEIGHT := 3
  Load_Merkle_Hash := fun v => some v
  Get_Blocks_At_Height := fun h => if 0 ≤ h ∧ h ≤ 3 then [h.toNat] else []
  DecodeCompressed_fails := fun _ => false
  Isblock_SideBlock := fun _ => false
  IsBlockSyncBlockHeight := fun _ => true
  Load_Block_Topological_order := fun b => b
  Block_Height := fun b => b

/-- The explorer `explorerA` at the largest topo height an `int64` holds. -/
def explorerC : Explorer :=
  { explorerA with Load_TOPO_HEIGHT := 2 ^ 63 - 1 }

/-- The chain `chainA` in which the snapshot version of block 7, which `storeA` names at
topo height 2, cannot be read. -/
def chainE : Chain :=
  { chainA with ReadBlockSnapshotVersion := fun b => if b = 7 then none else some (100 + b) }

/-! ### Vocabulary of the claims on termination -/

/-- The passes through the body of a repair loop that went beyond the test of the floor:
each of them makes one call of `Topo_store.Read`. -/
def iterations : List Event → Nat
  | [] => 0
  | .Read _ _ :: evs => iterations evs + 1
  | _ :: evs => iterations evs

/-- The premise of C27: every block of height at least 1 loads, and its first tip has a
strictly smaller height. -/
def firstTipLower (chain : Chain) : Prop :=
  ∀ b, 1 ≤ chain.Load_Height_for_BL_ID b →
    ∃ t ts, chain.Load_BL_FROM_ID b = some (t :: ts) ∧
      chain.Load_Height_for_BL_ID t < chain.Load_Height_for_BL_ID b

/-! ### States a reader of the telemetry can meet -/

/-- The state after line 403 of a tick, the first assignment: a reader that runs between
line 403 and line 404 reads this state. -/
def after_line_403 (c : Sample) (s : Status) : Status :=
  match c.Get_Height with
  | none => s
  | some h => { s with t := { s.t with our_height := h } }

/-- Answers of a tick in which every call succeeds: height 5, best peer at height 5 (topo
height 7), twelve peers. -/
def sample1 : Sample :=
  ⟨some 5, some (5, 7), some 12, some 5, some 12, some 0, some 0, some 0, some 0, some 0,
    some 5, fun _ => some 0, some 5⟩

/-- Answers of the next tick, one block later: height 6, best peer at height 6 (topo height
8). -/
def sample2 : Sample :=
  ⟨some 6, some (6, 8), some 12, some 6, some 12, some 0, some 0, some 0, some 0, some 0,
    some 6, fun _ => some 0, some 6⟩

/-! ## Properties of the repair walk

The lemmas are proved for `walk_loop` and carried to `fix` and `startup_check` through
`fix_loop_eq` and `startup_loop_eq`. -/

theorem fix_body_eq (chain : Chain) (cur : Hash) (store : TopoStore) :
    fix_body chain cur store = walk_body 1 chain cur store := rfl

theorem startup_body_eq (chain : Chain) (cur : Hash) (store : TopoStore) :
    startup_body chain cur store = walk_body 17500 chain cur store := rfl

theorem fix_loop_eq (chain : Chain) (fuel : Nat) (cur : Hash) (store : TopoStore) :
    fix_loop chain fuel cur store = walk_loop 1 chain fuel cur store := by
  induction fuel generalizing cur store with
  | zero => rfl
  | succ n ih => simp only [fix_loop, walk_loop, fix_body_eq, ih]

theorem startup_loop_eq (chain : Chain) (fuel : Nat) (cur : Hash) (store : TopoStore) :
    startup_loop chain fuel cur store = walk_loop 17500 chain fuel cur store := by
  induction fuel generalizing cur store with
  | zero => rfl
  | succ n ih => simp only [startup_loop, walk_loop, startup_body_eq, ih]

theorem walked_append (xs ys : List Event) : walked (xs ++ ys) = walked xs ++ walked ys := by
  induction xs with
  | nil => rfl
  | cons e xs ih => cases e <;> simp [walked, ih]

theorem touched_append (xs ys : List Event) : touched (xs ++ ys) = touched xs ++ touched ys := by
  induction xs with
  | nil => rfl
  | cons e xs ih => cases e <;> simp [touched, ih]

theorem writes_append (xs ys : List Event) : writes (xs ++ ys) = writes xs ++ writes ys := by
  induction xs with
  | nil => rfl
  | cons e xs ih => cases e <;> simp [writes, ih]

theorem mem_dropLast_append {α : Type} (a b : List α) (x : α) (h : x ∈ (a ++ b).dropLast) :
    x ∈ a ∨ x ∈ b.dropLast := by
  cases b with
  | nil =>
    left
    rw [List.append_nil] at h
    exact List.mem_of_mem_dropLast h
  | cons y ys =>
    rw [List.dropLast_append_cons] at h
    exact List.mem_append.mp h

/-- An element that no element of `dropLast` resembles in `P` can only stand last. -/
theorem last_of_dropLast {α : Type} (P : α → Prop) (l pre post : List α) (x : α)
    (h : ∀ y ∈ l.dropLast, ¬ P y) (hl : l = pre ++ x :: post) (hx : P x) : post = [] := by
  cases post with
  | nil => rfl
  | cons y ys =>
    exfalso
    apply h x _ hx
    rw [hl, List.dropLast_append_cons]
    simp [List.dropLast]

/-! ### One iteration -/

theorem walk_body_walked (floor : Int) (chain : Chain) (cur : Hash) (store : TopoStore) :
    walked (walk_body floor chain cur store).evs = [cur] := by
  simp only [walk_body, walk_advance]
  by_cases hH : chain.Load_Height_for_BL_ID cur < floor
  · simp [hH, walked, Step.evs]
  · rcases hS : store (chain.Load_Height_for_BL_ID cur) with _ | r
    · simp [hH, walked, Step.evs]
    · by_cases hB : r.BLOCK_ID = cur <;>
      rcases hV : chain.ReadBlockSnapshotVersion cur with _ | v <;>
      rcases hL : chain.Load_BL_FROM_ID cur with _ | (_ | ⟨t, ts⟩) <;>
      simp [hH, hB, walked, Step.evs]

theorem walk_body_frame (floor : Int) (chain : Chain) (cur : Hash) (store : TopoStore) (i : Int)
    (hi : i ≠ chain.Load_Height_for_BL_ID cur) :
    (walk_body floor chain cur store).store i = store i := by
  simp only [walk_body, walk_advance]
  by_cases hH : chain.Load_Height_for_BL_ID cur < floor
  · simp [hH, Step.store]
  · rcases hS : store (chain.Load_Height_for_BL_ID cur) with _ | r
    · simp [hH, Step.store]
    · by_cases hB : r.BLOCK_ID = cur <;>
      rcases hV : chain.ReadBlockSnapshotVersion cur with _ | v <;>
      rcases hL : chain.Load_BL_FROM_ID cur with _ | (_ | ⟨t, ts⟩) <;>
      simp [hH, hB, Step.store, TopoStore.Write, hi]

theorem walk_body_touched (floor : Int) (chain : Chain) (cur : Hash) (store : TopoStore) :
    ∀ i ∈ touched (walk_body floor chain cur store).evs,
      i = chain.Load_Height_for_BL_ID cur ∧ floor ≤ i := by
  simp only [walk_body, walk_advance]
  by_cases hH : chain.Load_Height_for_BL_ID cur < floor
  · simp [hH, touched, Step.evs]
  · have hle : floor ≤ chain.Load_Height_for_BL_ID cur := not_lt.mp hH
    rcases hS : store (chain.Load_Height_for_BL_ID cur) with _ | r
    · simp [hH, touched, Step.evs, hle]
    · by_cases hB : r.BLOCK_ID = cur <;>
      rcases hV : chain.ReadBlockSnapshotVersion cur with _ | v <;>
      rcases hL : chain.Load_BL_FROM_ID cur with _ | (_ | ⟨t, ts⟩) <;>
      simp [hH, hB, touched, Step.evs, hle]

/-- An iteration that goes on: the block is not below the floor, the entry at its height
names it afterwards, the next block is its first tip, and none of its calls is final. -/
theorem walk_body_next (floor : Int) (chain : Chain) (cur : Hash) (store : TopoStore) (b : Hash)
    (s : TopoStore) (evs : List Event) (h : walk_body floor chain cur store = .next b s evs) :
    floor ≤ chain.Load_Height_for_BL_ID cur ∧
    (∃ r, s (chain.Load_Height_for_BL_ID cur) = some r ∧ r.BLOCK_ID = cur) ∧
    (∃ tips, chain.Load_BL_FROM_ID cur = some (b :: tips)) ∧
    (∀ ev ∈ evs, ev.final floor = none) := by
  simp only [walk_body, walk_advance] at h
  by_cases hH : chain.Load_Height_for_BL_ID cur < floor
  · simp [hH] at h
  · have hle : floor ≤ chain.Load_Height_for_BL_ID cur := not_lt.mp hH
    rcases hS : store (chain.Load_Height_for_BL_ID cur) with _ | r
    · simp [hH, hS] at h
    · by_cases hB : r.BLOCK_ID = cur <;>
      rcases hV : chain.ReadBlockSnapshotVersion cur with _ | v <;>
      rcases hL : chain.Load_BL_FROM_ID cur with _ | (_ | ⟨t, ts⟩) <;>
      simp [hH, hS, hB, hV, hL] at h <;>
      obtain ⟨rfl, rfl, rfl⟩ := h <;>
      simp [hS, hB, TopoStore.Write, Event.final, hH, hle]

/-- An iteration that leaves the loop: only its last call is final, with the outcome of the
iteration. -/
theorem walk_body_stop (floor : Int) (chain : Chain) (cur : Hash) (store : TopoStore)
    (o : Outcome) (s : TopoStore) (evs : List Event)
    (h : walk_body floor chain cur store = .stop o s evs) :
    (∀ ev ∈ evs.dropLast, ev.final floor = none) ∧
    (∃ ev, evs.getLast? = some ev ∧ ev.final floor = some o) := by
  simp only [walk_body, walk_advance] at h
  by_cases hH : chain.Load_Height_for_BL_ID cur < floor
  · simp [hH] at h
    obtain ⟨rfl, rfl, rfl⟩ := h
    simp [Event.final, hH]
  · rcases hS : store (chain.Load_Height_for_BL_ID cur) with _ | r
    · simp [hH, hS] at h
      obtain ⟨rfl, rfl, rfl⟩ := h
      simp [Event.final, hH, List.dropLast]
    · by_cases hB : r.BLOCK_ID = cur <;>
      rcases hV : chain.ReadBlockSnapshotVersion cur with _ | v <;>
      rcases hL : chain.Load_BL_FROM_ID cur with _ | (_ | ⟨t, ts⟩) <;>
      simp [hH, hS, hB, hV, hL] at h <;>
      obtain ⟨rfl, rfl, rfl⟩ := h <;>
      simp [Event.final, hH, List.dropLast]

/-- On an entry that already names the visited block the iteration reads and goes on. -/
theorem walk_body_consistent (floor : Int) (chain : Chain) (cur : Hash) (s : TopoStore)
    (r : TopoRecord) (t : Hash) (tips : List Hash)
    (hH : floor ≤ chain.Load_Height_for_BL_ID cur)
    (hS : s (chain.Load_Height_for_BL_ID cur) = some r) (hB : r.BLOCK_ID = cur)
    (hL : chain.Load_BL_FROM_ID cur = some (t :: tips)) :
    walk_body floor chain cur s = .next t s
      [.Height cur (chain.Load_Height_for_BL_ID cur),
       .Read (chain.Load_Height_for_BL_ID cur) (some r), .Load cur (some (t :: tips))] := by
  simp [walk_body, walk_advance, not_lt.mpr hH, hS, hB, hL]

/-! ### The loop -/

theorem walk_loop_frame (floor : Int) (chain : Chain) :
    ∀ (fuel : Nat) (cur : Hash) (store : TopoStore) (i : Int),
    i ∉ (walked (walk_loop floor chain fuel cur store).trace).map chain.Load_Height_for_BL_ID →
    (walk_loop floor chain fuel cur store).store i = store i := by
  intro fuel
  induction fuel with
  | zero => intro cur store i _; rfl
  | succ n ih =>
    intro cur store i hi
    have hw := walk_body_walked floor chain cur store
    have hf := walk_body_frame floor chain cur store i
    simp only [walk_loop] at hi ⊢
    cases hb : walk_body floor chain cur store with
    | stop o s evs =>
      rw [hb] at hw hf hi
      simp only [Step.evs, Step.store] at hw hf hi
      simp only [hw, List.map_cons, List.map_nil, List.mem_singleton] at hi
      exact hf hi
    | next b s evs =>
      rw [hb] at hw hf hi
      simp only [Step.evs, Step.store, WalkResult.after] at hw hf hi ⊢
      simp only [walked_append, hw, List.map_append, List.map_cons, List.map_nil,
        List.mem_append, List.mem_singleton, not_or] at hi
      rw [ih b s i hi.2, hf hi.1]

theorem walk_loop_repaired (floor : Int) (chain : Chain) :
    ∀ (fuel : Nat) (cur : Hash) (store : TopoStore),
    (walk_loop floor chain fuel cur store).outcome = .done →
    ((walked (walk_loop floor chain fuel cur store).trace).map
      chain.Load_Height_for_BL_ID).Nodup →
    ∀ b ∈ walked (walk_loop floor chain fuel cur store).trace,
      floor ≤ chain.Load_Height_for_BL_ID b →
      ∃ r, (walk_loop floor chain fuel cur store).store (chain.Load_Height_for_BL_ID b) = some r ∧
        r.BLOCK_ID = b := by
  intro fuel
  induction fuel with
  | zero => intro cur store h; simp [walk_loop] at h
  | succ n ih =>
    intro cur store hdone hnd b hb h1
    have hw := walk_body_walked floor chain cur store
    have hfr := walk_loop_frame floor chain n
    simp only [walk_loop] at hdone hnd hb ⊢
    cases hbody : walk_body floor chain cur store with
    | stop o s evs =>
      rw [hbody] at hw hdone hb
      simp only [Step.evs] at hw hdone hb
      simp only [hw, List.mem_singleton] at hb
      subst hb
      subst hdone
      simp only [walk_body, walk_advance] at hbody
      by_cases hH : chain.Load_Height_for_BL_ID b < floor
      · omega
      · rcases hS : store (chain.Load_Height_for_BL_ID b) with _ | r
        · simp [hH, hS] at hbody
        · by_cases hB : r.BLOCK_ID = b <;>
          rcases hV : chain.ReadBlockSnapshotVersion b with _ | v <;>
          rcases hL : chain.Load_BL_FROM_ID b with _ | (_ | ⟨t, ts⟩) <;>
          simp [hH, hS, hB, hV, hL] at hbody
    | next t s evs =>
      rw [hbody] at hw hdone hnd hb
      simp only [Step.evs, WalkResult.after] at hw hdone hnd hb ⊢
      simp only [walked_append, hw, List.map_append, List.map_cons, List.map_nil,
        List.singleton_append, List.nodup_cons, List.mem_cons] at hnd hb
      obtain ⟨_, ⟨r, hr, hrb⟩, _⟩ := walk_body_next floor chain cur store t s evs hbody
      rcases hb with rfl | hb
      · exact ⟨r, by rw [hfr t s _ hnd.1, hr], hrb⟩
      · exact ih t s hdone hnd.2 b hb h1

/-- A walk over a store whose entries already name the walked blocks completes, writes
nothing and leaves the store as it is. -/
theorem walk_loop_second (floor : Int) (chain : Chain) :
    ∀ (fuel : Nat) (cur : Hash) (s0 s : TopoStore),
    (walk_loop floor chain fuel cur s0).outcome = .done →
    (∀ b ∈ walked (walk_loop floor chain fuel cur s0).trace,
      floor ≤ chain.Load_Height_for_BL_ID b →
      ∃ r, s (chain.Load_Height_for_BL_ID b) = some r ∧ r.BLOCK_ID = b) →
    (walk_loop floor chain fuel cur s).outcome = .done ∧
    writes (walk_loop floor chain fuel cur s).trace = [] ∧
    (walk_loop floor chain fuel cur s).store = s ∧
    walked (walk_loop floor chain fuel cur s).trace =
      walked (walk_loop floor chain fuel cur s0).trace := by
  intro fuel
  induction fuel with
  | zero => intro cur s0 s h; simp [walk_loop] at h
  | succ n ih =>
    intro cur s0 s hdone hcons
    have hw := walk_body_walked floor chain cur s0
    simp only [walk_loop] at hdone hcons ⊢
    cases hbody : walk_body floor chain cur s0 with
    | stop o s1 evs =>
      rw [hbody] at hw hdone hcons
      simp only [Step.evs] at hw hdone hcons
      subst hdone
      have hlow : chain.Load_Height_for_BL_ID cur < floor := by
        by_contra hH
        simp only [walk_body, walk_advance] at hbody
        rcases hS : s0 (chain.Load_Height_for_BL_ID cur) with _ | r
        · simp [hH, hS] at hbody
        · by_cases hB : r.BLOCK_ID = cur <;>
          rcases hV : chain.ReadBlockSnapshotVersion cur with _ | v <;>
          rcases hL : chain.Load_BL_FROM_ID cur with _ | (_ | ⟨t, ts⟩) <;>
          simp [hH, hS, hB, hV, hL] at hbody
      simp [walk_body, hlow, writes, walked, hw]
    | next t s1 evs =>
      rw [hbody] at hw hdone hcons
      simp only [Step.evs, WalkResult.after] at hw hdone hcons
      simp only [walked_append, hw, List.singleton_append, List.mem_cons, forall_eq_or_imp]
        at hcons
      obtain ⟨hfl, _, ⟨tips, hL⟩, _⟩ := walk_body_next floor chain cur s0 t s1 evs hbody
      obtain ⟨r, hr, hrb⟩ := hcons.1 hfl
      rw [walk_body_consistent floor chain cur s r t tips hfl hr hrb hL]
      obtain ⟨h1, h2, h3, h4⟩ := ih t s1 s hdone hcons.2
      simp only [WalkResult.after]
      refine ⟨h1, ?_, h3, ?_⟩
      · simp [writes_append, writes, h2]
      · simp [walked_append, walked, h4, hw]

/-- Only the last call of a walk is final, and a final last call fixes the outcome. -/
theorem walk_loop_final (floor : Int) (chain : Chain) :
    ∀ (fuel : Nat) (cur : Hash) (store : TopoStore),
    (∀ ev ∈ (walk_loop floor chain fuel cur store).trace.dropLast, ev.final floor = none) ∧
    (∀ ev o, (walk_loop floor chain fuel cur store).trace.getLast? = some ev →
      ev.final floor = some o → (walk_loop floor chain fuel cur store).outcome = o) := by
  intro fuel
  induction fuel with
  | zero => intro cur store; simp [walk_loop]
  | succ n ih =>
    intro cur store
    simp only [walk_loop]
    cases hbody : walk_body floor chain cur store with
    | stop o s evs =>
      obtain ⟨h1, ev, h2, h3⟩ := walk_body_stop floor chain cur store o s evs hbody
      refine ⟨h1, ?_⟩
      intro ev2 o2 hl hf
      simp only [] at hl
      rw [h2] at hl
      cases hl
      rw [h3] at hf
      cases hf
      rfl
    | next t s evs =>
      obtain ⟨_, _, _, hnf⟩ := walk_body_next floor chain cur store t s evs hbody
      obtain ⟨ih1, ih2⟩ := ih t s
      simp only [WalkResult.after]
      constructor
      · intro ev hev
        rcases mem_dropLast_append _ _ _ hev with h | h
        · exact hnf ev h
        · exact ih1 ev h
      · intro ev o hl hf
        rw [List.getLast?_append] at hl
        cases hr : (walk_loop floor chain n t s).trace.getLast? with
        | none =>
          rw [hr] at hl
          simp only [Option.or] at hl
          have hmem : ev ∈ evs := List.mem_of_getLast?_eq_some hl
          rw [hnf ev hmem] at hf
          cases hf
        | some ev2 =>
          rw [hr] at hl
          simp only [Option.or] at hl
          cases hl
          exact ih2 ev o hr hf

theorem walk_loop_touched (floor : Int) (chain : Chain) :
    ∀ (fuel : Nat) (cur : Hash) (store : TopoStore),
    ∀ i ∈ touched (walk_loop floor chain fuel cur store).trace,
      floor ≤ i ∧
      i ∈ (walked (walk_loop floor chain fuel cur store).trace).map
        chain.Load_Height_for_BL_ID := by
  intro fuel
  induction fuel with
  | zero => intro cur store; simp [walk_loop, touched]
  | succ n ih =>
    intro cur store i hi
    have hw := walk_body_walked floor chain cur store
    have ht := walk_body_touched floor chain cur store
    simp only [walk_loop] at hi ⊢
    cases hbody : walk_body floor chain cur store with
    | stop o s evs =>
      rw [hbody] at hw ht hi
      simp only [Step.evs] at hw ht hi
      obtain ⟨h1, h2⟩ := ht i hi
      exact ⟨h2, by simp [hw, h1]⟩
    | next t s evs =>
      rw [hbody] at hw ht hi
      simp only [Step.evs, WalkResult.after] at hw ht hi ⊢
      rw [touched_append, List.mem_append] at hi
      rw [walked_append, hw]
      rcases hi with hi | hi
      · obtain ⟨h1, h2⟩ := ht i hi
        exact ⟨h2, by simp [h1]⟩
      · obtain ⟨h1, h2⟩ := ih t s i hi
        exact ⟨h1, by simp only [List.map_append, List.mem_append]; right; exact h2⟩

theorem walk_loop_head (floor : Int) (chain : Chain) (fuel : Nat) (cur : Hash)
    (store : TopoStore) :
    (walked (walk_loop floor chain (fuel + 1) cur store).trace).head? = some cur := by
  have hw := walk_body_walked floor chain cur store
  simp only [walk_loop]
  cases hbody : walk_body floor chain cur store with
  | stop o s evs =>
    rw [hbody] at hw
    simp only [Step.evs] at hw
    simp [hw]
  | next t s evs =>
    rw [hbody] at hw
    simp only [Step.evs] at hw
    simp [WalkResult.after, walked_append, hw]

theorem lookedUp_append (xs ys : List Event) :
    lookedUp (xs ++ ys) = lookedUp xs ++ lookedUp ys := by
  induction xs with
  | nil => rfl
  | cons e xs ih => cases e <;> simp [lookedUp, ih]

/-- The loop body never looks a block up by topo index, and every height it records is the
height of the block it asked for. -/
theorem walk_body_calls (floor : Int) (chain : Chain) (cur : Hash) (store : TopoStore) :
    lookedUp (walk_body floor chain cur store).evs = [] ∧
    ∀ b h, Event.Height b h ∈ (walk_body floor chain cur store).evs →
      h = chain.Load_Height_for_BL_ID b := by
  simp only [walk_body, walk_advance]
  by_cases hH : chain.Load_Height_for_BL_ID cur < floor
  · simp [hH, lookedUp, Step.evs]
  · rcases hS : store (chain.Load_Height_for_BL_ID cur) with _ | r
    · simp [hH, lookedUp, Step.evs]
    · by_cases hB : r.BLOCK_ID = cur <;>
      rcases hV : chain.ReadBlockSnapshotVersion cur with _ | v <;>
      rcases hL : chain.Load_BL_FROM_ID cur with _ | (_ | ⟨t, ts⟩) <;>
      simp [hH, hB, lookedUp, Step.evs]

theorem walk_loop_calls (floor : Int) (chain : Chain) :
    ∀ (fuel : Nat) (cur : Hash) (store : TopoStore),
    lookedUp (walk_loop floor chain fuel cur store).trace = [] ∧
    ∀ b h, Event.Height b h ∈ (walk_loop floor chain fuel cur store).trace →
      h = chain.Load_Height_for_BL_ID b := by
  intro fuel
  induction fuel with
  | zero => intro cur store; simp [walk_loop, lookedUp]
  | succ n ih =>
    intro cur store
    have hc := walk_body_calls floor chain cur store
    simp only [walk_loop]
    cases hbody : walk_body floor chain cur store with
    | stop o s evs =>
      rw [hbody] at hc
      exact hc
    | next t s evs =>
      rw [hbody] at hc
      simp only [Step.evs] at hc
      obtain ⟨i1, i2⟩ := ih t s
      simp only [WalkResult.after, lookedUp_append, hc.1, i1, List.append_nil, List.mem_append,
        true_and]
      intro b h hm
      rcases hm with hm | hm
      · exact hc.2 b h hm
      · exact i2 b h hm

theorem final_of_err (floor : Int) (ev : Event) (e : WalkError) (h : ev.err = some e) :
    ev.final floor = some (.panic e) := by
  cases ev with
  | Read i r => cases r <;> simp_all [Event.err, Event.final]
  | Version b v => cases v <;> simp_all [Event.err, Event.final]
  | Load b t => cases t <;> simp_all [Event.err, Event.final]
  | _ => simp [Event.err] at h

/-- A failed call of a loop is its last call, its error is the outcome, and it concerns the
last walked block. -/
theorem walk_loop_aborts (floor : Int) (chain : Chain) (fuel : Nat) (cur : Hash)
    (store : TopoStore) (pre post : List Event) (ev : Event) (e : WalkError)
    (htrace : (walk_loop floor chain fuel cur store).trace = pre ++ ev :: post)
    (hfail : ev.err = some e) :
    post = [] ∧ (walk_loop floor chain fuel cur store).outcome = .panic e := by
  obtain ⟨h1, h2⟩ := walk_loop_final floor chain fuel cur store
  have hpost : post = [] :=
    last_of_dropLast (fun x => x.final floor ≠ none) _ pre post ev
      (fun y hy => by simpa using h1 y hy) htrace
      (by show ev.final floor ≠ none; rw [final_of_err floor ev e hfail]; simp)
  subst hpost
  refine ⟨rfl, h2 ev _ ?_ (final_of_err floor ev e hfail)⟩
  rw [htrace]
  simp

/-- A block height that is pairwise above all later ones is above the last. -/
theorem walk_loop_above_last (floor : Int) (chain : Chain) (fuel : Nat) (cur : Hash)
    (store : TopoStore)
    (hdec : ((walked (walk_loop floor chain fuel cur store).trace).map
      chain.Load_Height_for_BL_ID).Sorted (· > ·))
    (b : Hash) (hlast : (walked (walk_loop floor chain fuel cur store).trace).getLast? = some b)
    (i : Int) (hi : i ∈ touched (walk_loop floor chain fuel cur store).trace) :
    chain.Load_Height_for_BL_ID b ≤ i := by
  obtain ⟨_, hmem⟩ := walk_loop_touched floor chain fuel cur store i hi
  obtain ⟨ys, hys⟩ := List.getLast?_eq_some_iff.mp hlast
  rw [hys] at hmem hdec
  simp only [List.map_append, List.map_cons, List.map_nil, List.mem_append, List.mem_map,
    List.mem_singleton] at hmem
  rw [List.map_append, List.Sorted, List.pairwise_append] at hdec
  rcases hmem with ⟨c, hc, rfl⟩ | ⟨c, rfl, rfl⟩
  · exact le_of_lt (hdec.2.2 _ (List.mem_map_of_mem _ hc) _ (by simp))
  · exact le_refl _

/-! ## Properties of the tokenizer and of the case selection -/

theorem TrimSpace_head (s : Str) (c : Char) (cs : Str) (h : TrimSpace s = c :: cs) :
    isSpace c = false := by
  unfold TrimSpace at h
  have hp : (s.dropWhile isSpace).rdropWhile isSpace <+: s.dropWhile isSpace :=
    List.rdropWhile_prefix _ _
  rw [h] at hp
  obtain ⟨t, ht⟩ := hp
  have hd := List.head?_dropWhile_not isSpace s
  rw [← ht] at hd
  simpa using hd

/-- The first field is a prefix of what is still to be read behind the field being read. -/
theorem fieldsFrom_starts : ∀ (s cur p : Str) (ps : List Str),
    fieldsFrom s cur = p :: ps →
    (cur = [] → ∃ c cs, s = c :: cs ∧ isSpace c = false) → p <+: cur ++ s := by
  intro s
  induction s with
  | nil =>
    intro cur p ps h hc
    by_cases hcur : cur = []
    · obtain ⟨c, cs, hs, _⟩ := hc hcur
      cases hs
    · simp only [fieldsFrom, hcur, if_false, List.cons.injEq] at h
      rw [← h.1]
      simp
  | cons c cs ih =>
    intro cur p ps h hc
    by_cases hsp : isSpace c = true
    · by_cases hcur : cur = []
      · obtain ⟨c2, cs2, hs, hns⟩ := hc hcur
        cases hs
        rw [hsp] at hns
        cases hns
      · simp only [fieldsFrom, hsp, hcur, if_true, if_false, List.cons.injEq] at h
        rw [← h.1]
        exact List.prefix_append _ _
    · simp only [fieldsFrom, hsp, if_false] at h
      have := ih (cur ++ [c]) p ps h (fun hnil => by simp at hnil)
      simpa using this

theorem Fields_TrimSpace_starts (s p : Str) (ps : List Str)
    (h : Fields (TrimSpace s) = p :: ps) : p <+: TrimSpace s := by
  have := fieldsFrom_starts (TrimSpace s) [] p ps h (fun _ => by
    cases ht : TrimSpace s with
    | nil => rw [ht] at h; simp [Fields, fieldsFrom] at h
    | cons c cs => exact ⟨c, cs, rfl, TrimSpace_head s c cs ht⟩)
  simpa using this

/-- The variable `command` is a prefix of the lower-cased trimmed line. -/
theorem commandOf_starts (lower : Char → Char) (s : Str) :
    commandOf lower (Fields (TrimSpace s)) <+: ToLower lower (TrimSpace s) := by
  cases hf : Fields (TrimSpace s) with
  | nil => simp [commandOf]
  | cons p ps =>
    simp only [commandOf, ToLower]
    exact (Fields_TrimSpace_starts s p ps hf).map lower

theorem commandOf_help (lower : Char → Char) (s : Str) (h : TrimSpace s = "help".toList) :
    (commandOf lower (Fields (TrimSpace s))).length = 4 := by
  rw [h]
  have : Fields "help".toList = ["help".toList] := by decide
  rw [this]
  simp [commandOf, ToLower]

/-- A line whose `command` is one of the commands below, none of which is a prefix of a
word matched against the whole line, selects the case of that command. -/
theorem selectCase_command (lower : Char → Char) (line name : Str)
    (hpre : name <+: ToLower lower line) (hhelp : line ≠ "help".toList) :
    (name = "permban".toList → selectCase lower line name = .permban) ∧
    (name = "ban".toList → selectCase lower line name = .ban) ∧
    (name = "unban".toList → selectCase lower line name = .unban) ∧
    (name = "bans".toList → selectCase lower line name = .bans) ∧
    (name = "connect_to_peer".toList → selectCase lower line name = .connect_to_peer) ∧
    (name = "disconnect_peer".toList → selectCase lower line name = .disconnect_peer) ∧
    (name = "add_trusted".toList → selectCase lower line name = .add_trusted) ∧
    (name = "remove_trusted".toList → selectCase lower line name = .remove_trusted) ∧
    (name = "config".toList → selectCase lower line name = .config) ∧
    (name = "fix".toList → selectCase lower line name = .fix) := by
  have key : ∀ t : Str, ¬ name <+: t → ToLower lower line ≠ t := fun t ht e => ht (e ▸ hpre)
  refine ⟨?_, ?_, ?_, ?_, ?_, ?_, ?_, ?_, ?_, ?_⟩ <;>
  · intro hn
    subst hn
    have h1 := key "status".toList (by decide)
    have h2 := key "syncinfo".toList (by decide)
    have h3 := key "sync_info".toList (by decide)
    have h4 := key "bye".toList (by decide)
    have h5 := key "exit".toList (by decide)
    have h6 := key "quit".toList (by decide)
    simp_all +decide [selectCase]

/-- A line read without error is trimmed, split and dispatched. -/
theorem readline_pass_text (env : Env) (st : Console) (line : Str) :
    readline_pass env st ⟨line, none⟩ =
      dispatch env st (TrimSpace line) (Fields (TrimSpace line)) := by
  simp [readline_pass]

/-! ### The ban-list model -/

theorem BanList.remaining_filter (bl : BanList) (a : Str) (t : Nat) :
    BanList.remaining (BanList.elapse (bl.filter (fun e => e.1 != a)) t) a = none := by
  induction bl with
  | nil => rfl
  | cons e es ih =>
    simp only [BanList.remaining, BanList.elapse, Option.map_eq_none'] at ih ⊢
    by_cases he : e.1 = a
    · simpa [List.filter_cons, he] using ih
    · by_cases ht : t < e.2
      · simpa [List.filter_cons, he, List.filterMap_cons, ht] using ih
      · simpa [List.filter_cons, he, List.filterMap_cons, ht] using ih

theorem BanList.elapse_zero_filter (bl : BanList) (a : Str) :
    BanList.remaining (bl.filter (fun e => e.1 != a)) a = none := by
  induction bl with
  | nil => rfl
  | cons e es ih =>
    simp only [BanList.remaining, Option.map_eq_none'] at ih ⊢
    by_cases he : e.1 = a <;> simp_all [List.filter_cons]

/-- After a ban request for `s` seconds the address is listed with `s` seconds, and at any
later time with at most `s`. -/
theorem BanList.remaining_ban (bl : BanList) (a : Str) (s : Nat) :
    (bl.request (.Ban_Address a s)).remaining a = some s ∧
    ∀ t r, ((bl.request (.Ban_Address a s)).elapse t).remaining a = some r → r ≤ s := by
  constructor
  · simp [BanList.request, BanList.remaining]
  · intro t r h
    by_cases ht : t < s
    · simp [BanList.request, BanList.remaining, BanList.elapse, List.filterMap_cons, ht] at h
      omega
    · have hf := BanList.remaining_filter bl a t
      simp only [BanList.request, BanList.remaining, BanList.elapse, List.filterMap_cons, ht,
        if_false] at h hf
      rw [hf] at h
      cases h

/-- After an unban request the address is not listed, now or later. -/
theorem BanList.remaining_unban (bl : BanList) (a : Str) :
    (bl.request (.UnBan_Address a)).remaining a = none ∧
    ∀ t, ((bl.request (.UnBan_Address a)).elapse t).remaining a = none :=
  ⟨BanList.elapse_zero_filter bl a, fun t => BanList.remaining_filter bl a t⟩

/-- A line with a command word and at least one argument selects the case of the command
word (for the commands listed in `selectCase_command`). -/
theorem selectCase_of_parts (env : Env) (line cmd name : Str) (args : List Str)
    (hparts : Fields (TrimSpace line) = cmd :: args) (hc : ToLower env.lower cmd = name)
    (hargs : args ≠ []) :
    commandOf env.lower (Fields (TrimSpace line)) = name ∧
    (name = "permban".toList → selectCase env.lower (TrimSpace line) name = .permban) ∧
    (name = "ban".toList → selectCase env.lower (TrimSpace line) name = .ban) ∧
    (name = "unban".toList → selectCase env.lower (TrimSpace line) name = .unban) ∧
    (name = "bans".toList → selectCase env.lower (TrimSpace line) name = .bans) ∧
    (name = "connect_to_peer".toList →
      selectCase env.lower (TrimSpace line) name = .connect_to_peer) ∧
    (name = "disconnect_peer".toList →
      selectCase env.lower (TrimSpace line) name = .disconnect_peer) ∧
    (name = "add_trusted".toList → selectCase env.lower (TrimSpace line) name = .add_trusted) ∧
    (name = "remove_trusted".toList →
      selectCase env.lower (TrimSpace line) name = .remove_trusted) ∧
    (name = "config".toList → selectCase env.lower (TrimSpace line) name = .config) ∧
    (name = "fix".toList → selectCase env.lower (TrimSpace line) name = .fix) := by
  have hcmd : commandOf env.lower (Fields (TrimSpace line)) = name := by
    rw [hparts]
    exact hc
  have hpre := commandOf_starts env.lower line
  rw [hcmd] at hpre
  have hhelp : TrimSpace line ≠ "help".toList := by
    intro h
    rw [h] at hparts
    have hf : Fields "help".toList = ["help".toList] := by decide
    rw [hf] at hparts
    simp only [List.cons.injEq] at hparts
    exact hargs hparts.2.symm
  exact ⟨hcmd, selectCase_command env.lower (TrimSpace line) name hpre hhelp⟩
/-- A rejected `config` invocation leaves the console as it is, saves the file and shows the
menu; a numeric key with one value that does not parse writes its one-line message first. -/
theorem config_rejected_eval (env : Env) (st : Console) (cmd key : Str) (rest : List Str)
    (hbad : configRejected key rest) :
    (config env (cmd :: key :: rest) st).1 = st ∧
    (key ∈ configNumericKeys → rest.length = 1 →
      ∃ msg, oneLine msg ∧
        (config env (cmd :: key :: rest) st).2 = [.print msg, .save_config_file, .config_menu]) ∧
    ((key ∉ configNumericKeys ∨ rest.length ≠ 1) →
      (config env (cmd :: key :: rest) st).2 = [.save_config_file, .config_menu]) := by
  rcases hbad with ⟨hk, hv⟩ | ⟨rfl, hl⟩ | ⟨rfl, hr⟩
  · simp only [configNumericKeys, List.mem_cons, List.mem_singleton, List.not_mem_nil,
      or_false] at hk
    rcases hk with rfl | rfl | rfl | rfl | rfl | rfl | rfl | rfl | rfl <;>
    rcases rest with _ | ⟨v, _ | ⟨w, more⟩⟩ <;>
    simp +decide [config, config_blocks, config_int, config_flip, arg, hv, oneLine,
      configNumericKeys]
  · rcases rest with _ | ⟨v, _ | ⟨w, more⟩⟩ <;>
    simp +decide [config, config_blocks, config_int, config_flip, arg, configNumericKeys] at hl ⊢
  · rcases rest with _ | ⟨v, more⟩
    · exact absurd rfl hr
    · simp +decide [config, config_blocks, config_int, config_flip, arg, configNumericKeys]
/-! ### The lifecycle cases -/

theorem ite_of_both {c : Prop} [Decidable c] {a b : Case} (P : Case → Prop) (ha : P a)
    (hb : P b) : P (if c then a else b) := by
  split <;> assumption

theorem ite_of_neg {c : Prop} [Decidable c] {a b : Case} (P : Case → Prop) (hc : ¬ c)
    (hb : P b) : P (if c then a else b) := by
  rw [if_neg hc]
  exact hb

/-- Only the guards on the whole lower-cased line select the cases `bye`, `exit`, `quit`. -/
theorem selectCase_exit_inv (lower : Char → Char) (line command : Str)
    (h : (selectCase lower line command).isExit = true) :
    isExitWord (ToLower lower line) := by
  by_contra hne
  unfold isExitWord at hne
  simp only [not_or] at hne
  obtain ⟨h1, h2, h3⟩ := hne
  have hq : (selectCase lower line command).isExit = false := by
    unfold selectCase
    repeat' first
      | apply ite_of_neg (fun c : Case => c.isExit = false) h3
      | apply ite_of_neg (fun c : Case => c.isExit = false) h1
      | apply ite_of_neg (fun c : Case => c.isExit = false) h2
      | apply ite_of_both (fun c : Case => c.isExit = false)
      | rfl
  rw [hq] at h
  cases h

/-- A line that lower-cases to an exit word selects `bye`, `exit` or `quit`. -/
theorem selectCase_exit (lower : Char → Char) (line command : Str)
    (hkeep : keepsLowerLetters lower) (hpre : command <+: ToLower lower line)
    (hexit : isExitWord (ToLower lower line)) :
    (selectCase lower line command).isExit = true := by
  have hh : lower 'h' = 'h' := hkeep 'h' (by decide) (by decide)
  have hhelp : ¬ line = ['h', 'e', 'l', 'p'] := by
    intro hl
    subst hl
    unfold isExitWord at hexit
    simp [ToLower, hh] at hexit
  rw [List.prefix_iff_eq_take] at hpre
  unfold isExitWord at hexit
  rcases hexit with hw | hw | hw <;> rw [hw] at hpre <;>
  · have hlen : command.length ≤ 4 ∨ 4 < command.length := le_or_lt _ _
    rcases hlen with hlen | hlen
    · interval_cases hl : command.length <;> simp at hpre <;> subst hpre <;>
      simp +decide [selectCase, hw, hhelp, Case.isExit]
    · rw [List.take_of_length_le (by simp; omega)] at hpre
      subst hpre
      simp +decide [selectCase, hw, hhelp, Case.isExit]

theorem dispatch_exit (env : Env) (st : Console) (line : Str) (line_parts : List Str)
    (h : (selectCase env.lower line (commandOf env.lower line_parts)).isExit = true) :
    dispatch env st line line_parts = exit_command st := by
  unfold dispatch
  cases hsel : selectCase env.lower line (commandOf env.lower line_parts) <;>
  rw [hsel] at h <;> first | rfl | exact absurd h (by decide)

theorem dispatch_not_exit (env : Env) (st : Console) (line : Str) (line_parts : List Str)
    (h : (selectCase env.lower line (commandOf env.lower line_parts)).isExit = false) :
    (dispatch env st line line_parts).control ≠ .returnNil := by
  unfold dispatch
  cases hsel : selectCase env.lower line (commandOf env.lower line_parts) <;>
  rw [hsel] at h <;>
  first
    | exact absurd h (by decide)
    | (simp only [other_case]; split <;> simp)
    | (simp only [fix_command]; split <;> simp)
    | simp

/-- With `Exit_In_Progress` open, a line that lower-cases to `exit`, `quit` or `bye` closes
the channel and returns `nil`, and nothing else happens. -/
theorem exit_word_returns_nil (env : Env) (st : Console) (line : Str)
    (hkeep : keepsLowerLetters env.lower) (hopen : st.Exit_In_Progress_closed = false)
    (hexit : isExitWord (ToLower env.lower (TrimSpace line))) :
    readline_pass env st ⟨line, none⟩ =
      ⟨{ st with Exit_In_Progress_closed := true }, [.close_Exit_In_Progress], .returnNil⟩ := by
  rw [readline_pass_text,
    dispatch_exit env st _ _
      (selectCase_exit env.lower _ _ hkeep (commandOf_starts env.lower line) hexit)]
  simp [exit_command, hopen]

/-- A pass returns `nil` only on a line that lower-cases to `exit`, `quit` or `bye`. -/
theorem returnNil_only_exit_word (env : Env) (st : Console) (input : Input)
    (h : (readline_pass env st input).control = .returnNil) :
    isExitWord (ToLower env.lower (TrimSpace input.line)) := by
  have key : (dispatch env st (TrimSpace input.line) (Fields (TrimSpace input.line))).control
      = .returnNil → isExitWord (ToLower env.lower (TrimSpace input.line)) := by
    intro hd
    by_contra hne
    have hsel : (selectCase env.lower (TrimSpace input.line)
        (commandOf env.lower (Fields (TrimSpace input.line)))).isExit = false := by
      by_contra hx
      exact hne (selectCase_exit_inv env.lower _ _ (by simpa using hx))
    exact dispatch_not_exit env st _ _ hsel hd
  unfold readline_pass at h
  split_ifs at h <;> exact key h

/-! ### The process -/

/-- Once `main` has left its dispatch loop with the channel closed, events change neither
the console nor the phase, and add to the log at most closes of `Exit_In_Progress`. -/
theorem procRun_after_teardown (env : Env) : ∀ (evs : List ProcEvent) (p : Proc),
    p.main = .teardown → p.console.Exit_In_Progress_closed = true →
    (procRun env p evs).console = p.console ∧ (procRun env p evs).main = .teardown ∧
    ∃ extra, (procRun env p evs).log = p.log ++ extra ∧
      ∀ e ∈ extra, e = .close_Exit_In_Progress := by
  intro evs
  induction evs with
  | nil => intro p _ _; exact ⟨rfl, by assumption, [], by simp [procRun], by simp⟩
  | cons ev evs ih =>
    intro p hm hc
    have step : (procStep env p ev).console = p.console ∧
        (procStep env p ev).main = .teardown ∧
        ((procStep env p ev).log = p.log ∨
          (procStep env p ev).log = p.log ++ [.close_Exit_In_Progress]) := by
      cases ev with
      | interrupt =>
        simp only [procStep]
        split_ifs <;> simp_all
      | input i =>
        simp only [procStep]
        split_ifs <;> simp_all
    obtain ⟨s1, s2, s3⟩ := step
    obtain ⟨i1, i2, extra, i3, i4⟩ := ih (procStep env p ev) s2 (by rw [s1]; exact hc)
    simp only [procRun, List.foldl_cons] at i1 i2 i3 ⊢
    refine ⟨by rw [i1, s1], i2, ?_⟩
    rcases s3 with s3 | s3
    · exact ⟨extra, by rw [i3, s3], i4⟩
    · refine ⟨.close_Exit_In_Progress :: extra, by rw [i3, s3]; simp, ?_⟩
      intro e he
      rcases List.mem_cons.mp he with rfl | he
      · rfl
      · exact i4 e he

/-! ## Claims on the dispatcher -/

/-- C5 (argument validation): an invocation of `ban`, `unban`, `permban`, `add_trusted`,
`remove_trusted`, `connect_to_peer` or `disconnect_peer` with an argument count the command
does not accept writes exactly one line of usage text, makes no collaborator call, leaves
the console state as it is and goes on to the next line. -/
theorem wrong_arity_prints_usage (env : Env) (st : Console) (line name : Str)
    (hname : name ∈ ["ban".toList, "unban".toList, "permban".toList, "add_trusted".toList,
      "remove_trusted".toList, "connect_to_peer".toList, "disconnect_peer".toList])
    (hcmd : commandOf env.lower (Fields (TrimSpace line)) = name)
    (hargs : ¬ acceptedCount name ((Fields (TrimSpace line)).length - 1)) :
    ∃ msg, oneLine msg ∧
      (readline_pass env st ⟨line, none⟩).effects = [.print msg] ∧
      (readline_pass env st ⟨line, none⟩).state = st ∧
      (readline_pass env st ⟨line, none⟩).control = .next := by
  have hpre := commandOf_starts env.lower line
  rw [hcmd] at hpre
  have hhelp : TrimSpace line ≠ "help".toList := by
    intro h
    have h4 := commandOf_help env.lower line h
    rw [hcmd] at h4
    simp only [List.mem_cons, List.mem_singleton, List.not_mem_nil, or_false] at hname
    rcases hname with rfl | rfl | rfl | rfl | rfl | rfl | rfl <;> simp at h4
  have hlen : 1 ≤ (Fields (TrimSpace line)).length := by
    cases hf : Fields (TrimSpace line) with
    | nil =>
      rw [hf] at hcmd
      simp only [commandOf] at hcmd
      subst hcmd
      simp at hname
    | cons p ps => simp
  obtain ⟨s1, s2, s3, _, s5, s6, s7, s8, _, _⟩ :=
    selectCase_command env.lower (TrimSpace line) name hpre hhelp
  simp only [List.mem_cons, List.mem_singleton, List.not_mem_nil, or_false] at hname
  rcases hname with rfl | rfl | rfl | rfl | rfl | rfl | rfl
  · have hl : (Fields (TrimSpace line)).length ≥ 4 ∨ (Fields (TrimSpace line)).length = 1 := by
      simp +decide only [acceptedCount, if_true, if_false] at hargs
      omega
    have hd : dispatch env st (TrimSpace line) (Fields (TrimSpace line)) =
        ⟨st, ban env (Fields (TrimSpace line)), .next⟩ := by
      unfold dispatch
      rw [hcmd, s2 rfl]
    rw [readline_pass_text, hd]
    exact
      ⟨"IP address required to ban\n".toList, by unfold oneLine; decide,
        by rw [ban, if_pos hl], rfl, rfl⟩
  · have hl : (Fields (TrimSpace line)).length ≥ 3 ∨ (Fields (TrimSpace line)).length = 1 := by
      simp +decide only [acceptedCount, if_true, if_false] at hargs
      omega
    have hd : dispatch env st (TrimSpace line) (Fields (TrimSpace line)) =
        ⟨st, unban env (Fields (TrimSpace line)), .next⟩ := by
      unfold dispatch
      rw [hcmd, s3 rfl]
    rw [readline_pass_text, hd]
    exact
      ⟨"IP address required to unban\n".toList, by unfold oneLine; decide,
        by rw [unban, if_pos hl], rfl, rfl⟩
  · have hl : (Fields (TrimSpace line)).length ≥ 3 ∨ (Fields (TrimSpace line)).length = 1 := by
      simp +decide only [acceptedCount, if_true, if_false] at hargs
      omega
    have hd : dispatch env st (TrimSpace line) (Fields (TrimSpace line)) =
        ⟨st, permban env (Fields (TrimSpace line)), .next⟩ := by
      unfold dispatch
      rw [hcmd, s1 rfl]
    rw [readline_pass_text, hd]
    exact
      ⟨"IP address required to ban\n".toList, by unfold oneLine; decide,
        by rw [permban, if_pos hl], rfl, rfl⟩
  · have hl : (Fields (TrimSpace line)).length ≠ 2 := by
      simp +decide only [acceptedCount, if_true, if_false] at hargs
      omega
    have hd : dispatch env st (TrimSpace line) (Fields (TrimSpace line)) =
        ⟨st, add_trusted (Fields (TrimSpace line)), .next⟩ := by
      unfold dispatch
      rw [hcmd, s7 rfl]
    rw [readline_pass_text, hd]
    exact
      ⟨"usage: add_trusted <ip address>\n".toList, by unfold oneLine; decide,
        by rw [add_trusted, if_neg hl], rfl, rfl⟩
  · have hl : (Fields (TrimSpace line)).length ≠ 2 := by
      simp +decide only [acceptedCount, if_true, if_false] at hargs
      omega
    have hd : dispatch env st (TrimSpace line) (Fields (TrimSpace line)) =
        ⟨st, remove_trusted (Fields (TrimSpace line)), .next⟩ := by
      unfold dispatch
      rw [hcmd, s8 rfl]
    rw [readline_pass_text, hd]
    exact
      ⟨"usage: remove_trusted <ip address>\n".toList, by unfold oneLine; decide,
        by rw [remove_trusted, if_neg hl], rfl, rfl⟩
  · have hl : (Fields (TrimSpace line)).length ≠ 2 := by
      simp +decide only [acceptedCount, if_true, if_false] at hargs
      omega
    have hd : dispatch env st (TrimSpace line) (Fields (TrimSpace line)) =
        ⟨st, connect_to_peer (Fields (TrimSpace line)), .next⟩ := by
      unfold dispatch
      rw [hcmd, s5 rfl]
    rw [readline_pass_text, hd]
    exact
      ⟨"usage: connect_to_peer <ip address:port>\n".toList, by unfold oneLine; decide,
        by rw [connect_to_peer, if_neg hl], rfl, rfl⟩
  · have hl : (Fields (TrimSpace line)).length ≠ 2 := by
      simp +decide only [acceptedCount, if_true, if_false] at hargs
      omega
    have hd : dispatch env st (TrimSpace line) (Fields (TrimSpace line)) =
        ⟨st, disconnect_peer (Fields (TrimSpace line)), .next⟩ := by
      unfold dispatch
      rw [hcmd, s6 rfl]
    rw [readline_pass_text, hd]
    exact
      ⟨"usage: disconnect_peer <ip address>\n".toList, by unfold oneLine; decide,
        by rw [disconnect_peer, if_neg hl], rfl, rfl⟩

/-- The statement of C5 on `unban 1.2.3.4 5` (two arguments). -/
theorem wrong_arity_prints_usage_witness :
    commandOf env0.lower (Fields (TrimSpace "unban 1.2.3.4 5".toList)) = "unban".toList ∧
    ¬ acceptedCount "unban".toList ((Fields (TrimSpace "unban 1.2.3.4 5".toList)).length - 1) ∧
    ∃ msg, oneLine msg ∧
      (readline_pass env0 console0 ⟨"unban 1.2.3.4 5".toList, none⟩).effects = [.print msg] ∧
      (readline_pass env0 console0 ⟨"unban 1.2.3.4 5".toList, none⟩).state = console0 ∧
      (readline_pass env0 console0 ⟨"unban 1.2.3.4 5".toList, none⟩).control = .next :=
  ⟨by decide, by unfold acceptedCount; decide,
    wrong_arity_prints_usage env0 console0 "unban 1.2.3.4 5".toList "unban".toList
      (by decide) (by decide) (by unfold acceptedCount; decide)⟩

/-- C7 (ban scenario): `ban <ip> <s>` with `s` a non-negative `int64` issues exactly the ban
request `(ip, s)`, after which the ban list shows `ip` with `s` seconds and, any time later,
with at most `s`; a duration that does not parse or is negative issues no ban request;
`ban <ip>` requests 600 seconds; `unban <ip>` issues exactly one unban request for `ip` and
no ban request, after which the ban list does not show `ip`. -/
theorem ban_scenario (env : Env) (st : Console) (line cmd : Str) (args : List Str)
    (hparts : Fields (TrimSpace line) = cmd :: args) :
    (ToLower env.lower cmd = "ban".toList → ∀ ip sTxt, args = [ip, sTxt] →
      (∀ s : Int, ParseInt sTxt = some s → 0 ≤ s →
        (readline_pass env st ⟨line, none⟩).effects = [.Ban_Address ip s.toNat] ∧
        ∀ bl : BanList,
          (bl.after (readline_pass env st ⟨line, none⟩).effects).remaining ip = some s.toNat ∧
          ∀ t r, ((bl.after (readline_pass env st ⟨line, none⟩).effects).elapse t).remaining ip
            = some r → (r : Int) ≤ s) ∧
      ((ParseInt sTxt = none ∨ ∃ s, ParseInt sTxt = some s ∧ s < 0) →
        banRequests (readline_pass env st ⟨line, none⟩).effects = [])) ∧
    (ToLower env.lower cmd = "ban".toList → ∀ ip, args = [ip] →
      banRequests (readline_pass env st ⟨line, none⟩).effects = [(ip, 600)]) ∧
    (ToLower env.lower cmd = "unban".toList → ∀ ip, args = [ip] →
      unbanRequests (readline_pass env st ⟨line, none⟩).effects = [ip] ∧
      banRequests (readline_pass env st ⟨line, none⟩).effects = [] ∧
      ∀ bl : BanList,
        (bl.after (readline_pass env st ⟨line, none⟩).effects).remaining ip = none ∧
        ∀ t, ((bl.after (readline_pass env st ⟨line, none⟩).effects).elapse t).remaining ip
          = none) := by
  have to_ban : ToLower env.lower cmd = "ban".toList → args ≠ [] →
      (readline_pass env st ⟨line, none⟩).effects = ban env (cmd :: args) := by
    intro hc hargs
    obtain ⟨hcmd, _, s2, _⟩ := selectCase_of_parts env line cmd _ args hparts hc hargs
    rw [readline_pass_text]
    unfold dispatch
    rw [hcmd, s2 rfl, hparts]
  refine ⟨?_, ?_, ?_⟩
  · intro hc ip sTxt hargs
    subst hargs
    rw [to_ban hc (by simp)]
    constructor
    · intro s hs h0
      have he : ban env [cmd, ip, sTxt] = [.Ban_Address ip s.toNat] := by
        simp [ban, arg, hs, h0]
      rw [he]
      refine ⟨rfl, fun bl => ?_⟩
      obtain ⟨h1, h2⟩ := BanList.remaining_ban bl ip s.toNat
      refine ⟨h1, fun t r hr => ?_⟩
      have := h2 t r hr
      omega
    · intro hbad
      rcases hbad with hnone | ⟨s, hs, hneg⟩
      · simp [ban, arg, hnone, banRequests]
      · simp [ban, arg, hs, not_le.mpr hneg, banRequests]
  · intro hc ip hargs
    subst hargs
    rw [to_ban hc (by simp)]
    by_cases hf : env.Ban_Address_fails ip (10 * 60) = true
    · simp [ban, arg, hf, banRequests]
    · simp [ban, arg, hf, banRequests]
  · intro hc ip hargs
    subst hargs
    obtain ⟨hcmd, _, _, s3, _⟩ := selectCase_of_parts env line cmd _ [ip] hparts hc (by simp)
    have he : (readline_pass env st ⟨line, none⟩).effects = unban env [cmd, ip] := by
      rw [readline_pass_text]
      unfold dispatch
      rw [hcmd, s3 rfl, hparts]
    rw [he]
    obtain ⟨m, hm⟩ : ∃ m, unban env [cmd, ip] = [.UnBan_Address ip, .print m] := by
      by_cases hf : env.UnBan_Address_fails ip = true <;> simp [unban, arg, hf]
    rw [hm]
    refine ⟨by simp [unbanRequests], by simp [banRequests], fun bl => ?_⟩
    simpa [BanList.after, BanList.request] using BanList.remaining_unban bl ip

/-- The scenario of C7: `ban 10.0.0.5 60` lists `10.0.0.5` with 60 seconds. -/
theorem ban_scenario_witness :
    Fields (TrimSpace "ban 10.0.0.5 60".toList) =
      "ban".toList :: ["10.0.0.5".toList, "60".toList] ∧
    (readline_pass env0 console0 ⟨"ban 10.0.0.5 60".toList, none⟩).effects =
      [.Ban_Address "10.0.0.5".toList 60] ∧
    (BanList.after [] (readline_pass env0 console0 ⟨"ban 10.0.0.5 60".toList, none⟩).effects
      ).remaining "10.0.0.5".toList = some 60 :=
  ⟨by decide,
    ((ban_scenario env0 console0 "ban 10.0.0.5 60".toList "ban".toList
      ["10.0.0.5".toList, "60".toList] (by decide)).1 (by decide) _ _ rfl).1 60 (by decide)
      (by decide) |>.1,
    (((ban_scenario env0 console0 "ban 10.0.0.5 60".toList "ban".toList
      ["10.0.0.5".toList, "60".toList] (by decide)).1 (by decide) _ _ rfl).1 60 (by decide)
      (by decide) |>.2 []).1⟩

/-- C6 as stated fails: `config maintenance` (a key given without its value) and
`config maintenance a b` (more arguments than key and value) switch maintenance mode on, and
`config block_tracking a b` flips the block-tracking flag. -/
theorem config_nonconforming_counterexample :
    console0.NodeMaintenance = false ∧ console0.RunningConfig.TraceBlocks = false ∧
    (readline_pass env0 console0 (Input.text "config maintenance")).state.NodeMaintenance
      = true ∧
    (readline_pass env0 console0 (Input.text "config maintenance")).state.MaintenanceStart
      = 1000 ∧
    (readline_pass env0 console0 (Input.text "config maintenance a b")).state.NodeMaintenance
      = true ∧
    (readline_pass env0 console0
      (Input.text "config block_tracking a b")).state.RunningConfig.TraceBlocks = true ∧
    (readline_pass env0 console0 (Input.text "config block_tracking a b")).effects =
      [.save_config_file, .config_menu] := by
  decide

/-- C6 (amended, `config` validation): an invocation of `config` with a numeric key and no
value, more than one value, or a single value that is not a base-10 `int64`, with `operator`
and not exactly one value, or with `anti_cheat` and a value, leaves the running
configuration, `p2p.Min_Peers`, `p2p.Max_Peers` and the maintenance flags (the whole console
state) unchanged and does not end the console; the handler then saves the config file and
shows the config menu, and for a single value that does not parse it first writes the
one-line message of the key. -/
theorem config_rejected_leaves_state (env : Env) (st : Console) (line cmd key : Str)
    (rest : List Str) (hparts : Fields (TrimSpace line) = cmd :: key :: rest)
    (hc : ToLower env.lower cmd = "config".toList) (hbad : configRejected key rest) :
    (readline_pass env st ⟨line, none⟩).state = st ∧
    (readline_pass env st ⟨line, none⟩).control ≠ .returnNil ∧
    (key ∈ configNumericKeys → rest.length = 1 →
      ∃ msg, oneLine msg ∧
        (readline_pass env st ⟨line, none⟩).effects =
          [.print msg, .save_config_file, .config_menu]) ∧
    ((key ∉ configNumericKeys ∨ rest.length ≠ 1) →
      (readline_pass env st ⟨line, none⟩).effects = [.save_config_file, .config_menu]) := by
  obtain ⟨hcmd, _, _, _, _, _, _, _, _, s9, _⟩ :=
    selectCase_of_parts env line cmd _ (key :: rest) hparts hc (by simp)
  have hd : readline_pass env st ⟨line, none⟩ =
      ⟨(config env (cmd :: key :: rest) st).1, (config env (cmd :: key :: rest) st).2,
        if env.faults .config (cmd :: key :: rest) then .panic else .next⟩ := by
    rw [readline_pass_text]
    unfold dispatch
    rw [hcmd, s9 rfl, hparts]
  obtain ⟨h1, h2, h3⟩ := config_rejected_eval env st cmd key rest hbad
  rw [hd]
  refine ⟨h1, ?_, h2, h3⟩
  simp only []
  split <;> simp

/-- The amended C6 on `config min_peers x`: nothing changes and the message is written. -/
theorem config_rejected_leaves_state_witness :
    Fields (TrimSpace "config min_peers x".toList) =
      "config".toList :: "min_peers".toList :: ["x".toList] ∧
    configRejected "min_peers".toList ["x".toList] ∧
    (readline_pass env0 console0 ⟨"config min_peers x".toList, none⟩).state = console0 ∧
    (readline_pass env0 console0 ⟨"config min_peers x".toList, none⟩).effects =
      [.print "min peers need to be number\n".toList, .save_config_file, .config_menu] :=
  ⟨by decide, Or.inl ⟨by decide, fun v hv => by cases hv; decide⟩,
    (config_rejected_leaves_state env0 console0 "config min_peers x".toList "config".toList
      "min_peers".toList ["x".toList] (by decide) (by decide)
      (Or.inl ⟨by decide, fun v hv => by cases hv; decide⟩)).1,
    by decide⟩

/-- C8 fails on the code: after an interrupt signal has closed `Exit_In_Progress`, the command
`exit` executes `close(Exit_In_Progress)` a second time; the panic is recovered,
`readline_loop` returns the error `crashed` and `main` stays in its dispatch loop.  In the
other order (`exit`, then an interrupt while `main` tears down) the signal goroutine
executes the second close and its panic ends the process. -/
theorem second_close_after_interrupt :
    (procRun env0 proc0 [.interrupt]).console.Exit_In_Progress_closed = true ∧
    (procRun env0 proc0 [.interrupt, .input (Input.text "exit")]).log =
      [.close_Exit_In_Progress, .close_Exit_In_Progress] ∧
    closeCount (procRun env0 proc0 [.interrupt, .input (Input.text "exit")]).log = 2 ∧
    (procRun env0 proc0 [.interrupt, .input (Input.text "exit")]).main = .dispatching ∧
    closeCount (procRun env0 proc0 [.input (Input.text "exit"), .interrupt]).log = 2 ∧
    (procRun env0 proc0 [.input (Input.text "exit"), .interrupt]).crashed = true := by
  decide

/-- C9 as stated fails: after an interrupt signal has fired the shutdown signal the
dispatcher still executes `ban 10.0.0.5 60` and `config min_peers 7`. -/
theorem command_after_interrupt_counterexample :
    (procRun env0 proc0 [.interrupt]).console.Exit_In_Progress_closed = true ∧
    (procRun env0 proc0 [.interrupt, .input (Input.text "ban 10.0.0.5 60")]).log =
      [.close_Exit_In_Progress, .Ban_Address "10.0.0.5".toList 60] ∧
    (procRun env0 proc0 [.interrupt]).console.Min_Peers = 0 ∧
    (procRun env0 proc0 [.interrupt, .input (Input.text "config min_peers 7")]).console.Min_Peers
      = 7 := by
  decide

/-- C9 (amended, shutdown ordering): once an `exit`, `quit` or `bye` command has fired the
shutdown signal (closed `Exit_In_Progress`, which was open), `main` has left its dispatch
loop and the dispatcher executes no further command: whatever events follow, the console
state stays as the command left it and the only effect that can still occur is a close of
`Exit_In_Progress` by the signal goroutine. -/
theorem no_command_after_exit (env : Env) (p : Proc) (line : Str) (evs : List ProcEvent)
    (hkeep : keepsLowerLetters env.lower) (hlive : p.crashed = false)
    (hmain : p.main = .dispatching) (hopen : p.console.Exit_In_Progress_closed = false)
    (hexit : isExitWord (ToLower env.lower (TrimSpace line))) :
    (procStep env p (.input ⟨line, none⟩)).console.Exit_In_Progress_closed = true ∧
    (procStep env p (.input ⟨line, none⟩)).main = .teardown ∧
    (procRun env (procStep env p (.input ⟨line, none⟩)) evs).console =
      (procStep env p (.input ⟨line, none⟩)).console ∧
    ∃ extra, (procRun env (procStep env p (.input ⟨line, none⟩)) evs).log =
        (procStep env p (.input ⟨line, none⟩)).log ++ extra ∧
      ∀ e ∈ extra, e = .close_Exit_In_Progress := by
  have hpass := exit_word_returns_nil env p.console line hkeep hopen hexit
  have hc : (procStep env p (.input ⟨line, none⟩)).console.Exit_In_Progress_closed = true := by
    simp [procStep, hlive, hmain, hpass]
  have hm : (procStep env p (.input ⟨line, none⟩)).main = .teardown := by
    simp [procStep, hlive, hmain, hpass]
  obtain ⟨h1, _, h3⟩ := procRun_after_teardown env evs _ hm hc
  exact ⟨hc, hm, h1, h3⟩

/-- The amended C9 on `exit` followed by `ban 10.0.0.5 60` and an interrupt: the ban is not
executed. -/
theorem no_command_after_exit_witness :
    keepsLowerLetters env0.lower ∧ proc0.crashed = false ∧ proc0.main = .dispatching ∧
    proc0.console.Exit_In_Progress_closed = false ∧
    isExitWord (ToLower env0.lower (TrimSpace "exit".toList)) ∧
    (procStep env0 proc0 (.input ⟨"exit".toList, none⟩)).main = .teardown ∧
    (procRun env0 proc0
      [.input ⟨"exit".toList, none⟩, .input (Input.text "ban 10.0.0.5 60")]).log =
      [.close_Exit_In_Progress] :=
  ⟨fun c h1 h2 => by simp [env0, asciiLower]; omega, rfl, rfl, rfl, Or.inl (by decide),
    (no_command_after_exit env0 proc0 "exit".toList [.input (Input.text "ban 10.0.0.5 60")]
      (fun c h1 h2 => by simp [env0, asciiLower]; omega) rfl rfl rfl
      (Or.inl (by decide))).2.1,
    by decide⟩

/-- C10 fails on the code when an interrupt signal has already closed `Exit_In_Progress`:
the lines `exit`, `quit` and `bye` then make `close` panic, and `readline_loop` returns the
error `crashed` instead of `nil`. -/
theorem exit_word_on_closed_channel :
    console1.Exit_In_Progress_closed = true ∧
    ToLower env0.lower (TrimSpace " Exit ".toList) = "exit".toList ∧
    (readline_pass env0 console1 (Input.text " Exit ")).control = .panic ∧
    (readline_loop env0 console1 [Input.text " Exit "]).returned = .crashed ∧
    (readline_loop env0 console1 [Input.text "quit"]).returned = .crashed ∧
    (readline_loop env0 console1 [Input.text "bye"]).returned = .crashed ∧
    (readline_loop env0 console0 [Input.text " Exit "]).returned = .nil := by
  decide

/-! ## Properties of the dispatch loop and the teardown of `main` -/

theorem shutdownCalls_append (xs ys : List MainEvent) :
    shutdownCalls (xs ++ ys) = shutdownCalls xs ++ shutdownCalls ys := by
  simp [shutdownCalls]

theorem shutdownCalls_console (es : List Effect) :
    shutdownCalls (es.map .console) = [] := by
  induction es with
  | nil => rfl
  | cons e es ih => simp [shutdownCalls]

theorem tests_append (xs ys : List MainEvent) : tests (xs ++ ys) = tests xs ++ tests ys := by
  induction xs with
  | nil => rfl
  | cons e xs ih => cases e <;> simp [tests, ih]

theorem tests_console (es : List Effect) : tests (es.map .console) = [] := by
  induction es with
  | nil => rfl
  | cons e es ih => simp [tests, ih]

theorem wait_subsystems_shutdownCalls (active : Nat → Int) (fuel : Nat) :
    ∀ k, shutdownCalls (wait_subsystems active fuel k).1 = [] := by
  induction fuel with
  | zero => intro k; rfl
  | succ fuel ih =>
    intro k
    by_cases h : active k > 0
    · have := ih (k + 1)
      simp [wait_subsystems, h, shutdownCalls] at this ⊢
      exact this
    · simp [wait_subsystems, h, shutdownCalls]

/-- When the wait loop is left, its last test read a value that is not positive and every
earlier test read a positive one. -/
theorem wait_subsystems_left (active : Nat → Int) (fuel : Nat) :
    ∀ k, (wait_subsystems active fuel k).2 = true →
      ∃ vs v, tests (wait_subsystems active fuel k).1 = vs ++ [v] ∧ v ≤ 0 ∧
        ∀ w ∈ vs, 0 < w := by
  induction fuel with
  | zero => intro k h; simp [wait_subsystems] at h
  | succ fuel ih =>
    intro k h
    by_cases hk : active k > 0
    · simp only [wait_subsystems, if_pos hk] at h ⊢
      obtain ⟨vs, v, hv, hle, hpos⟩ := ih (k + 1) h
      refine ⟨active k :: vs, v, ?_, hle, ?_⟩
      · simp [tests, hv]
      · intro w hw
        rcases List.mem_cons.mp hw with rfl | hw
        · exact hk
        · exact hpos w hw
    · refine ⟨[], active k, ?_, not_lt.mp hk, by simp⟩
      simp [wait_subsystems, hk, tests]

/-- The wait loop is left as soon as a test reads a value that is not positive. -/
theorem wait_subsystems_returns (active : Nat → Int) (fuel : Nat) :
    ∀ k, (∃ j, k ≤ j ∧ j < k + fuel ∧ active j ≤ 0) →
      (wait_subsystems active fuel k).2 = true := by
  induction fuel with
  | zero => intro k ⟨j, h1, h2, _⟩; omega
  | succ fuel ih =>
    intro k ⟨j, h1, h2, h3⟩
    by_cases hk : active k > 0
    · simp only [wait_subsystems, if_pos hk]
      refine ih (k + 1) ⟨j, ?_, by omega, h3⟩
      rcases Nat.eq_or_lt_of_le h1 with rfl | h
      · omega
      · exact h
    · simp [wait_subsystems, hk]

/-- The dispatch loop is left only through a call that returned `nil`, after calls that all
returned the error `crashed`. -/
theorem dispatch_loop_left (env : Env) (fuel : Nat) :
    ∀ (st : Console) (inputs : List Input), (dispatch_loop env fuel st inputs).exit = .left →
      ∃ n, (dispatch_loop env fuel st inputs).calls = List.replicate n .crashed ++ [.nil] := by
  induction fuel with
  | zero => intro st inputs h; simp [dispatch_loop] at h
  | succ fuel ih =>
    intro st inputs h
    simp only [dispatch_loop] at h ⊢
    rcases hr : (readline_loop env st inputs).returned with _ | _ | _ | _ <;>
      rw [hr] at h <;> simp only [] at h ⊢
    · exact ⟨0, rfl⟩
    · obtain ⟨n, hn⟩ := ih _ _ h
      exact ⟨n + 1, by rw [hn]; rfl⟩
    · cases h
    · cases h

/-- Input on which `readline_loop` keeps reading can be followed by more input. -/
theorem readline_loop_append (env : Env) (pre : List Input) :
    ∀ (st : Console) (xs : List Input), (readline_loop env st pre).returned = .waiting →
      readline_loop env st (pre ++ xs) =
        { readline_loop env (readline_loop env st pre).state xs with
          effects := (readline_loop env st pre).effects ++
            (readline_loop env (readline_loop env st pre).state xs).effects } := by
  induction pre with
  | nil => intro st xs _; simp [readline_loop]
  | cons i pre ih =>
    intro st xs h
    simp only [readline_loop, List.cons_append] at h ⊢
    rcases hc : (readline_pass env st i).control with _ | _ | _ | _ <;>
      rw [hc] at h <;> simp only [] at h ⊢
    · have e := ih _ xs h
      simp only [List.append_eq] at e ⊢
      rw [e]; simp
    · cases h
    · cases h
    · cases h

/-! ## Properties of the case selection under re-casing -/

theorem keepsLowerLetters_asciiLower : keepsLowerLetters asciiLower := by
  intro c h1 h2
  unfold asciiLower
  rw [if_neg]
  omega

/-- A run of runes that are not white space is read into the current field. -/
theorem fieldsFrom_word (name : Str) : ∀ (cur rest : Str),
    (∀ c ∈ name, isSpace c = false) →
    fieldsFrom (name ++ rest) cur = fieldsFrom rest (cur ++ name) := by
  induction name with
  | nil => intro cur rest _; simp
  | cons a name ih =>
    intro cur rest h
    have ha : isSpace a = false := h a (List.mem_cons_self _ _)
    have := ih (cur ++ [a]) rest (fun c hc => h c (List.mem_cons_of_mem _ hc))
    simp only [List.cons_append, fieldsFrom, ha, Bool.false_eq_true, if_false]
    simp only [List.append_eq]
    rw [this]; simp

/-- A word followed by nothing or by white space is the first field of the line. -/
theorem Fields_word (name rest : Str) (hne : name ≠ [])
    (hs : ∀ c ∈ name, isSpace c = false)
    (hr : rest = [] ∨ ∃ c cs, rest = c :: cs ∧ isSpace c = true) :
    Fields (name ++ rest) = name :: Fields rest := by
  unfold Fields
  rw [fieldsFrom_word name [] rest hs]
  rcases hr with rfl | ⟨c, cs, rfl, hc⟩
  · simp [fieldsFrom, hne]
  · simp [fieldsFrom, hc, hne]

/-- Lower-casing a string of the letters `a` to `z` changes nothing. -/
theorem ToLower_lower_letters (lower : Char → Char) (hk : keepsLowerLetters lower) (s : Str)
    (h : ∀ c ∈ s, 97 ≤ c.toNat ∧ c.toNat ≤ 122) : ToLower lower s = s := by
  unfold ToLower
  conv_rhs => rw [← List.map_id s]
  exact List.map_congr_left fun c hc => hk c (h c hc).1 (h c hc).2

/-- Two lines on which every guard of the `switch` has the same truth value select the same
case. -/
theorem selectCase_congr (lower : Char → Char) (line line' command : Str)
    (hhelp : line' = "help".toList ↔ line = "help".toList)
    (hsleep : line' = "sleep".toList ↔ line = "sleep".toList)
    (hempty : line' = [] ↔ line = [])
    (hlow : ToLower lower line' = ToLower lower line) :
    selectCase lower line' command = selectCase lower line command := by
  unfold selectCase
  rw [hlow]
  repeat' first
    | rfl
    | exact if_congr hhelp rfl rfl
    | exact if_congr hsleep rfl (if_congr hempty rfl rfl)
    | apply if_congr hhelp rfl
    | apply if_congr Iff.rfl rfl

/-- A re-cased line spells a word of lower-case letters only if the lower-case line does. -/
theorem recased_word (lower : Char → Char) (hk : keepsLowerLetters lower)
    (name name' rest w : Str) (hw : ∀ c ∈ w, 97 ≤ c.toNat ∧ c.toNat ≤ 122)
    (hn : ToLower lower name' = name) (h : name' ++ rest = w) : name ++ rest = w := by
  have : ToLower lower name' = name' :=
    ToLower_lower_letters lower hk name' fun c hc =>
      hw c (by rw [← h]; exact List.mem_append_left _ hc)
  rw [← hn, this, h]

/-- Re-casing the first word of a line changes neither the selected case nor the arguments,
unless the lower-case line is `help` or `sleep`. -/
theorem recasing_selects_same_case (lower : Char → Char) (hk : keepsLowerLetters lower)
    (name name' rest : Str) (hn : ToLower lower name' = name)
    (hl : ToLower lower name = name)
    (hs' : ∀ c ∈ name', isSpace c = false) (hs : ∀ c ∈ name, isSpace c = false)
    (hr : rest = [] ∨ ∃ c cs, rest = c :: cs ∧ isSpace c = true)
    (hhelp : name ++ rest ≠ "help".toList) (hsleep : name ++ rest ≠ "sleep".toList) :
    selectCase lower (name' ++ rest) (commandOf lower (Fields (name' ++ rest))) =
      selectCase lower (name ++ rest) (commandOf lower (Fields (name ++ rest))) ∧
    (Fields (name' ++ rest)).tail = (Fields (name ++ rest)).tail := by
  by_cases h0 : name' = []
  · subst h0
    have : name = [] := by rw [← hn]; rfl
    subst this
    exact ⟨rfl, rfl⟩
  · have h1 : name ≠ [] := by
      rw [← hn]; simpa [ToLower] using h0
    rw [Fields_word name' rest h0 hs' hr, Fields_word name rest h1 hs hr]
    refine ⟨?_, rfl⟩
    simp only [commandOf, hn, hl]
    refine selectCase_congr lower _ _ _ ?_ ?_ ?_ ?_
    · refine ⟨fun h => absurd ?_ hhelp, fun h => absurd h hhelp⟩
      exact recased_word lower hk name name' rest _ (by decide) hn h
    · refine ⟨fun h => absurd ?_ hsleep, fun h => absurd h hsleep⟩
      exact recased_word lower hk name name' rest _ (by decide) hn h
    · simp [h0, h1]
    · simp only [ToLower, List.map_append] at hn hl ⊢
      rw [hn, hl]

/-- The line `BaN 1.2.3.4` selects the case of `ban 1.2.3.4` with the same arguments. -/
theorem recasing_ban :
    selectCase asciiLower ("BaN".toList ++ " 1.2.3.4".toList)
        (commandOf asciiLower (Fields ("BaN".toList ++ " 1.2.3.4".toList))) =
      selectCase asciiLower ("ban".toList ++ " 1.2.3.4".toList)
        (commandOf asciiLower (Fields ("ban".toList ++ " 1.2.3.4".toList))) ∧
    (Fields ("BaN".toList ++ " 1.2.3.4".toList)).tail =
      (Fields ("ban".toList ++ " 1.2.3.4".toList)).tail :=
  recasing_selects_same_case asciiLower keepsLowerLetters_asciiLower "ban".toList "BaN".toList
    " 1.2.3.4".toList (by decide) (by decide) (by decide) (by decide)
    (Or.inr ⟨' ', "1.2.3.4".toList, rfl, by decide⟩) (by decide) (by decide)

/-! ## Properties of the sampler and the renderer -/

/-- A variable assigned at or after the call that panicked keeps its value. -/
theorem sampler_tick_keeps (c : Sample) (s : Status) (call : Call)
    (h : (sampler_tick c s).failed = some call) (v : Var) (hv : call.line ≤ v.line) :
    v.same (sampler_tick c s).state.t s.t := by
  obtain ⟨a1, a2, a3, a4, a5, a6, a7, a8, a9, a10, a11, f, a13⟩ := c
  rcases a1 with _ | x1
  · simp [sampler_tick] at h ⊢; subst h; cases v <;> simp_all [Var.same, Var.line, Call.line]
  rcases a2 with _ | x2
  · simp [sampler_tick] at h ⊢; subst h; cases v <;> simp_all [Var.same, Var.line, Call.line]
  rcases a3 with _ | x3
  · simp [sampler_tick] at h ⊢; subst h; cases v <;> simp_all [Var.same, Var.line, Call.line]
  rcases a4 with _ | x4
  · simp [sampler_tick] at h ⊢; subst h; cases v <;> simp_all [Var.same, Var.line, Call.line]
  rcases a5 with _ | x5
  · simp [sampler_tick] at h ⊢; subst h; cases v <;> simp_all [Var.same, Var.line, Call.line]
  rcases a6 with _ | x6
  · simp [sampler_tick] at h ⊢; subst h; cases v <;> simp_all [Var.same, Var.line, Call.line]
  rcases a7 with _ | x7
  · simp [sampler_tick] at h ⊢; subst h; cases v <;> simp_all [Var.same, Var.line, Call.line]
  rcases a8 with _ | x8
  · simp [sampler_tick] at h ⊢; subst h; cases v <;> simp_all [Var.same, Var.line, Call.line]
  rcases a9 with _ | x9
  · simp [sampler_tick] at h ⊢; subst h; cases v <;> simp_all [Var.same, Var.line, Call.line]
  rcases a10 with _ | x10
  · simp [sampler_tick] at h ⊢; subst h; cases v <;> simp_all [Var.same, Var.line, Call.line]
  rcases a11 with _ | x11
  · simp [sampler_tick] at h ⊢; subst h; cases v <;> simp_all [Var.same, Var.line, Call.line]
  rcases hf : f (toUint64 (wrap64 (x11 - s.config.NetworkStatsKeepCount))) with _ | o
  · simp [sampler_tick, hf] at h ⊢; subst h
    cases v <;> simp_all [Var.same, Var.line, Call.line]
  · simp only [sampler_tick, hf, sampler_tail] at h ⊢
    split at h
    · rcases a13 with _ | x13
      · simp at h; subst h; cases v <;> simp_all [Var.same, Var.line, Call.line]
      · simp at h
    · simp at h

/-- A tick changes neither the `last_*` variables nor the prompt nor the configuration. -/
theorem sampler_tick_frame (c : Sample) (s : Status) :
    (sampler_tick c s).state.last = s.last ∧ (sampler_tick c s).state.prompt = s.prompt ∧
    (sampler_tick c s).state.config = s.config := by
  simp only [sampler_tick, sampler_tail]
  repeat' split
  all_goals exact ⟨rfl, rfl, rfl⟩

/-- After a redraw of a state in which `best_topo_height` equals `topo_height`, the next
test of line 449 is true exactly when one of the seven values differs from the redraw. -/
theorem changed_after_redraw (now now2 now3 : Int) (s s2 : Status)
    (hc : changed now s = true) (htopo : s.t.best_topo_height = s.t.topo_height)
    (hlast : s2.last = (render_iteration now now2 s).1.last) :
    changed now3 s2 = false ↔
      (now3 = now2 ∧ s2.t.our_height = s.t.our_height ∧ s2.t.best_height = s.t.best_height ∧
        s2.t.peer_count = s.t.peer_count ∧ s2.t.topo_height = s.t.topo_height ∧
        s2.t.mempool_tx_count = s.t.mempool_tx_count ∧
        s2.t.regpool_tx_count = s.t.regpool_tx_count) := by
  simp only [render_iteration, hc, if_true] at hlast
  simp only [changed, hlast, htopo]
  simp only [Bool.or_eq_false_iff, bne_eq_false_iff_eq]
  constructor
  · rintro ⟨⟨⟨⟨⟨⟨h1, h2⟩, h3⟩, h4⟩, h5⟩, h6⟩, h7⟩
    exact ⟨h1.symm, h2.symm, h3.symm, h4.symm, h5.symm, h6.symm, h7.symm⟩
  · rintro ⟨h1, h2, h3, h4, h5, h6, h7⟩
    exact ⟨⟨⟨⟨⟨⟨h1.symm, h2.symm⟩, h3.symm⟩, h4.symm⟩, h5.symm⟩, h6.symm⟩, h7.symm⟩

/-- An iteration redraws exactly when the test of line 449 is true. -/
theorem render_iteration_calls (now now2 : Int) (s : Status) :
    ((render_iteration now now2 s).2 = [] ↔ changed now s = false) ∧
    (changed now s = true →
      (render_iteration now now2 s).2 =
        [.SetPrompt (prompt_of s (turtle_after s.t s.g.NetworkTurtle)), .Refresh]) := by
  unfold render_iteration
  cases changed now s <;> simp

/-! ## Properties of the statistics commands -/

theorem notAfter_more_total (m : StatsMap) (a b : Str) :
    notAfter (more_total m) a b ↔ (m.get b).total ≤ (m.get a).total := by
  simp [notAfter, more_total]

theorem notAfter_total (m : StatsMap) : IsTotal Str (notAfter (more_total m)) :=
  ⟨fun a b => by
    simp only [notAfter_more_total]
    exact le_total _ _⟩

theorem notAfter_trans (m : StatsMap) : IsTrans Str (notAfter (more_total m)) :=
  ⟨fun a b c => by
    simp only [notAfter_more_total]
    exact fun h1 h2 => le_trans h2 h1⟩

/-- The sorted slice holds the keys of the map. -/
theorem ordered_perm (m : StatsMap) : (ordered_nodes m).Perm (m.map (·.1)) :=
  List.perm_insertionSort _ _

/-- The sorted slice is non-increasing in `total`. -/
theorem ordered_sorted (m : StatsMap) :
    (ordered_nodes m).Pairwise fun a b => (m.get a).total ≥ (m.get b).total := by
  haveI := notAfter_total m
  haveI := notAfter_trans m
  have h : (ordered_nodes m).Sorted (notAfter (more_total m)) := List.sorted_insertionSort _ _
  exact List.Pairwise.imp (fun hab => (notAfter_more_total m _ _).mp hab) h

/-- The sort is stable: two keys of which the earlier has no smaller `total` keep their
order. -/
theorem ordered_stable (m : StatsMap) (a b : Str) (h : List.Sublist [a, b] (m.map (·.1)))
    (hab : (m.get b).total ≤ (m.get a).total) : List.Sublist [a, b] (ordered_nodes m) :=
  List.pair_sublist_insertionSort ((notAfter_more_total m a b).mpr hab) h

/-- With distinct keys the index expression gives the entry of the key. -/
theorem StatsMap.get_entry (m : StatsMap) (h : (m.map (·.1)).Nodup) :
    ∀ e ∈ m, m.get e.1 = e.2 := by
  induction m with
  | nil => intro e he; cases he
  | cons x m ih =>
    intro e he
    rw [List.map_cons, List.nodup_cons] at h
    rcases List.mem_cons.mp he with rfl | he
    · simp [StatsMap.get]
    · have hne : x.1 ≠ e.1 := fun hx => h.1 (hx ▸ List.mem_map_of_mem _ he)
      have := ih h.2 e he
      simpa [StatsMap.get, List.find?_cons, hne] using this

/-- Percentages of a common total that is not 0 add up to 100 when the parts add up to the
total. -/
theorem sum_percent (l : List Int) (T : Int) (hT : T ≠ 0) (hs : l.sum = T) :
    (l.map fun a : Int => (a : ℚ) / (T : ℚ) * 100).sum = 100 := by
  have key : ∀ l : List Int,
      (l.map fun a : Int => (a : ℚ) / (T : ℚ) * 100).sum =
        ((l.sum : Int) : ℚ) / (T : ℚ) * 100 := by
    intro l
    induction l with
    | nil => simp
    | cons a l ih => simp [ih, add_div, add_mul]
  rw [key, hs]
  have : (T : ℚ) ≠ 0 := by exact_mod_cast hT
  field_simp

/-- The sum of a function of the counters over the sorted keys is its sum over the
entries. -/
theorem ordered_sum (m : StatsMap) (h : (m.map (·.1)).Nodup) (g : Counters → ℚ) :
    ((ordered_nodes m).map fun k => g (m.get k)).sum = (m.map fun e => g e.2).sum := by
  rw [((ordered_perm m).map _).sum_eq, List.map_map]
  congr 1
  exact List.map_congr_left fun e he => by simp [StatsMap.get_entry m h e he]

/-- When `show_count` reaches the number of entries, every sorted key gets a line. -/
theorem take_show_count (m : StatsMap) (line_parts : List Str)
    (hall : (show_count line_parts m.length).1 = (m.length : Int)) :
    (ordered_nodes m).take (show_count line_parts m.length).1.toNat = ordered_nodes m := by
  rw [hall]
  apply List.take_of_length_le
  rw [(ordered_perm m).length_eq]
  simp

/-- The dominance column of `active_nodes` adds up to 100 under the premises of C18. -/
theorem active_nodes_sum (m : StatsMap) (ib mb : Int) (line_parts : List Str)
    (hkeys : (m.map (·.1)).Nodup)
    (hall : (show_count line_parts m.length).1 = (m.length : Int)) (hT : ib + mb ≠ 0)
    (hs : (m.map fun e => e.2.finals + e.2.minis).sum = ib + mb) :
    dominanceSum ((active_nodes m ib mb line_parts).map (·.dominance)) = 100 := by
  unfold active_nodes dominanceSum
  rw [take_show_count m line_parts hall, List.map_map, List.map_map]
  have := ordered_sum m hkeys fun c =>
    ((c.finals + c.minis : Int) : ℚ) / ((ib + mb : Int) : ℚ) * 100
  have e := sum_percent (m.map fun e => e.2.finals + e.2.minis) (ib + mb) hT hs
  rw [List.map_map] at e
  exact this.trans e

/-- The dominance column of `active_miners` adds up to 100 under the premises of C18. -/
theorem active_miners_sum (m : StatsMap) (height start keep : Int) (line_parts : List Str)
    (hkeys : (m.map (·.1)).Nodup)
    (hall : (show_count line_parts m.length).1 = (m.length : Int))
    (hT : 10 * keep_blocks height start keep ≠ 0)
    (hs : (m.map fun e => e.2.total).sum = 10 * keep_blocks height start keep) :
    dominanceSum ((active_miners m height start keep line_parts).map (·.dominance)) = 100 := by
  unfold active_miners dominanceSum
  rw [take_show_count m line_parts hall, List.map_map, List.map_map]
  have := ordered_sum m hkeys fun c =>
    ((c.total : Int) : ℚ) / ((10 * keep_blocks height start keep : Int) : ℚ) * 100
  have e := sum_percent (m.map fun e => e.2.total) (10 * keep_blocks height start keep) hT hs
  rw [List.map_map] at e
  exact this.trans e

/-- A division by zero never prints the number 0. -/
theorem Percent.text_of_zero (p : Percent) (h : p.den = 0) : p.text ≠ .number 0 := by
  unfold Percent.text
  rw [if_neg (by simp [h])]
  split_ifs <;> simp

/-! ## Claims on the lifecycle of `main` -/

/-- C11: when the dispatch loop is left (the last call of `readline_loop` returned `nil`),
`main` has executed every console effect, then `RPCServer_Stop`, `P2P_Shutdown` and
`chain.Shutdown` once each in that order, then only tests of `globals.Subsystem_Active`; it
returns as soon as a test reads a value that is not positive, and whenever it has returned
the dispatch loop was left and the last test read a value that is not positive, every
earlier one a positive value. -/
theorem teardown_sequence (env : Env) (active : Nat → Int) (calls polls : Nat)
    (st : Console) (inputs : List Input) :
    ((dispatch_loop env calls st inputs).exit = .left →
      (dispatch_loop env calls st inputs).calls.getLast? = some .nil ∧
      (∃ post, (main_tail env active calls polls st inputs).events =
          (dispatch_loop env calls st inputs).effects.map .console ++
            [.Info "Exit in Progress, Please wait".toList, .Sleep 100] ++
            [.RPCServer_Stop, .P2P_Shutdown, .chain_Shutdown] ++ post ∧
          shutdownCalls post = []) ∧
      shutdownCalls (main_tail env active calls polls st inputs).events =
        [.RPCServer_Stop, .P2P_Shutdown, .chain_Shutdown] ∧
      ((∃ k, k < polls ∧ active k ≤ 0) →
        (main_tail env active calls polls st inputs).outcome = .returned)) ∧
    ((main_tail env active calls polls st inputs).outcome = .returned →
      (dispatch_loop env calls st inputs).exit = .left ∧
      ∃ vs v, tests (main_tail env active calls polls st inputs).events = vs ++ [v] ∧
        v ≤ 0 ∧ ∀ w ∈ vs, 0 < w) := by
  constructor
  · intro h
    refine ⟨?_, ?_, ?_, ?_⟩
    · obtain ⟨n, hn⟩ := dispatch_loop_left env calls st inputs h
      rw [hn]; simp
    · refine ⟨(wait_subsystems active polls 0).1, ?_, wait_subsystems_shutdownCalls _ _ _⟩
      simp [main_tail, h, teardown]
    · simp only [main_tail, h, teardown, shutdownCalls_append, shutdownCalls_console,
        wait_subsystems_shutdownCalls]
      rfl
    · rintro ⟨k, hk, hz⟩
      have := wait_subsystems_returns active polls 0 ⟨k, Nat.zero_le _, by omega, hz⟩
      simp [main_tail, h, teardown, this]
  · intro h
    rcases hx : (dispatch_loop env calls st inputs).exit with _ | _ | _
    · refine ⟨rfl, ?_⟩
      simp only [main_tail, hx, teardown] at h ⊢
      have hw : (wait_subsystems active polls 0).2 = true := by
        by_contra hn
        simp [hn] at h
      obtain ⟨vs, v, hv, hle, hpos⟩ := wait_subsystems_left active polls 0 hw
      refine ⟨vs, v, ?_, hle, hpos⟩
      simp [tests_append, tests_console, tests, hv]
    · simp [main_tail, hx] at h
    · simp [main_tail, hx] at h

theorem teardown_sequence_witness :
    (dispatch_loop env0 3 console0 [Input.text "exit"]).exit = .left ∧
    shutdownCalls (main_tail env0 active0 3 5 console0 [Input.text "exit"]).events =
      [.RPCServer_Stop, .P2P_Shutdown, .chain_Shutdown] ∧
    (main_tail env0 active0 3 5 console0 [Input.text "exit"]).outcome = .returned ∧
    tests (main_tail env0 active0 3 5 console0 [Input.text "exit"]).events = [2, 1, 0] :=
  ⟨by decide,
    ((teardown_sequence env0 active0 3 5 console0 [Input.text "exit"]).1 (by decide)).2.2.1,
    by decide, by decide⟩

/-- C12: if the handler of a line panics inside `readline_loop` (after any number of lines
that were handled normally), `readline_loop` returns the error `crashed` with the later lines
unread, and the dispatch loop of `main` calls `readline_loop` again on those lines in the
state the handler left; the loop is left only through a call that returned `nil`, every
call before it having returned `crashed`. -/
theorem handler_panic_recovered (env : Env) (fuel : Nat) (st : Console) (pre : List Input)
    (i : Input) (rest : List Input)
    (hpre : (readline_loop env st pre).returned = .waiting)
    (hpanic : (readline_pass env (readline_loop env st pre).state i).control = .panic) :
    (readline_loop env st (pre ++ i :: rest)).returned = .crashed ∧
    (readline_loop env st (pre ++ i :: rest)).rest = rest ∧
    (dispatch_loop env (fuel + 1) st (pre ++ i :: rest)).calls =
      .crashed :: (dispatch_loop env fuel
        (readline_pass env (readline_loop env st pre).state i).state rest).calls ∧
    (dispatch_loop env (fuel + 1) st (pre ++ i :: rest)).exit =
      (dispatch_loop env fuel
        (readline_pass env (readline_loop env st pre).state i).state rest).exit ∧
    ∀ (n : Nat) (st' : Console) (inputs : List Input),
      (dispatch_loop env n st' inputs).exit = .left →
        ∃ k, (dispatch_loop env n st' inputs).calls = List.replicate k .crashed ++ [.nil] := by
  have e := readline_loop_append env pre st (i :: rest) hpre
  have e1 : readline_loop env (readline_loop env st pre).state (i :: rest) =
      ⟨(readline_pass env (readline_loop env st pre).state i).state,
        (readline_pass env (readline_loop env st pre).state i).effects, .crashed, rest⟩ := by
    simp only [readline_loop, hpanic]
  rw [e1] at e
  refine ⟨by rw [e], by rw [e], ?_, ?_, fun n st' inputs => dispatch_loop_left env n st' inputs⟩
  · simp only [dispatch_loop, e]
  · simp only [dispatch_loop, e]

theorem handler_panic_recovered_witness :
    (readline_loop envD console0 [Input.text "ban 1.2.3.4"]).returned = .waiting ∧
    (readline_pass envD (readline_loop envD console0 [Input.text "ban 1.2.3.4"]).state
      (Input.text "fix")).control = .panic ∧
    (readline_loop envD console0
      ([Input.text "ban 1.2.3.4"] ++ Input.text "fix" :: [Input.text "exit"])).returned
        = .crashed ∧
    (dispatch_loop envD 2 console0
      ([Input.text "ban 1.2.3.4"] ++ Input.text "fix" :: [Input.text "exit"])).calls
        = [.crashed, .nil] :=
  ⟨by decide, by decide,
    (handler_panic_recovered envD 1 console0 [Input.text "ban 1.2.3.4"] (Input.text "fix")
      [Input.text "exit"] (by decide) (by decide)).1,
    by decide⟩

/-! ## Claims on the case selection -/

/-- C13: the guards of `help` and `sleep` compare the line itself, so `HELP` and `Sleep`
select the default case (`you said: ...`) while `help` and `sleep` select their own cases;
for every other line, re-casing the first word (here with any `unicode.ToLower` that keeps
the letters `a` to `z`) selects the same case as the lower-case spelling and leaves the
arguments unchanged, as the claim says of every command. -/
theorem help_and_sleep_are_case_sensitive :
    (readline_pass env0 console0 (Input.text "help")).effects = [.handler .help] ∧
    (readline_pass env0 console0 (Input.text "HELP")).effects = [.handler .default] ∧
    (readline_pass env0 console0 (Input.text "sleep")).effects = [.handler .sleep] ∧
    (readline_pass env0 console0 (Input.text "Sleep")).effects = [.handler .default] ∧
    (readline_pass env0 console0 (Input.text "STATUS")).effects = [.handler .status] ∧
    (readline_pass env0 console0 (Input.text "Version")).effects = [.handler .version] ∧
    ∀ (lower : Char → Char) (name name' rest : Str), keepsLowerLetters lower →
      ToLower lower name' = name → ToLower lower name = name →
      (∀ c ∈ name', isSpace c = false) → (∀ c ∈ name, isSpace c = false) →
      (rest = [] ∨ ∃ c cs, rest = c :: cs ∧ isSpace c = true) →
      name ++ rest ≠ "help".toList → name ++ rest ≠ "sleep".toList →
      selectCase lower (name' ++ rest) (commandOf lower (Fields (name' ++ rest))) =
        selectCase lower (name ++ rest) (commandOf lower (Fields (name ++ rest))) ∧
      (Fields (name' ++ rest)).tail = (Fields (name ++ rest)).tail :=
  ⟨by decide, by decide, by decide, by decide, by decide, by decide,
    fun lower name name' rest hk hn hl hs' hs hr hhelp hsleep =>
      recasing_selects_same_case lower hk name name' rest hn hl hs' hs hr hhelp hsleep⟩

/-! ## Claims on the status renderer and the telemetry sampler -/

/-- C14: line 496 stores `best_topo_height` in `last_topo_height`, so after a redraw of a
node at topo height 5 whose best peer is at topo height 7 the next iteration redraws although
none of the seven values has changed, and it does not redraw when `topo_height` alone has
changed to 7.  When `best_topo_height` equals `topo_height` at the redraw the renderer does
what the claim says: the next iteration redraws exactly when one of the seven values
differs, whatever else has changed. -/
theorem redraw_compares_best_topo_height :
    (render_iteration 100 100 status0).2 ≠ [] ∧
    (render_iteration 100 100 (render_iteration 100 100 status0).1).2 ≠ [] ∧
    (render_iteration 100 100
      { (render_iteration 100 100 status0).1 with
        t := { telemetry0 with topo_height := 7 } }).2 = [] ∧
    ∀ (now now2 now3 now4 : Int) (s s2 : Status), changed now s = true →
      s.t.best_topo_height = s.t.topo_height →
      s2.last = (render_iteration now now2 s).1.last →
      ((render_iteration now3 now4 s2).2 = [] ↔
        (now3 = now2 ∧ s2.t.our_height = s.t.our_height ∧
          s2.t.best_height = s.t.best_height ∧ s2.t.peer_count = s.t.peer_count ∧
          s2.t.topo_height = s.t.topo_height ∧
          s2.t.mempool_tx_count = s.t.mempool_tx_count ∧
          s2.t.regpool_tx_count = s.t.regpool_tx_count)) :=
  ⟨by decide, by decide, by decide, fun now now2 now3 now4 s s2 hc htopo hlast =>
    ((render_iteration_calls now3 now4 s2).1).trans
      (changed_after_redraw now now2 now3 s s2 hc htopo hlast)⟩

/-- C15: in the prompt a redraw sets, the height colour is yellow exactly when
`our_height < best_height`, red exactly when `our_height > best_height` and green exactly
when they are equal; the peer colour is red exactly when `peer_count` is 0, yellow exactly
when it is between 1 and 8 and green exactly when it is greater than 8. -/
theorem urgency_colors (now now2 : Int) (s : Status) (h : changed now s = true) :
    ∃ p, (render_iteration now now2 s).2 = [.SetPrompt p, .Refresh] ∧
      (render_iteration now now2 s).1.prompt = some p ∧
      (p.color = .yellow ↔ s.t.our_height < s.t.best_height) ∧
      (p.color = .red ↔ s.t.our_height > s.t.best_height) ∧
      (p.color = .green ↔ s.t.our_height = s.t.best_height) ∧
      (p.pcolor = .red ↔ s.t.peer_count = 0) ∧
      (p.pcolor = .yellow ↔ 1 ≤ s.t.peer_count ∧ s.t.peer_count ≤ 8) ∧
      (p.pcolor = .green ↔ 8 < s.t.peer_count) := by
  refine ⟨prompt_of s (turtle_after s.t s.g.NetworkTurtle), ?_, ?_, ?_⟩
  · simp [render_iteration, h]
  · simp [render_iteration, h]
  · simp only [prompt_of, color, pcolor]
    refine ⟨?_, ?_, ?_, ?_, ?_, ?_⟩
    · split_ifs <;> simp_all
    · split_ifs <;> simp_all
      omega
    · split_ifs <;> simp_all <;> omega
    · split_ifs <;> simp_all
    · split_ifs <;> simp_all
      omega
    · split_ifs <;> simp_all

theorem urgency_colors_witness :
    changed 100 status0 = true ∧
    ∃ p, (render_iteration 100 100 status0).2 = [.SetPrompt p, .Refresh] ∧
      (render_iteration 100 100 status0).1.prompt = some p ∧
      (p.color = .yellow ↔ status0.t.our_height < status0.t.best_height) ∧
      (p.color = .red ↔ status0.t.our_height > status0.t.best_height) ∧
      (p.color = .green ↔ status0.t.our_height = status0.t.best_height) ∧
      (p.pcolor = .red ↔ status0.t.peer_count = 0) ∧
      (p.pcolor = .yellow ↔ 1 ≤ status0.t.peer_count ∧ status0.t.peer_count ≤ 8) ∧
      (p.pcolor = .green ↔ 8 < status0.t.peer_count) :=
  ⟨by decide, urgency_colors 100 100 status0 (by decide)⟩

/-- C16, the claim fails: in a tick in which `Get_Height` answers 6 and `Best_Peer_Height`
panics, `our_height` is 6 after the tick and was 5 before it. -/
theorem failed_tick_updates_counterexample :
    (sampler_tick sample0 status0).failed = some .Best_Peer_Height ∧
    status0.t.our_height = 5 ∧
    (sampler_tick sample0 status0).state.t.our_height = 6 ∧
    ¬ Var.same .our_height (sampler_tick sample0 status0).state.t status0.t := by
  decide

/-- C16, amended: if a collaborator call panics during a tick, every telemetry variable
whose assignment stands at or after that call has the value it had before the tick, the
`last_*` variables and the prompt are untouched, and with the panic recovered the sampler
loop goes on with the next tick from the state the failed tick left. -/
theorem failed_tick_keeps_later_variables (c : Sample) (s : Status) (call : Call)
    (cs : List Sample) (h : (sampler_tick c s).failed = some call) :
    (∀ v : Var, call.line ≤ v.line → v.same (sampler_tick c s).state.t s.t) ∧
    (sampler_tick c s).state.last = s.last ∧
    (sampler_tick c s).state.prompt = s.prompt ∧
    sampler_loop true (c :: cs) s = sampler_loop true cs (sampler_tick c s).state := by
  refine ⟨fun v hv => sampler_tick_keeps c s call h v hv, (sampler_tick_frame c s).1,
    (sampler_tick_frame c s).2.1, ?_⟩
  simp [sampler_loop, sampler_iteration, h]

theorem failed_tick_keeps_later_variables_witness :
    (sampler_tick sample0 status0).failed = some .Best_Peer_Height ∧
    (∀ v : Var, Call.Best_Peer_Height.line ≤ v.line →
      v.same (sampler_tick sample0 status0).state.t status0.t) ∧
    sampler_loop true [sample0, sample0] status0 =
      sampler_loop true [sample0] (sampler_tick sample0 status0).state :=
  ⟨by decide,
    (failed_tick_keeps_later_variables sample0 status0 .Best_Peer_Height [sample0]
      (by decide)).1,
    (failed_tick_keeps_later_variables sample0 status0 .Best_Peer_Height [sample0]
      (by decide)).2.2.2⟩

/-- C17, the claim fails: a redraw of a node at height 5 whose best peer is at height 9
turns `globals.NetworkTurtle` on. -/
theorem render_sets_turtle_counterexample :
    { status0 with t := { telemetry0 with best_height := 9 } }.g.NetworkTurtle = false ∧
    (render_iteration 100 100
      { status0 with t := { telemetry0 with best_height := 9 } }).1.g.NetworkTurtle
        = true := by
  decide

/-- C17, amended: a render iteration changes no telemetry variable, no configuration value
and no variable of `globals` other than `NetworkTurtle`; an iteration that does not redraw
changes nothing at all; a redraw turns the flag off with no peer, on with 1 to 8 peers, and
with more than 8 peers on when the node is behind the best peer, off when it is ahead, and
leaves it as it was when the heights are equal. -/
theorem render_frame (now now2 : Int) (s : Status) :
    (render_iteration now now2 s).1.t = s.t ∧
    (render_iteration now now2 s).1.config = s.config ∧
    (render_iteration now now2 s).1.g =
      { s.g with NetworkTurtle := (render_iteration now now2 s).1.g.NetworkTurtle } ∧
    (changed now s = false → (render_iteration now now2 s).1 = s) ∧
    (changed now s = true →
      (s.t.peer_count = 0 → (render_iteration now now2 s).1.g.NetworkTurtle = false) ∧
      (1 ≤ s.t.peer_count → s.t.peer_count ≤ 8 →
        (render_iteration now now2 s).1.g.NetworkTurtle = true) ∧
      (8 < s.t.peer_count → s.t.our_height < s.t.best_height →
        (render_iteration now now2 s).1.g.NetworkTurtle = true) ∧
      (8 < s.t.peer_count → s.t.our_height > s.t.best_height →
        (render_iteration now now2 s).1.g.NetworkTurtle = false) ∧
      (8 < s.t.peer_count → s.t.our_height = s.t.best_height →
        (render_iteration now now2 s).1.g.NetworkTurtle = s.g.NetworkTurtle)) := by
  unfold render_iteration
  cases hc : changed now s
  · simp
  · simp only [if_true, turtle_after]
    refine ⟨trivial, trivial, trivial, by simp, fun _ => ⟨?_, ?_, ?_, ?_, ?_⟩⟩
    · intro h; simp [h]
    · intro h1 h2
      rw [if_neg (by omega), if_pos h2]
    · intro h1 h2
      rw [if_neg (by omega), if_neg (by omega), if_pos h2]
    · intro h1 h2
      rw [if_neg (by omega), if_neg (by omega), if_neg (by omega), if_pos h2]
    · intro h1 h2
      rw [if_neg (by omega), if_neg (by omega), if_neg (by omega), if_neg (by omega)]

/-! ## Claims on the statistics commands -/

/-- C18, the claim fails: with two nodes of one block each and a block log of two blocks,
`active_nodes 1` computes one dominance percentage, 50; with a block log of four blocks the
two percentages add up to 50; and for three miners with 9 blocks in a window of 7 heights
the percentages of `active_miners` add up to 90/7. -/
theorem dominance_sum_counterexample :
    dominanceSum ((active_nodes nodes2 1 1
      ["active_nodes".toList, "1".toList]).map (·.dominance)) = 50 ∧
    dominanceSum ((active_nodes nodes2 2 2 ["active_nodes".toList]).map (·.dominance)) = 50 ∧
    keep_blocks 7 0 100 = 7 ∧
    dominanceSum ((active_miners nodes3 7 0 100
      ["active_miners".toList]).map (·.dominance)) = 90 / 7 := by
  refine ⟨?_, ?_, by decide, ?_⟩
  · rw [show (active_nodes nodes2 1 1 ["active_nodes".toList, "1".toList]).map (·.dominance)
      = [⟨1, 2⟩] from by decide]
    norm_num [dominanceSum, Percent.exact]
  · rw [show (active_nodes nodes2 2 2 ["active_nodes".toList]).map (·.dominance)
      = [⟨1, 4⟩, ⟨1, 4⟩] from by decide]
    norm_num [dominanceSum, Percent.exact]
  · rw [show (active_miners nodes3 7 0 100 ["active_miners".toList]).map (·.dominance)
      = [⟨5, 70⟩, ⟨2, 70⟩, ⟨2, 70⟩] from by decide]
    norm_num [dominanceSum, Percent.exact]

/-- C18, amended: when the keys of the map are distinct and `show_count` reaches their
number, the exact dominance percentages of `active_nodes` add up to 100 if the block log is
not empty and the `finals` and `minis` of the nodes add up to its length `ib + mb`, and
those of `active_miners` add up to 100 if `10 * keep_blocks` is not 0 and the `total` of the
miners add up to it. -/
theorem dominance_sum (m : StatsMap) (ib mb height start keep : Int) (line_parts : List Str)
    (hkeys : (m.map (·.1)).Nodup)
    (hall : (show_count line_parts m.length).1 = (m.length : Int)) :
    (0 < ib + mb → (m.map fun e => e.2.finals + e.2.minis).sum = ib + mb →
      dominanceSum ((active_nodes m ib mb line_parts).map (·.dominance)) = 100) ∧
    (0 < 10 * keep_blocks height start keep →
      (m.map fun e => e.2.total).sum = 10 * keep_blocks height start keep →
      dominanceSum ((active_miners m height start keep line_parts).map (·.dominance))
        = 100) :=
  ⟨fun hT hs => active_nodes_sum m ib mb line_parts hkeys hall (ne_of_gt hT) hs,
    fun hT hs => active_miners_sum m height start keep line_parts hkeys hall (ne_of_gt hT) hs⟩

theorem dominance_sum_witness :
    (nodes2.map (·.1)).Nodup ∧
    (show_count ["active_nodes".toList] nodes2.length).1 = (nodes2.length : Int) ∧
    (nodes2.map fun e => e.2.finals + e.2.minis).sum = 1 + 1 ∧
    dominanceSum ((active_nodes nodes2 1 1 ["active_nodes".toList]).map (·.dominance))
      = 100 ∧
    (miners2.map fun e => e.2.total).sum = 10 * keep_blocks 1 0 100 ∧
    dominanceSum ((active_miners miners2 1 0 100 ["active_miners".toList]).map (·.dominance))
      = 100 :=
  ⟨by decide, by decide, by decide,
    (dominance_sum nodes2 1 1 1 0 100 ["active_nodes".toList] (by decide) (by decide)).1
      (by decide) (by decide),
    by decide,
    (dominance_sum miners2 1 1 1 0 100 ["active_miners".toList] (by decide) (by decide)).2
      (by decide) (by decide)⟩

/-- C19: the three commands divide without a test of the divisor.  A node without blocks in
an empty block log gets the dominance and the orphan loss `NaN%`, and with
`keep_blocks = 0` every miner with blocks gets the dominance `+Inf%` in `active_miners` and
in `miner_info`; in general the divisor of every dominance is 0 when the window is empty,
the divisor of every orphan loss is 0 when the `total` of the entity is 0, and such a
percentage is never printed as the number 0. -/
theorem division_by_zero_unguarded :
    (active_nodes nodes1 0 0 ["active_nodes".toList]).map
      (fun r => (r.dominance.text, r.orphan_loss.text)) = [(.NaN, .NaN)] ∧
    keep_blocks 7 7 100 = 0 ∧
    (active_miners nodes3 7 7 100 ["active_miners".toList]).map (·.dominance.text)
      = [.posInf, .posInf, .posInf] ∧
    (miner_info nodes3 7 7 100 ["miner_info".toList, "b".toList]).map (·.dominance.text)
      = [.posInf] ∧
    (∀ (m : StatsMap) (ib mb : Int) (line_parts : List Str), ib + mb = 0 →
      ∀ r ∈ active_nodes m ib mb line_parts,
        r.dominance.den = 0 ∧ r.dominance.text ≠ .number 0) ∧
    (∀ (m : StatsMap) (ib mb : Int) (line_parts : List Str),
      ∀ r ∈ active_nodes m ib mb line_parts, (m.get r.node).total = 0 →
        r.orphan_loss.den = 0 ∧ r.orphan_loss.text ≠ .number 0) ∧
    (∀ (m : StatsMap) (height start keep : Int) (line_parts : List Str),
      keep_blocks height start keep = 0 →
      (∀ r ∈ active_miners m height start keep line_parts,
        r.dominance.den = 0 ∧ r.dominance.text ≠ .number 0) ∧
      (∀ r ∈ miner_info m height start keep line_parts,
        r.dominance.den = 0 ∧ r.dominance.text ≠ .number 0)) := by
  refine ⟨by decide, by decide, by decide, by decide, ?_, ?_, ?_⟩
  · intro m ib mb line_parts h r hr
    obtain ⟨node, -, rfl⟩ := List.mem_map.mp hr
    exact ⟨h, Percent.text_of_zero _ h⟩
  · intro m ib mb line_parts r hr h
    obtain ⟨node, -, rfl⟩ := List.mem_map.mp hr
    exact ⟨h, Percent.text_of_zero _ h⟩
  · intro m height start keep line_parts h
    have hz : 10 * keep_blocks height start keep = 0 := by rw [h]; rfl
    constructor
    · intro r hr
      obtain ⟨miner, -, rfl⟩ := List.mem_map.mp hr
      exact ⟨hz, Percent.text_of_zero _ hz⟩
    · intro r hr
      unfold miner_info at hr
      split_ifs at hr
      · obtain ⟨miner, -, rfl⟩ := List.mem_map.mp hr
        exact ⟨hz, Percent.text_of_zero _ hz⟩
      · cases hr

/-- C20, the claim fails: with two nodes, `active_nodes 1` prints the node `a` only, which is
no permutation of the two nodes of the map. -/
theorem ranking_truncated_counterexample :
    (active_nodes nodes2 1 1 ["active_nodes".toList, "1".toList]).map (·.node)
      = ["a".toList] ∧
    ¬ ((active_nodes nodes2 1 1 ["active_nodes".toList, "1".toList]).map (·.node)).Perm
      (nodes2.map (·.1)) := by
  refine ⟨by decide, fun h => ?_⟩
  have := h.length_eq
  revert this
  decide

/-- C20, amended: the entities `active_nodes` and `active_miners` print are the first
`show_count` entries (all of them when `show_count` reaches their number) of a list that is a
permutation of the keys of the map, is non-increasing in `total`, and keeps two keys in the
order of the iteration over the map whenever the earlier has no smaller `total`, so in
particular when their totals are equal. -/
theorem ranking_order (m : StatsMap) (ib mb height start keep : Int)
    (line_parts : List Str) :
    (ordered_nodes m).Perm (m.map (·.1)) ∧
    ((ordered_nodes m).Pairwise fun a b => (m.get a).total ≥ (m.get b).total) ∧
    (∀ a b : Str, List.Sublist [a, b] (m.map (·.1)) → (m.get b).total ≤ (m.get a).total →
      List.Sublist [a, b] (ordered_nodes m)) ∧
    (active_nodes m ib mb line_parts).map (·.node) =
      (ordered_nodes m).take (show_count line_parts m.length).1.toNat ∧
    (active_miners m height start keep line_parts).map (·.miner) =
      (ordered_nodes m).take (show_count line_parts m.length).1.toNat ∧
    ((show_count line_parts m.length).1 = (m.length : Int) →
      (active_nodes m ib mb line_parts).map (·.node) = ordered_nodes m ∧
      (active_miners m height start keep line_parts).map (·.miner) = ordered_nodes m) := by
  have e1 : (active_nodes m ib mb line_parts).map (·.node) =
      (ordered_nodes m).take (show_count line_parts m.length).1.toNat := by
    simp [active_nodes, node_row, Function.comp_def]
  have e2 : (active_miners m height start keep line_parts).map (·.miner) =
      (ordered_nodes m).take (show_count line_parts m.length).1.toNat := by
    simp [active_miners, miner_row, Function.comp_def]
  refine ⟨ordered_perm m, ordered_sorted m, fun a b h hab => ordered_stable m a b h hab,
    e1, e2, fun hall => ?_⟩
  rw [e1, e2, take_show_count m line_parts hall]
  exact ⟨rfl, rfl⟩

/-! ## Properties of the start-up options -/

/-- The value of `ParseInt` is the first result of `strconv.ParseInt` when the second is
`nil`. -/
theorem ParseInt_value (s : Str) (i : Int) :
    ParseInt s = some i ↔ ParseInt_result s = (i, none) := by
  unfold ParseInt ParseInt_result
  simp only []
  split_ifs <;> simp

/-- With an error, the first result of `strconv.ParseInt` is positive only for a value above
the range of `int64`, and then it is the largest `int64`. -/
theorem ParseInt_result_error (s : Str) (h : (ParseInt_result s).2 ≠ none)
    (hpos : (ParseInt_result s).1 > 0) : ParseInt_result s = (2 ^ 63 - 1, some .ErrRange) := by
  unfold ParseInt_result at h hpos ⊢
  simp only [] at h hpos ⊢
  split_ifs at h hpos ⊢ <;> simp_all

/-! ## Properties relating the two repair loops -/

/-- At a block whose height is not below the higher floor, an iteration does not depend on
the floor. -/
theorem walk_body_floor (f1 f2 : Int) (chain : Chain) (cur : Hash) (store : TopoStore)
    (h12 : f1 ≤ f2) (h : f2 ≤ chain.Load_Height_for_BL_ID cur) :
    walk_body f1 chain cur store = walk_body f2 chain cur store := by
  simp only [walk_body]
  rw [if_neg (by omega), if_neg (by omega)]

/-- Every iteration begins with the height of its block. -/
theorem walk_body_head (floor : Int) (chain : Chain) (cur : Hash) (store : TopoStore) :
    ∃ rest, (walk_body floor chain cur store).evs =
      .Height cur (chain.Load_Height_for_BL_ID cur) :: rest := by
  simp only [walk_body, walk_advance]
  by_cases hH : chain.Load_Height_for_BL_ID cur < floor
  · simp [hH, Step.evs]
  · rcases hS : store (chain.Load_Height_for_BL_ID cur) with _ | r
    · simp [hH, Step.evs]
    · by_cases hB : r.BLOCK_ID = cur <;>
      rcases hV : chain.ReadBlockSnapshotVersion cur with _ | v <;>
      rcases hL : chain.Load_BL_FROM_ID cur with _ | _ | ⟨t, ts⟩ <;>
      simp [hH, hB, Step.evs]

/-- The calls of the first iteration begin the trace of a loop. -/
theorem walk_loop_starts (floor : Int) (chain : Chain) (fuel : Nat) (cur : Hash)
    (store : TopoStore) :
    List.IsPrefix (walk_body floor chain cur store).evs
      (walk_loop floor chain (fuel + 1) cur store).trace := by
  simp only [walk_loop]
  cases walk_body floor chain cur store with
  | stop o s evs => exact List.prefix_refl _
  | next b s evs => exact List.prefix_append _ _

/-- The loop with the higher floor makes the first calls of the loop with the lower floor,
and when it does not end by its `break` the two loops are the same run. -/
theorem walk_loop_floors (f1 f2 : Int) (chain : Chain) (h12 : f1 ≤ f2) :
    ∀ (fuel : Nat) (cur : Hash) (store : TopoStore),
      List.IsPrefix (walk_loop f2 chain fuel cur store).trace
        (walk_loop f1 chain fuel cur store).trace ∧
      ((walk_loop f2 chain fuel cur store).outcome ≠ .done →
        walk_loop f1 chain fuel cur store = walk_loop f2 chain fuel cur store) := by
  intro fuel
  induction fuel with
  | zero => intro cur store; exact ⟨List.prefix_refl _, fun _ => rfl⟩
  | succ n ih =>
    intro cur store
    by_cases h2 : f2 ≤ chain.Load_Height_for_BL_ID cur
    · have e := walk_body_floor f1 f2 chain cur store h12 h2
      simp only [walk_loop, e]
      cases walk_body f2 chain cur store with
      | stop o s evs => exact ⟨List.prefix_refl _, fun _ => rfl⟩
      | next b s evs =>
        obtain ⟨hp, he⟩ := ih b s
        refine ⟨?_, fun hne => ?_⟩
        · simp only [WalkResult.after]
          exact (List.prefix_append_right_inj evs).mpr hp
        · simp only [WalkResult.after] at hne ⊢
          rw [he hne]
    · have hb : walk_body f2 chain cur store =
          .stop .done store [.Height cur (chain.Load_Height_for_BL_ID cur)] := by
        simp only [walk_body]
        rw [if_pos (by omega)]
      refine ⟨?_, fun hne => ?_⟩
      · obtain ⟨rest, hr⟩ := walk_body_head f1 chain cur store
        have hs := walk_loop_starts f1 chain n cur store
        rw [hr] at hs
        obtain ⟨t, ht⟩ := hs
        have e2 : (walk_loop f2 chain (n + 1) cur store).trace =
            [.Height cur (chain.Load_Height_for_BL_ID cur)] := by
          simp only [walk_loop, hb]
        rw [e2]
        exact ⟨rest ++ t, by rw [← ht]; simp⟩
      · simp [walk_loop, hb] at hne

/-! ## Frame of the repair loops -/

/-- What one iteration writes: nothing, or the entry of the walked block at its height after
it has read an entry there that names another block. -/
theorem walk_body_writes (floor : Int) (chain : Chain) (cur : Hash) (store : TopoStore) :
    (∀ i, (walk_body floor chain cur store).store i ≠ store i →
      i = chain.Load_Height_for_BL_ID cur ∧
      ∃ v, Event.Write i cur v i ∈ (walk_body floor chain cur store).evs) ∧
    (∀ i b v h, Event.Write i b v h ∈ (walk_body floor chain cur store).evs →
      h = i ∧ b = cur ∧ i = chain.Load_Height_for_BL_ID cur ∧ floor ≤ i ∧
      chain.ReadBlockSnapshotVersion b = some v ∧
      ∃ r pre post, store i = some r ∧ r.BLOCK_ID ≠ b ∧
        (walk_body floor chain cur store).evs =
          pre ++ [.Read i (some r), .Version b (some v), .Write i b v h] ++ post) ∧
    ((∃ r, store (chain.Load_Height_for_BL_ID cur) = some r ∧ r.BLOCK_ID = cur) →
      (walk_body floor chain cur store).store = store) := by
  simp only [walk_body, walk_advance]
  by_cases hH : chain.Load_Height_for_BL_ID cur < floor
  · simp [hH, Step.store, Step.evs]
  · have hle : floor ≤ chain.Load_Height_for_BL_ID cur := not_lt.mp hH
    rcases hS : store (chain.Load_Height_for_BL_ID cur) with _ | r
    · simp [hH, Step.store, Step.evs]
    · by_cases hB : r.BLOCK_ID = cur
      · rcases hL : chain.Load_BL_FROM_ID cur with _ | _ | ⟨t, ts⟩ <;>
          simp [hH, hB, Step.store, Step.evs]
      · rcases hV : chain.ReadBlockSnapshotVersion cur with _ | v
        · simp [hH, hB, Step.store, Step.evs]
        · have hw : ∀ i, (store.Write (chain.Load_Height_for_BL_ID cur) cur v
              (chain.Load_Height_for_BL_ID cur)) i ≠ store i →
              i = chain.Load_Height_for_BL_ID cur := by
            intro i hi
            by_contra hne
            exact hi (by simp [TopoStore.Write, hne])
          rcases hL : chain.Load_BL_FROM_ID cur with _ | _ | ⟨t, ts⟩
          all_goals
            simp only [hH, hB, if_false, Step.store, Step.evs, ne_eq, not_false_eq_true,
              if_true]
            refine ⟨fun i hi => ⟨hw i hi, v, by rw [hw i hi]; simp⟩, ?_, ?_⟩
            · intro i b v' h hmem
              simp at hmem
              obtain ⟨rfl, rfl, rfl, rfl⟩ := hmem
              refine ⟨rfl, rfl, rfl, hle, hV, r,
                [.Height b (chain.Load_Height_for_BL_ID b)], ?_⟩
              first
                | exact ⟨[.Load b none], hS, hB, rfl⟩
                | exact ⟨[.Load b (some [])], hS, hB, rfl⟩
                | exact ⟨[.Load b (some (t :: ts))], hS, hB, rfl⟩
            · rintro ⟨r', hr', hb'⟩
              cases hr'
              exact absurd hb' hB

/-- What a repair loop writes: an entry changes only through a `Write` at its index; every
`Write` stores the walked block, its snapshot version and the index as height, at the height
of the block, not below the floor, right after a `Read` there gave an entry that names
another block; and an entry at which every visit finds the walked block stays as it is. -/
theorem walk_loop_writes (floor : Int) (chain : Chain) :
    ∀ (fuel : Nat) (cur : Hash) (store : TopoStore),
    (∀ i, (walk_loop floor chain fuel cur store).store i ≠ store i →
      ∃ b v, Event.Write i b v i ∈ (walk_loop floor chain fuel cur store).trace) ∧
    (∀ i b v h, Event.Write i b v h ∈ (walk_loop floor chain fuel cur store).trace →
      h = i ∧ b ∈ walked (walk_loop floor chain fuel cur store).trace ∧
      i = chain.Load_Height_for_BL_ID b ∧ floor ≤ i ∧
      chain.ReadBlockSnapshotVersion b = some v ∧
      ∃ r pre post, r.BLOCK_ID ≠ b ∧
        (walk_loop floor chain fuel cur store).trace =
          pre ++ [.Read i (some r), .Version b (some v), .Write i b v h] ++ post) ∧
    (∀ i, (∀ b ∈ walked (walk_loop floor chain fuel cur store).trace,
        chain.Load_Height_for_BL_ID b = i → ∃ r, store i = some r ∧ r.BLOCK_ID = b) →
      (walk_loop floor chain fuel cur store).store i = store i) := by
  intro fuel
  induction fuel with
  | zero => intro cur store; simp [walk_loop]
  | succ n ih =>
    intro cur store
    obtain ⟨b1, b2, b3⟩ := walk_body_writes floor chain cur store
    have hw := walk_body_walked floor chain cur store
    have hf := walk_body_frame floor chain cur store
    simp only [walk_loop]
    cases hbody : walk_body floor chain cur store with
    | stop o s evs =>
      rw [hbody] at b1 b2 b3 hw hf
      simp only [Step.store, Step.evs] at b1 b2 b3 hw hf
      refine ⟨fun i hi => ?_, fun i b v h hmem => ?_, fun i hi => ?_⟩
      · obtain ⟨_, v, hv⟩ := b1 i hi
        exact ⟨cur, v, hv⟩
      · obtain ⟨h1, h2, h3, h4, h5, r, pre, post, _, h7, h8⟩ := b2 i b v h hmem
        exact ⟨h1, by rw [hw, h2]; simp, by rw [h3, h2], h4, h5, r, pre, post, h7, h8⟩
      · by_cases hc : chain.Load_Height_for_BL_ID cur = i
        · have := hi cur (by rw [hw]; simp) hc
          rw [b3 (by rw [hc]; exact this)]
        · exact hf i (fun h => hc h.symm)
    | next b s evs =>
      rw [hbody] at b1 b2 b3 hw hf
      simp only [Step.store, Step.evs] at b1 b2 b3 hw hf
      obtain ⟨i1, i2, i3⟩ := ih b s
      simp only [WalkResult.after, walked_append, hw]
      refine ⟨fun i hi => ?_, fun i b' v h hmem => ?_, fun i hi => ?_⟩
      · by_cases hs : s i = store i
        · obtain ⟨b', v, hv⟩ := i1 i (by rw [hs]; exact hi)
          exact ⟨b', v, List.mem_append_right _ hv⟩
        · obtain ⟨_, v, hv⟩ := b1 i hs
          exact ⟨cur, v, List.mem_append_left _ hv⟩
      · rcases List.mem_append.mp hmem with hm | hm
        · obtain ⟨h1, h2, h3, h4, h5, r, pre, post, _, h7, h8⟩ := b2 i b' v h hm
          refine ⟨h1, by rw [h2]; simp, by rw [h3, h2], h4, h5, r, pre,
            post ++ (walk_loop floor chain n b s).trace, h7, ?_⟩
          rw [h8]; simp
        · obtain ⟨h1, h2, h3, h4, h5, r, pre, post, h7, h8⟩ := i2 i b' v h hm
          refine ⟨h1, List.mem_append_right _ h2, h3, h4, h5, r, evs ++ pre, post, h7, ?_⟩
          rw [h8]; simp
      · have hs : s i = store i := by
          by_cases hc : chain.Load_Height_for_BL_ID cur = i
          · have := hi cur (by simp) hc
            rw [b3 (by rw [hc]; exact this)]
          · exact hf i (fun h => hc h.symm)
        rw [i3 i (fun b' hb' hh => by
          rw [hs]; exact hi b' (List.mem_append_right _ hb') hh), hs]

/-! ## Termination of the repair loop -/

theorem iterations_append (xs ys : List Event) :
    iterations (xs ++ ys) = iterations xs + iterations ys := by
  induction xs with
  | nil => simp [iterations]
  | cons e xs ih =>
    cases e <;> simp [iterations, ih]
    omega

/-- A loop that ended keeps its result when it is given more fuel. -/
theorem walk_loop_more_fuel (floor : Int) (chain : Chain) (k : Nat) :
    ∀ (n : Nat) (cur : Hash) (store : TopoStore),
      (walk_loop floor chain n cur store).outcome ≠ .outOfFuel →
      walk_loop floor chain (n + k) cur store = walk_loop floor chain n cur store := by
  intro n
  induction n with
  | zero => intro cur store h; simp [walk_loop] at h
  | succ n ih =>
    intro cur store h
    rw [show n + 1 + k = (n + k) + 1 by omega]
    simp only [walk_loop] at h ⊢
    cases hb : walk_body floor chain cur store with
    | stop o s evs => rfl
    | next b s evs =>
      rw [hb] at h
      simp only [WalkResult.after] at h ⊢
      rw [ih b s h]

/-- Under the premise of C27 a loop with floor 1 that starts at a block of height at most
`n` ends within `n + 1` passes, of which at most `n` go beyond the test of the floor, and it
never finds a loaded block without tips. -/
theorem walk_loop_terminates (chain : Chain) (hdec : firstTipLower chain) :
    ∀ (n fuel : Nat) (cur : Hash) (store : TopoStore),
      chain.Load_Height_for_BL_ID cur ≤ n → n < fuel →
      (walk_loop 1 chain fuel cur store).outcome ≠ .outOfFuel ∧
      (walk_loop 1 chain fuel cur store).outcome ≠ .panic .indexOutOfRange ∧
      iterations (walk_loop 1 chain fuel cur store).trace ≤ n ∧
      ∀ b, Event.Load b (some []) ∉ (walk_loop 1 chain fuel cur store).trace := by
  intro n
  induction n with
  | zero =>
    intro fuel cur store hn hf
    obtain ⟨m, rfl⟩ : ∃ m, fuel = m + 1 := ⟨fuel - 1, by omega⟩
    have hH : chain.Load_Height_for_BL_ID cur < 1 := by
      have : chain.Load_Height_for_BL_ID cur ≤ 0 := by exact_mod_cast hn
      omega
    simp [walk_loop, walk_body, hH, iterations]
  | succ n ih =>
    intro fuel cur store hn hf
    obtain ⟨m, rfl⟩ : ∃ m, fuel = m + 1 := ⟨fuel - 1, by omega⟩
    by_cases hH : chain.Load_Height_for_BL_ID cur < 1
    · simp [walk_loop, walk_body, hH, iterations]
    · obtain ⟨t, ts, hL, hlt⟩ := hdec cur (not_lt.mp hH)
      have ht : chain.Load_Height_for_BL_ID t ≤ n := by
        have : chain.Load_Height_for_BL_ID cur ≤ (n : Int) + 1 := by exact_mod_cast hn
        omega
      have hm : n < m := by omega
      rcases hS : store (chain.Load_Height_for_BL_ID cur) with _ | r
      · simp [walk_loop, walk_body, hH, hS, iterations]
      · by_cases hB : r.BLOCK_ID = cur
        · obtain ⟨h1, h2, h3, h4⟩ := ih m t store ht hm
          simp only [walk_loop, walk_body, walk_advance, hH, hS, hB, hL, if_false, ne_eq,
            not_true_eq_false, WalkResult.after, iterations_append]
          refine ⟨h1, h2, ?_, ?_⟩
          · simp [iterations]; omega
          · intro b hb
            simp at hb
            exact h4 b hb
        · rcases hV : chain.ReadBlockSnapshotVersion cur with _ | v
          · simp [walk_loop, walk_body, hH, hS, hB, hV, iterations]
          · obtain ⟨h1, h2, h3, h4⟩ := ih m t
              (store.Write (chain.Load_Height_for_BL_ID cur) cur v
                (chain.Load_Height_for_BL_ID cur)) ht hm
            simp only [walk_loop, walk_body, walk_advance, hH, hS, hB, hV, hL, if_false,
              ne_eq, not_false_eq_true, if_true, WalkResult.after, iterations_append]
            refine ⟨h1, h2, ?_, ?_⟩
            · simp [iterations]; omega
            · intro b hb
              simp at hb
              exact h4 b hb

theorem firstTipLower_chainA : firstTipLower chainA := by
  intro b hb
  have h0 : b ≠ 0 := by
    rintro rfl
    simp [chainA] at hb
  refine ⟨b - 1, [], by simp [chainA, h0], ?_⟩
  have h1 : b - 1 < b := Nat.sub_lt (Nat.pos_of_ne_zero h0) Nat.one_pos
  show ((b - 1 : Nat) : Int) < ((b : Nat) : Int)
  exact_mod_cast h1
/-! ## Properties of a tick that completes -/

/-- A tick in which no call fails assigns every telemetry variable: what it leaves does not
depend on the telemetry before it. -/
theorem sampler_tick_fresh (c : Sample) (s : Status) (t' : Telemetry)
    (h : (sampler_tick c s).failed = none) :
    (sampler_tick c { s with t := t' }).failed = none ∧
    (sampler_tick c { s with t := t' }).state.t = (sampler_tick c s).state.t := by
  obtain ⟨a1, a2, a3, a4, a5, a6, a7, a8, a9, a10, a11, f, a13⟩ := c
  rcases a1 with _ | x1
  · simp [sampler_tick] at h
  rcases a2 with _ | x2
  · simp [sampler_tick] at h
  rcases a3 with _ | x3
  · simp [sampler_tick] at h
  rcases a4 with _ | x4
  · simp [sampler_tick] at h
  rcases a5 with _ | x5
  · simp [sampler_tick] at h
  rcases a6 with _ | x6
  · simp [sampler_tick] at h
  rcases a7 with _ | x7
  · simp [sampler_tick] at h
  rcases a8 with _ | x8
  · simp [sampler_tick] at h
  rcases a9 with _ | x9
  · simp [sampler_tick] at h
  rcases a10 with _ | x10
  · simp [sampler_tick] at h
  rcases a11 with _ | x11
  · simp [sampler_tick] at h
  rcases hf : f (toUint64 (wrap64 (x11 - s.config.NetworkStatsKeepCount))) with _ | o
  · simp [sampler_tick, hf] at h
  · simp only [sampler_tick, hf, sampler_tail] at h ⊢
    split at h
    · rename_i hg
      rcases a13 with _ | x13
      · simp at h
      · simp [hg]
    · rename_i hg
      simp [hg]

/-- The state after line 403 is the state a tick leaves when the call of line 404 fails. -/
theorem after_line_403_eq (c : Sample) (s : Status) (h : c.Get_Height ≠ none) :
    after_line_403 c s = (sampler_tick { c with Best_Peer_Height := none } s).state := by
  unfold after_line_403 sampler_tick
  cases hg : c.Get_Height with
  | none => exact absurd hg h
  | some x => simp

/-! ## Properties of `print_bc` and `graph` -/

theorem wrap64_id (x : Int) (h1 : -2 ^ 63 ≤ x) (h2 : x < 2 ^ 63) : wrap64 x = x := by
  unfold wrap64
  rw [Int.emod_eq_of_lt (by omega) (by omega)]
  omega

theorem heightsFrom_succ (start : Int) (n : Nat) :
    heightsFrom start (n + 1) = start :: heightsFrom (start + 1) n := by
  unfold heightsFrom
  rw [List.range_succ_eq_map]
  simp only [List.map_cons, List.map_map, Nat.cast_zero, add_zero, List.cons.injEq, true_and]
  refine List.map_congr_left fun k _ => ?_
  simp only [Function.comp, Nat.cast_succ]
  omega

theorem mem_heightsFrom (start : Int) (n : Nat) (h : Int) :
    h ∈ heightsFrom start n ↔ start ≤ h ∧ h < start + n := by
  unfold heightsFrom
  simp only [List.mem_map, List.mem_range]
  constructor
  · rintro ⟨k, hk, rfl⟩
    omega
  · intro ⟨h1, h2⟩
    exact ⟨(h - start).toNat, by omega, by omega⟩

/-- The four ways through one pass of the loop of `print_bc`, and its end. -/
theorem print_bc_loop_pass (chain : Chain) (store : TopoStore) (x : Explorer) (stop : Int)
    (n : Nat) (i : Int) (hle : i ≤ stop) :
    (chain.Load_Block_Topological_order_at_index store i = none →
      print_bc_loop chain store x stop (n + 1) i =
        (print_bc_loop chain store x stop n (wrap64 (i + 1))).after [i] []
          ["Skipping block at height due to error \n"]) ∧
    (∀ b, chain.Load_Block_Topological_order_at_index store i = some b →
      (chain.ReadBlockSnapshotVersion b = none →
        print_bc_loop chain store x stop (n + 1) i = ⟨[i], [], [], .panic⟩) ∧
      (∀ v, chain.ReadBlockSnapshotVersion b = some v →
        (x.Load_Merkle_Hash v = none →
          print_bc_loop chain store x stop (n + 1) i = ⟨[i], [], [], .panic⟩) ∧
        (∀ w, x.Load_Merkle_Hash v = some w →
          print_bc_loop chain store x stop (n + 1) i =
            (print_bc_loop chain store x stop n (wrap64 (i + 1))).after [i] [i] []))) := by
  refine ⟨fun h => ?_, fun b hb => ⟨fun hv => ?_, fun v hv => ⟨fun hm => ?_, fun w hm => ?_⟩⟩⟩
  · simp [print_bc_loop, hle, h]
  · simp [print_bc_loop, hle, hb, hv]
  · simp [print_bc_loop, hle, hb, hv, hm]
  · simp [print_bc_loop, hle, hb, hv, hm]

theorem print_bc_loop_end (chain : Chain) (store : TopoStore) (x : Explorer) (stop : Int)
    (fuel : Nat) (i : Int) (h : ¬ i ≤ stop) :
    print_bc_loop chain store x stop fuel i = ⟨[], [], [], .next⟩ := by
  cases fuel <;> simp [print_bc_loop, h]

/-- The loop of `print_bc` on heights below the largest `int64`: it ends, by going through
every height up to `stop` or by a panic at the first height whose block has no readable
snapshot version or merkle hash. -/
theorem print_bc_loop_visits (chain : Chain) (store : TopoStore) (x : Explorer) (stop : Int)
    (hstop : stop < 2 ^ 63 - 1) :
    ∀ (fuel : Nat) (i : Int), -2 ^ 63 ≤ i → (stop + 1 - i).toNat ≤ fuel →
      (print_bc_loop chain store x stop fuel i).control ≠ .outOfFuel ∧
      (print_bc_loop chain store x stop fuel i).control ≠ .returnNil ∧
      ((print_bc_loop chain store x stop fuel i).control = .next →
        (print_bc_loop chain store x stop fuel i).visited =
          heightsFrom i (stop + 1 - i).toNat) ∧
      ((print_bc_loop chain store x stop fuel i).control = .panic →
        ∃ n, n < (stop + 1 - i).toNat ∧
          (print_bc_loop chain store x stop fuel i).visited = heightsFrom i (n + 1) ∧
          ∃ b, chain.Load_Block_Topological_order_at_index store (i + n) = some b ∧
            (chain.ReadBlockSnapshotVersion b = none ∨
              ∃ v, chain.ReadBlockSnapshotVersion b = some v ∧
                x.Load_Merkle_Hash v = none)) ∧
      ((∀ h b, chain.Load_Block_Topological_order_at_index store h = some b →
          ∃ v w, chain.ReadBlockSnapshotVersion b = some v ∧
            x.Load_Merkle_Hash v = some w) →
        (print_bc_loop chain store x stop fuel i).control = .next) := by
  intro fuel
  induction fuel with
  | zero =>
    intro i hi hf
    have hgt : ¬ i ≤ stop := by omega
    have h0 : (stop + 1 - i).toNat = 0 := by omega
    rw [print_bc_loop_end chain store x stop 0 i hgt, h0]
    simp [heightsFrom]
  | succ n ih =>
    intro i hi hf
    by_cases hle : i ≤ stop
    · have hw : wrap64 (i + 1) = i + 1 := wrap64_id _ (by omega) (by omega)
      obtain ⟨m, hm⟩ : ∃ m, (stop + 1 - i).toNat = m + 1 :=
        ⟨(stop + 1 - i).toNat - 1, by omega⟩
      have hm' : (stop + 1 - (i + 1)).toNat = m := by omega
      obtain ⟨i1, i2, i3, i4, i5⟩ := ih (i + 1) (by omega) (by omega)
      rw [hm'] at i3 i4
      obtain ⟨p1, p2⟩ := print_bc_loop_pass chain store x stop n i hle
      rw [hw] at p1 p2
      have panic_next : (print_bc_loop chain store x stop n (i + 1)).control = .panic →
          ∃ k, k < m + 1 ∧
            i :: (print_bc_loop chain store x stop n (i + 1)).visited =
              heightsFrom i (k + 1) ∧
            ∃ b, chain.Load_Block_Topological_order_at_index store (i + k) = some b ∧
              (chain.ReadBlockSnapshotVersion b = none ∨
                ∃ v, chain.ReadBlockSnapshotVersion b = some v ∧
                  x.Load_Merkle_Hash v = none) := by
        intro hp
        obtain ⟨k, hk, hv, b, hb, hfail⟩ := i4 hp
        refine ⟨k + 1, by omega, ?_, b, ?_, hfail⟩
        · rw [hv, heightsFrom_succ i (k + 1)]
        · rw [← hb]
          congr 1
          push_cast
          omega
      have first : ∀ b, chain.Load_Block_Topological_order_at_index store i = some b →
          chain.Load_Block_Topological_order_at_index store (i + ((0 : Nat) : Int)) =
            some b := by
        intro b hb
        simpa using hb
      rw [hm]
      rcases hl : chain.Load_Block_Topological_order_at_index store i with _ | b
      · rw [p1 hl]
        simp only [PrintResult.after, List.singleton_append]
        refine ⟨i1, i2, fun hc => ?_, panic_next, i5⟩
        rw [i3 hc, heightsFrom_succ]
      · rcases hv : chain.ReadBlockSnapshotVersion b with _ | v
        · rw [(p2 b hl).1 hv]
          refine ⟨by simp, by simp, by simp,
            fun _ => ⟨0, by omega, by rw [heightsFrom_succ]; rfl, b, first b hl, Or.inl hv⟩,
            fun hall => ?_⟩
          obtain ⟨v, w, h1, _⟩ := hall i b hl
          rw [hv] at h1
          cases h1
        · rcases hmk : x.Load_Merkle_Hash v with _ | w
          · rw [((p2 b hl).2 v hv).1 hmk]
            refine ⟨by simp, by simp, by simp,
              fun _ => ⟨0, by omega, by rw [heightsFrom_succ]; rfl, b, first b hl,
                Or.inr ⟨v, hv, hmk⟩⟩,
              fun hall => ?_⟩
            obtain ⟨v', w, h1, h2⟩ := hall i b hl
            rw [hv] at h1
            cases h1
            rw [hmk] at h2
            cases h2
          · rw [((p2 b hl).2 v hv).2 w hmk]
            simp only [PrintResult.after, List.singleton_append]
            refine ⟨i1, i2, fun hc => ?_, panic_next, i5⟩
            rw [i3 hc, heightsFrom_succ]
    · have h0 : (stop + 1 - i).toNat = 0 := by omega
      rw [print_bc_loop_end chain store x stop (n + 1) i hle, h0]
      simp [heightsFrom]

/-- Adding the blocks of one height to a map without duplicates: all of them, or the panic
when one is already there. -/
theorem add_blocks_eq (blids : List Hash) :
    ∀ node_map : List Hash, node_map.Nodup →
      add_blocks blids node_map =
        if (node_map ++ blids).Nodup then some (node_map ++ blids) else none := by
  induction blids with
  | nil => intro m hm; simp [add_blocks, hm]
  | cons b bs ih =>
    intro m hm
    by_cases hb : b ∈ m
    · have : ¬ (m ++ b :: bs).Nodup := by
        intro hn
        exact (List.nodup_append.mp hn).2.2 hb (List.mem_cons_self _ _)
      simp [add_blocks, hb, this]
    · have hm' : (m ++ [b]).Nodup := by
        rw [List.nodup_append]
        exact ⟨hm, List.nodup_singleton b, by simpa using hb⟩
      simp only [add_blocks, hb, if_false]
      rw [ih (m ++ [b]) hm']
      simp

theorem blocksAt_cons (x : Explorer) (h : Int) (hs : List Int) :
    blocksAt x (h :: hs) = x.Get_Blocks_At_Height h ++ blocksAt x hs := by
  simp [blocksAt]

/-- The collection loop: the blocks of the heights in order, or the panic when a block is
listed twice. -/
theorem collect_eq (x : Explorer) :
    ∀ (n : Nat) (i : Int) (node_map : List Hash), node_map.Nodup →
      collect x n i node_map =
        if (node_map ++ blocksAt x (heightsFrom i n)).Nodup then
          some (node_map ++ blocksAt x (heightsFrom i n))
        else none := by
  intro n
  induction n with
  | zero => intro i m hm; simp [collect, heightsFrom, blocksAt, hm]
  | succ n ih =>
    intro i m hm
    rw [heightsFrom_succ, blocksAt_cons]
    simp only [collect]
    rw [add_blocks_eq _ m hm]
    by_cases h1 : (m ++ x.Get_Blocks_At_Height i).Nodup
    · simp only [h1, if_true]
      rw [ih (i + 1) _ h1, List.append_assoc]
    · have : ¬ (m ++ (x.Get_Blocks_At_Height i ++
          blocksAt x (heightsFrom (i + 1) n))).Nodup := by
        intro hn
        rw [← List.append_assoc] at hn
        exact h1 (List.nodup_append.mp hn).1
      simp [h1, this]

theorem graphNodes_append (xs ys : List GraphLine) :
    graphNodes (xs ++ ys) = graphNodes xs ++ graphNodes ys := by
  induction xs with
  | nil => rfl
  | cons e xs ih => cases e <;> simp [graphNodes, ih]

/-- The node lines of one `writenode`: the block, or nothing when it panics. -/
theorem writenode_nodes (chain : Chain) (x : Explorer) (blid : Hash) (start_height : Int) :
    graphNodes (writenode chain x blid start_height).1 =
      if (writenode chain x blid start_height).2 then [] else [blid] := by
  unfold writenode
  simp only []
  rcases hl : chain.Load_BL_FROM_ID blid with _ | tips
  · simp [graphNodes]
  · by_cases hd : x.DecodeCompressed_fails blid = true
    · simp [hd, graphNodes]
    · have he : ∀ ts : List Hash,
          graphNodes (ts.map fun tip => GraphLine.edge tip blid) = [] := by
        intro ts
        induction ts with
        | nil => rfl
        | cons t ts ih => simpa [graphNodes] using ih
      by_cases hh : x.Block_Height blid > start_height
      · simp [hd, hh, graphNodes, graphNodes_append, he]
      · simp [hd, hh, graphNodes]

/-- A `writenode` panics exactly on a block that does not load or whose miner address
cannot be decoded. -/
theorem writenode_panics (chain : Chain) (x : Explorer) (blid : Hash) (start_height : Int) :
    (writenode chain x blid start_height).2 = true ↔
      chain.Load_BL_FROM_ID blid = none ∨ x.DecodeCompressed_fails blid = true := by
  unfold writenode
  simp only []
  rcases hl : chain.Load_BL_FROM_ID blid with _ | tips
  · simp
  · by_cases hd : x.DecodeCompressed_fails blid = true
    · simp [hd]
    · by_cases hh : x.Block_Height blid > start_height <;> simp [hd, hh]

/-- The node lines the loop writes over keys met in a given order: the first of these keys,
all of them when no `writenode` panics, and none panics when every key loads with a miner
address that decodes. -/
theorem write_nodes_nodes (chain : Chain) (x : Explorer) (start_height : Int) :
    ∀ node_map : List Hash,
      List.IsPrefix (graphNodes (write_nodes chain x start_height node_map).1) node_map ∧
      ((write_nodes chain x start_height node_map).2 = false →
        graphNodes (write_nodes chain x start_height node_map).1 = node_map) := by
  intro node_map
  induction node_map with
  | nil => simp [write_nodes, graphNodes]
  | cons b bs ih =>
    have hn := writenode_nodes chain x b start_height
    by_cases hp : (writenode chain x b start_height).2 = true
    · simp only [hp, if_true] at hn
      simp [write_nodes, hp, hn]
    · simp only [hp, if_false] at hn
      simp only [write_nodes, hp, if_false, graphNodes_append, hn, List.singleton_append,
        Bool.false_eq_true]
      exact ⟨(List.prefix_cons_inj b).mpr ih.1, fun h => by rw [ih.2 h]⟩

theorem graphNodes_file (lines : List GraphLine) :
    graphNodes (.digraph :: lines ++ [.close]) = graphNodes lines := by
  simp [graphNodes, graphNodes_append]

theorem write_nodes_returns (chain : Chain) (x : Explorer) (start_height : Int) :
    ∀ keys : List Hash,
      (∀ b ∈ keys, chain.Load_BL_FROM_ID b ≠ none ∧ x.DecodeCompressed_fails b = false) →
      (write_nodes chain x start_height keys).2 = false := by
  intro keys
  induction keys with
  | nil => intro _; rfl
  | cons b bs ih =>
    intro h
    have hb : (writenode chain x b start_height).2 = false := by
      cases hp : (writenode chain x b start_height).2 with
      | false => rfl
      | true =>
        rcases (writenode_panics chain x b start_height).mp hp with h1 | h1
        · exact absurd h1 (h b (List.mem_cons_self _ _)).1
        · rw [(h b (List.mem_cons_self _ _)).2] at h1
          cases h1
    simp only [write_nodes, hb, Bool.false_eq_true, if_false]
    exact ih (fun c hc => h c (List.mem_cons_of_mem _ hc))

theorem heightsFrom_nodup (start : Int) (n : Nat) : (heightsFrom start n).Nodup := by
  unfold heightsFrom
  apply List.Nodup.map _ (List.nodup_range n)
  intro a b h
  simp only at h
  omega

/-- When a height lists no block twice and a block only at its own height, no block is
listed twice among different heights. -/
theorem blocksAt_nodup (chain : Chain) (x : Explorer) (hlisted : listedAtOwnHeight chain x) :
    ∀ hs : List Int, hs.Nodup → (blocksAt x hs).Nodup := by
  intro hs
  induction hs with
  | nil => intro _; simp [blocksAt]
  | cons h hs ih =>
    intro hn
    rw [blocksAt_cons, List.nodup_append]
    refine ⟨(hlisted h).1, ih (List.nodup_cons.mp hn).2, ?_⟩
    intro b hb1 hb2
    simp only [blocksAt, List.mem_flatten, List.mem_map] at hb2
    obtain ⟨l, ⟨k, hk, rfl⟩, hbl⟩ := hb2
    have e1 := (hlisted h).2 b hb1
    have e2 := (hlisted k).2 b hbl
    rw [e1] at e2
    subst e2
    exact (List.nodup_cons.mp hn).1 hk

/-! ## Claims on the start-up options -/

/-- C21: the test of line 294 is `err != nil && i > 0`, so a value that parses is never
used: with `JOB_SEND_TIME_DELAY=500` the delay keeps its configured value.  The delay
changes only for a value above the range of `int64`, and then to
`(2^63 - 1) * 1000000` wrapped to `int64`, which is -1000000 nanoseconds.  With the variable
unset the delay keeps its value, as the claim says. -/
theorem job_send_time_delay_inverted :
    ParseInt "500".toList = some 500 ∧
    job_send_time_delay "500".toList config0 = config0 ∧
    (∀ (value : Str) (c : RunningConfig) (i : Int), ParseInt value = some i →
      job_send_time_delay value c = c) ∧
    (∀ c : RunningConfig, job_send_time_delay [] c = c) ∧
    (∀ (value : Str) (c : RunningConfig), job_send_time_delay value c ≠ c →
      ParseInt_result value = (2 ^ 63 - 1, some .ErrRange) ∧
      (job_send_time_delay value c).GETWorkJobDispatchTime = -1000000) ∧
    (job_send_time_delay "9223372036854775808".toList config0).GETWorkJobDispatchTime
      = -1000000 := by
  refine ⟨by decide, by decide, ?_, ?_, ?_, by decide⟩
  · intro value c i h
    have := (ParseInt_value value i).mp h
    simp [job_send_time_delay, this]
  · intro c
    rfl
  · intro value c h
    unfold job_send_time_delay at h ⊢
    by_cases hc : (ParseInt_result value).2 ≠ none ∧ (ParseInt_result value).1 > 0
    · have e := ParseInt_result_error value hc.1 hc.2
      refine ⟨e, ?_⟩
      rw [if_pos hc, e]
      show wrap64 ((2 ^ 63 - 1) * 1000000) = -1000000
      decide
    · rw [if_neg hc] at h
      exact absurd rfl h

/-- C22: a `--prune-history` value that does not parse, or parses to `i <= 1`, makes `main`
log one error that names the option and return without a call of `Prune_Blockchain` or
`Blockchain_Start`; a value that parses to `i > 1` makes the first such call
`Prune_Blockchain(i)`, and no other pruning height is ever requested. -/
theorem prune_history_checked (value : Str) (Prune_Blockchain_fails : Int → Bool)
    (Blockchain_Start_fails : Bool) :
    (ParseInt value = none →
      prune_history (some value) Prune_Blockchain_fails Blockchain_Start_fails =
        ([.Error none "error Parsing --prune-history "], true)) ∧
    (∀ i, ParseInt value = some i → i ≤ 1 →
      prune_history (some value) Prune_Blockchain_fails Blockchain_Start_fails =
        ([.Error (some "--prune-history should be positive and more than 1")
          "invalid argument"], true)) ∧
    ((ParseInt value = none ∨ ∃ i, ParseInt value = some i ∧ i ≤ 1) →
      (prune_history (some value) Prune_Blockchain_fails Blockchain_Start_fails).2 = true ∧
      chainCalls (prune_history (some value) Prune_Blockchain_fails
        Blockchain_Start_fails).1 = [] ∧
      (errorLines (prune_history (some value) Prune_Blockchain_fails
        Blockchain_Start_fails).1).length = 1) ∧
    (∀ i, ParseInt value = some i → 1 < i →
      (chainCalls (prune_history (some value) Prune_Blockchain_fails
        Blockchain_Start_fails).1).head? = some (.Prune_Blockchain i) ∧
      ∀ j, StartEvent.Prune_Blockchain j ∈
        (prune_history (some value) Prune_Blockchain_fails Blockchain_Start_fails).1 →
          j = i) := by
  refine ⟨?_, ?_, ?_, ?_⟩
  · intro h
    simp [prune_history, h]
  · intro i h hi
    simp [prune_history, h, hi]
  · rintro (h | ⟨i, h, hi⟩)
    · simp [prune_history, h, chainCalls, errorLines]
    · simp [prune_history, h, hi, chainCalls, errorLines]
  · intro i h hi
    have hn : ¬ i ≤ 1 := not_le.mpr hi
    cases hf : Prune_Blockchain_fails i <;> cases Blockchain_Start_fails <;>
      simp [prune_history, h, hn, hf, chainCalls, start_chain]

theorem prune_history_checked_witness :
    prune_history (some "1".toList) (fun _ => false) false =
      ([.Error (some "--prune-history should be positive and more than 1")
        "invalid argument"], true) ∧
    (chainCalls (prune_history (some "70".toList) (fun _ => false) false).1).head?
      = some (.Prune_Blockchain 70) ∧
    prune_history (some "7x".toList) (fun _ => false) false =
      ([.Error none "error Parsing --prune-history "], true) :=
  ⟨(prune_history_checked "1".toList (fun _ => false) false).2.1 1 (by decide) (by decide),
    ((prune_history_checked "70".toList (fun _ => false) false).2.2.2 70 (by decide)
      (by decide)).1,
    (prune_history_checked "7x".toList (fun _ => false) false).1 (by decide)⟩

/-! ## Claims on the repair walks -/

/-- C24: the loop of the start-up self-check and the loop of `fix` are one loop up to the
floor: each equals the common loop at its floor (17500 and 1), an iteration at a block of
height at least 17500 is the same in both, the calls of the start-up loop are the first calls
of the `fix` loop started at the same block on the same store, and when the start-up loop
does not end at its floor (it panics, or the bound of the model is reached) the `fix` loop
ends in the same way after the same calls with the same store. -/
theorem startup_and_fix_same_walk (chain : Chain) (fuel : Nat) (cur : Hash)
    (store : TopoStore) :
    fix_loop chain fuel cur store = walk_loop 1 chain fuel cur store ∧
    startup_loop chain fuel cur store = walk_loop 17500 chain fuel cur store ∧
    (17500 ≤ chain.Load_Height_for_BL_ID cur →
      fix_body chain cur store = startup_body chain cur store) ∧
    List.IsPrefix (startup_loop chain fuel cur store).trace
      (fix_loop chain fuel cur store).trace ∧
    ((startup_loop chain fuel cur store).outcome ≠ .done →
      fix_loop chain fuel cur store = startup_loop chain fuel cur store) := by
  refine ⟨fix_loop_eq chain fuel cur store, startup_loop_eq chain fuel cur store, ?_, ?_, ?_⟩
  · intro h
    rw [fix_body_eq, startup_body_eq]
    exact walk_body_floor 1 17500 chain cur store (by decide) h
  · rw [fix_loop_eq, startup_loop_eq]
    exact (walk_loop_floors 1 17500 chain (by decide) fuel cur store).1
  · rw [fix_loop_eq, startup_loop_eq]
    exact (walk_loop_floors 1 17500 chain (by decide) fuel cur store).2

/-- C26: in a run of the `fix` walk (floor 1) or of the start-up self-check (floor 17500), a
topo entry changes only through a `Write` at its index; every `Write` stores the walked
block, its snapshot version and the index itself as height, at the height of that block, not
below the floor, right after the `Read` at that index gave an entry naming another block.
So an entry at which every visit finds the walked block, an entry at a height not visited
and an entry below the floor are the same before and after. -/
theorem repair_walk_frame (chain : Chain) (fuel : Nat) (store : TopoStore) (r : WalkResult)
    (floor : Int)
    (hr : (r = fix chain fuel store ∧ floor = 1) ∨
      (r = startup_check chain fuel store ∧ floor = 17500)) :
    (∀ i, r.store i ≠ store i → ∃ b v, Event.Write i b v i ∈ r.trace) ∧
    (∀ i b v h, Event.Write i b v h ∈ r.trace →
      h = i ∧ b ∈ walked r.trace ∧ i = chain.Load_Height_for_BL_ID b ∧ floor ≤ i ∧
      chain.ReadBlockSnapshotVersion b = some v ∧
      ∃ rec pre post, rec.BLOCK_ID ≠ b ∧
        r.trace = pre ++ [.Read i (some rec), .Version b (some v), .Write i b v h] ++ post) ∧
    (∀ i, (∀ b ∈ walked r.trace, chain.Load_Height_for_BL_ID b = i →
        ∃ rec, store i = some rec ∧ rec.BLOCK_ID = b) → r.store i = store i) ∧
    (∀ i, i ∉ (walked r.trace).map chain.Load_Height_for_BL_ID → r.store i = store i) ∧
    (∀ i, i < floor → r.store i = store i) := by
  have key : ∀ (cur : Hash) (pre0 : List Event), walked pre0 = [] →
      (∀ i b v h, Event.Write i b v h ∉ pre0) →
      r = (walk_loop floor chain fuel cur store).after pre0 →
      (∀ i, r.store i ≠ store i → ∃ b v, Event.Write i b v i ∈ r.trace) ∧
      (∀ i b v h, Event.Write i b v h ∈ r.trace →
        h = i ∧ b ∈ walked r.trace ∧ i = chain.Load_Height_for_BL_ID b ∧ floor ≤ i ∧
        chain.ReadBlockSnapshotVersion b = some v ∧
        ∃ rec pre post, rec.BLOCK_ID ≠ b ∧
          r.trace = pre ++ [.Read i (some rec), .Version b (some v), .Write i b v h]
            ++ post) ∧
      (∀ i, (∀ b ∈ walked r.trace, chain.Load_Height_for_BL_ID b = i →
          ∃ rec, store i = some rec ∧ rec.BLOCK_ID = b) → r.store i = store i) := by
    intro cur pre0 hw hnw hre
    obtain ⟨p1, p2, p3⟩ := walk_loop_writes floor chain fuel cur store
    subst hre
    simp only [WalkResult.after, walked_append, hw, List.nil_append]
    refine ⟨fun i hi => ?_, fun i b v h hmem => ?_, p3⟩
    · obtain ⟨b, v, hv⟩ := p1 i hi
      exact ⟨b, v, List.mem_append_right _ hv⟩
    · rcases List.mem_append.mp hmem with hm | hm
      · exact absurd hm (hnw i b v h)
      · obtain ⟨h1, h2, h3, h4, h5, rec, pre, post, h7, h8⟩ := p2 i b v h hm
        refine ⟨h1, h2, h3, h4, h5, rec, pre0 ++ pre, post, h7, ?_⟩
        rw [h8]; simp
  have fin : (∀ i, r.store i ≠ store i → ∃ b v, Event.Write i b v i ∈ r.trace) ∧
      (∀ i b v h, Event.Write i b v h ∈ r.trace →
        h = i ∧ b ∈ walked r.trace ∧ i = chain.Load_Height_for_BL_ID b ∧ floor ≤ i ∧
        chain.ReadBlockSnapshotVersion b = some v ∧
        ∃ rec pre post, rec.BLOCK_ID ≠ b ∧
          r.trace = pre ++ [.Read i (some rec), .Version b (some v), .Write i b v h]
            ++ post) ∧
      (∀ i, (∀ b ∈ walked r.trace, chain.Load_Height_for_BL_ID b = i →
          ∃ rec, store i = some rec ∧ rec.BLOCK_ID = b) → r.store i = store i) := by
    rcases hr with ⟨rfl, rfl⟩ | ⟨rfl, rfl⟩
    · cases htips : chain.Get_TIPS with
      | nil =>
        have e : fix chain fuel store = ⟨.panic .indexOutOfRange, store, []⟩ := by
          simp [fix, htips]
        rw [e]
        simp [walked]
      | cons tip0 tips =>
        have e : fix chain fuel store = (walk_loop 1 chain fuel tip0 store).after [] := by
          simp [fix, htips, fix_loop_eq, WalkResult.after]
        exact key tip0 [] rfl (by simp) e
    · cases hl : chain.Load_Block_Topological_order_at_index store 17600 with
      | none =>
        have e : startup_check chain fuel store = ⟨.done, store, [.TopoIndex 17600 none]⟩ := by
          simp [startup_check, hl]
        rw [e]
        simp [walked]
      | some cur =>
        have e : startup_check chain fuel store =
            (walk_loop 17500 chain fuel cur store).after [.TopoIndex 17600 (some cur)] := by
          simp [startup_check, hl, startup_loop_eq]
        exact key cur [.TopoIndex 17600 (some cur)] rfl (by simp) e
  obtain ⟨f1, f2, f3⟩ := fin
  refine ⟨f1, f2, f3, fun i hi => ?_, fun i hi => ?_⟩
  · apply f3
    intro b hb hh
    exact absurd (List.mem_map.mpr ⟨b, hb, hh⟩) hi
  · by_contra hne
    obtain ⟨b, v, hv⟩ := f1 i hne
    obtain ⟨_, _, _, h4, _⟩ := f2 i b v i hv
    omega

theorem repair_walk_frame_witness :
    writes (fix chainA 10 storeA).trace = [.Write 2 2 102 2] ∧
    (storeA 2).map (·.BLOCK_ID) = some 7 ∧
    (∀ i, i ∉ (walked (fix chainA 10 storeA).trace).map chainA.Load_Height_for_BL_ID →
      (fix chainA 10 storeA).store i = storeA i) ∧
    (∀ i, i < 1 → (fix chainA 10 storeA).store i = storeA i) :=
  ⟨by decide, by decide,
    (repair_walk_frame chainA 10 storeA (fix chainA 10 storeA) 1 (Or.inl ⟨rfl, rfl⟩)).2.2.2.1,
    (repair_walk_frame chainA 10 storeA (fix chainA 10 storeA) 1 (Or.inl ⟨rfl, rfl⟩)).2.2.2.2⟩

/-- C27: when the tip list is not empty and every block of height at least 1 loads with a
first tip of strictly smaller height, the `fix` walk started at a first tip of height `H`
ends (by its `break` or by a panic on a failed read) within `H + 1` passes through the loop,
of which at most `H` go beyond the test of the floor; with any larger bound the run is the
same; and neither `tips[0]` nor `fix_bl.Tips[0]` is evaluated on an empty list. -/
theorem fix_terminates (chain : Chain) (store : TopoStore) (tip0 : Hash) (tips : List Hash)
    (fuel : Nat) (htips : chain.Get_TIPS = tip0 :: tips) (hdec : firstTipLower chain)
    (hfuel : (chain.Load_Height_for_BL_ID tip0).toNat < fuel) :
    (fix chain fuel store).outcome ≠ .outOfFuel ∧
    (fix chain fuel store).outcome ≠ .panic .indexOutOfRange ∧
    iterations (fix chain fuel store).trace ≤ (chain.Load_Height_for_BL_ID tip0).toNat ∧
    (∀ b, Event.Load b (some []) ∉ (fix chain fuel store).trace) ∧
    (∀ k, fix chain (fuel + k) store = fix chain fuel store) := by
  have e : ∀ n, fix chain n store = walk_loop 1 chain n tip0 store := by
    intro n
    simp [fix, htips, fix_loop_eq]
  have hle : chain.Load_Height_for_BL_ID tip0 ≤
      ((chain.Load_Height_for_BL_ID tip0).toNat : Int) := Int.self_le_toNat _
  obtain ⟨h1, h2, h3, h4⟩ := walk_loop_terminates chain hdec
    (chain.Load_Height_for_BL_ID tip0).toNat fuel tip0 store hle hfuel
  rw [e fuel]
  refine ⟨h1, h2, h3, h4, fun k => ?_⟩
  rw [e (fuel + k)]
  exact walk_loop_more_fuel 1 chain k fuel tip0 store h1

theorem fix_terminates_witness :
    chainA.Get_TIPS = 3 :: [] ∧ chainA.Load_Height_for_BL_ID 3 = 3 ∧
    (fix chainA 4 storeA).outcome = .done ∧
    iterations (fix chainA 4 storeA).trace = 3 ∧
    (fix chainA 4 storeA).outcome ≠ .outOfFuel ∧
    ∀ k, fix chainA (4 + k) storeA = fix chainA 4 storeA :=
  ⟨rfl, rfl, by decide, by decide,
    (fix_terminates chainA storeA 3 [] 4 rfl firstTipLower_chainA (by decide)).1,
    (fix_terminates chainA storeA 3 [] 4 rfl firstTipLower_chainA (by decide)).2.2.2.2⟩

/-! ## Claims on the snapshot a reader observes -/

/-- C23, the claim fails: after a tick that wrote height 5 and best height 5, a reader that
runs between line 403 and line 404 of the next tick reads height 6 with best height 5, although
that tick writes best height 6; and when the call of line 404 fails in that tick, height 6
with best height 5 is what every reader finds after the tick. -/
theorem mixed_snapshot_counterexample :
    (sampler_tick sample1 status0).failed = none ∧
    (sampler_tick sample1 status0).state.t.our_height = 5 ∧
    (sampler_tick sample1 status0).state.t.best_height = 5 ∧
    (after_line_403 sample2 (sampler_tick sample1 status0).state).t.our_height = 6 ∧
    (after_line_403 sample2 (sampler_tick sample1 status0).state).t.best_height = 5 ∧
    (sampler_tick sample2 (sampler_tick sample1 status0).state).failed = none ∧
    (sampler_tick sample2 (sampler_tick sample1 status0).state).state.t.best_height = 6 ∧
    (sampler_tick sample0 (sampler_tick sample1 status0).state).failed
      = some .Best_Peer_Height ∧
    (sampler_loop true [sample1, sample0] status0).map
      (fun s => (s.t.our_height, s.t.best_height)) = some (6, 5) := by
  decide

/-- C23, amended: after a tick in which no collaborator call failed, every telemetry
variable holds what that tick assigned: the telemetry does not depend on the values before
the tick, and a redraw that follows shows the heights, counts and rates of that state. -/
theorem completed_tick_snapshot (c : Sample) (s : Status)
    (h : (sampler_tick c s).failed = none) :
    (∀ t' : Telemetry,
      (sampler_tick c { s with t := t' }).failed = none ∧
      (sampler_tick c { s with t := t' }).state.t = (sampler_tick c s).state.t) ∧
    (∀ now now2 : Int, changed now (sampler_tick c s).state = true →
      ∃ p, (render_iteration now now2 (sampler_tick c s).state).1.prompt = some p ∧
        p.our_height = (sampler_tick c s).state.t.our_height ∧
        p.best_height = (sampler_tick c s).state.t.best_height ∧
        p.topo_height = (sampler_tick c s).state.t.topo_height ∧
        p.best_topo_height = (sampler_tick c s).state.t.best_topo_height ∧
        p.peer_count = (sampler_tick c s).state.t.peer_count ∧
        p.peer_whitelist = (sampler_tick c s).state.t.peer_whitelist ∧
        p.mempool_tx_count = (sampler_tick c s).state.t.mempool_tx_count ∧
        p.regpool_tx_count = (sampler_tick c s).state.t.regpool_tx_count ∧
        p.hash_rate_string = (sampler_tick c s).state.t.hash_rate_string ∧
        p.miniblock_count = (sampler_tick c s).state.t.miniblock_count ∧
        p.miner_count = (sampler_tick c s).state.t.miner_count ∧
        p.network_loss = (sampler_tick c s).state.t.network_loss) := by
  refine ⟨fun t' => sampler_tick_fresh c s t' h, fun now now2 hc => ?_⟩
  refine ⟨prompt_of (sampler_tick c s).state
    (turtle_after (sampler_tick c s).state.t (sampler_tick c s).state.g.NetworkTurtle), ?_, ?_⟩
  · simp [render_iteration, hc]
  · simp [prompt_of]

theorem completed_tick_snapshot_witness :
    (sampler_tick sample1 status0).failed = none ∧
    (sampler_tick sample1 { status0 with t := (sampler_tick sample2 status0).state.t }).state.t
      = (sampler_tick sample1 status0).state.t :=
  ⟨by decide,
    ((completed_tick_snapshot sample1 status0 (by decide)).1
      (sampler_tick sample2 status0).state.t).2⟩

/-! ## Claims on `print_bc` and `graph` -/

/-- C25, the claim fails: with topo height 3, `print_bc 1 3` on a chain in which the
snapshot version of the block at topo height 2 cannot be read visits the heights 1 and 2
and panics, so height 3 is not visited; and with the largest `int64` as topo height, start
and stop, the loop goes on from that height to the smallest `int64`. -/
theorem print_bc_stops_early_counterexample :
    explorerA.Load_TOPO_HEIGHT = 3 ∧
    print_bc chainE storeA explorerA 10 ["print_bc".toList, "1".toList, "3".toList] =
      ⟨[1, 2], [1], [], .panic⟩ ∧
    (print_bc chainA storeA explorerC 2 ["print_bc".toList,
      "9223372036854775807".toList, "9223372036854775807".toList]).visited =
        [2 ^ 63 - 1, -2 ^ 63] := by
  decide

/-- C25, amended: with a wrong number of arguments, a value that does not parse, or a range
with `start < 0`, `start > topo height`, `start > stop` or `stop > topo height`, `print_bc`
logs one error and visits no height.  With two values that parse and
`0 <= start <= stop <= topo height`, the topo height below the largest `int64`, it ends; it
visits `start, start + 1, ..., stop` in ascending order when it ends normally, which it does
when every block it finds has a readable snapshot version and merkle hash; and when it
panics it has visited `start, ..., k` for the first height `k` whose block has no readable
version or merkle hash. -/
theorem print_bc_range (chain : Chain) (store : TopoStore) (x : Explorer) (fuel : Nat)
    (line_parts : List Str) :
    ((line_parts.length ≠ 3 ∨ ParseInt (arg line_parts 1) = none ∨
        ParseInt (arg line_parts 2) = none ∨
        ∃ start stop, ParseInt (arg line_parts 1) = some start ∧
          ParseInt (arg line_parts 2) = some stop ∧
          (start < 0 ∨ start > x.Load_TOPO_HEIGHT ∨ start > stop ∨
            stop > x.Load_TOPO_HEIGHT)) →
      (print_bc chain store x fuel line_parts).visited = [] ∧
      (print_bc chain store x fuel line_parts).errors.length = 1 ∧
      (print_bc chain store x fuel line_parts).control = .next) ∧
    (∀ start stop, line_parts.length = 3 → ParseInt (arg line_parts 1) = some start →
      ParseInt (arg line_parts 2) = some stop → 0 ≤ start → start ≤ stop →
      stop ≤ x.Load_TOPO_HEIGHT → x.Load_TOPO_HEIGHT < 2 ^ 63 - 1 →
      (stop - start).toNat < fuel →
      (print_bc chain store x fuel line_parts).control ≠ .outOfFuel ∧
      ((print_bc chain store x fuel line_parts).control = .next →
        (print_bc chain store x fuel line_parts).visited =
          heightsFrom start ((stop - start).toNat + 1)) ∧
      ((∀ h b, chain.Load_Block_Topological_order_at_index store h = some b →
          ∃ v w, chain.ReadBlockSnapshotVersion b = some v ∧
            x.Load_Merkle_Hash v = some w) →
        (print_bc chain store x fuel line_parts).control = .next) ∧
      ((print_bc chain store x fuel line_parts).control = .panic →
        ∃ n, n ≤ (stop - start).toNat ∧
          (print_bc chain store x fuel line_parts).visited = heightsFrom start (n + 1) ∧
          ∃ b, chain.Load_Block_Topological_order_at_index store (start + n) = some b ∧
            (chain.ReadBlockSnapshotVersion b = none ∨
              ∃ v, chain.ReadBlockSnapshotVersion b = some v ∧
                x.Load_Merkle_Hash v = none))) := by
  constructor
  · rintro (h | h | h | ⟨start, stop, h1, h2, h⟩)
    · simp [print_bc, h]
    · by_cases hl : line_parts.length = 3 <;> simp [print_bc, hl, h]
    · by_cases hl : line_parts.length = 3
      · rcases h1 : ParseInt (arg line_parts 1) with _ | s <;> simp [print_bc, hl, h, h1]
      · simp [print_bc, hl]
    · by_cases hl : line_parts.length = 3
      · by_cases ha : start < 0 ∨ start > x.Load_TOPO_HEIGHT
        · simp [print_bc, hl, h1, h2, ha]
        · have hb : start > stop ∨ stop > x.Load_TOPO_HEIGHT := by
            rcases h with h | h | h | h
            · exact absurd (Or.inl h) ha
            · exact absurd (Or.inr h) ha
            · exact Or.inl h
            · exact Or.inr h
          simp [print_bc, hl, h1, h2, ha, hb]
      · simp [print_bc, hl]
  · intro start stop hl h1 h2 h0 hss hst htopo hfuel
    have ha : ¬ (start < 0 ∨ start > x.Load_TOPO_HEIGHT) := by omega
    have hb : ¬ (start > stop ∨ stop > x.Load_TOPO_HEIGHT) := by omega
    have e : print_bc chain store x fuel line_parts =
        print_bc_loop chain store x stop fuel start := by
      simp [print_bc, hl, h1, h2, ha, hb]
    have hn : (stop + 1 - start).toNat = (stop - start).toNat + 1 := by omega
    obtain ⟨p1, _, p3, p4, p5⟩ := print_bc_loop_visits chain store x stop (by omega) fuel
      start (by omega) (by omega)
    rw [e]
    rw [hn] at p3 p4
    refine ⟨p1, p3, p5, fun hp => ?_⟩
    obtain ⟨n, hlt, hv, hfail⟩ := p4 hp
    exact ⟨n, by omega, hv, hfail⟩

theorem print_bc_range_witness :
    print_bc chainA storeA explorerA 10 ["print_bc".toList, "1".toList, "3".toList] =
      ⟨[1, 2, 3], [1, 2, 3], [], .next⟩ ∧
    (print_bc chainA storeA explorerA 10 ["print_bc".toList, "1".toList, "3".toList]).control
      ≠ .outOfFuel ∧
    (print_bc chainA storeA explorerA 10 ["print_bc".toList, "2".toList, "1".toList]).visited
      = [] :=
  ⟨by decide,
    ((print_bc_range chainA storeA explorerA 10
      ["print_bc".toList, "1".toList, "3".toList]).2 1 3 (by decide) (by decide) (by decide)
      (by decide) (by decide) (by decide) (by decide) (by decide)).1,
    ((print_bc_range chainA storeA explorerA 10
      ["print_bc".toList, "2".toList, "1".toList]).1
      (Or.inr (Or.inr (Or.inr ⟨2, 1, by decide, by decide,
        Or.inr (Or.inr (Or.inl (by decide)))⟩)))).1⟩

theorem listedAtOwnHeight_A : listedAtOwnHeight chainA explorerA := by
  intro h
  simp only [explorerA, chainA]
  by_cases hh : 0 ≤ h ∧ h ≤ 3
  · simp only [hh, and_self, if_true, List.nodup_singleton, List.mem_singleton, forall_eq,
      true_and]
    exact Int.toNat_of_nonneg hh.1
  · simp [hh]

/-- C30: `graph <start> <stop>` covers a half-open range.  On a chain store that lists no
block twice at a height and a block only at its own height, and in whatever order `range`
meets the keys of `node_map`: `WriteBlockChainTree` goes through the heights `h` with
`start_height <= h < stop_height`, does not panic on a duplicate, and `node_map` holds
exactly the blocks listed at those heights, none of them a block of `stop_height`.  The node
lines of the file are blocks of `node_map`, each at most once; they are all the blocks of
`node_map` when the function returns, which it does when the file can be created and every
collected block loads with a miner address that decodes.  So every block in the graph is
listed at a height of the range and none at `stop_height`.  `graph n n` passes the checks of
the command, collects no block and writes no node: the file, when it can be created, holds
the opening and the closing line only. -/
theorem graph_half_open (chain : Chain) (x : Explorer) (create_fails : Bool)
    (range_keys : List Hash → List Hash) (start stop : Int)
    (hlisted : listedAtOwnHeight chain x)
    (hrange : ∀ keys, (range_keys keys).Perm keys) :
    (∀ h, h ∈ heightsFrom start (stop - start).toNat ↔ start ≤ h ∧ h < stop) ∧
    (WriteBlockChainTree chain x create_fails range_keys start stop).outcome ≠ .duplicate ∧
    (WriteBlockChainTree chain x create_fails range_keys start stop).node_map =
      blocksAt x (heightsFrom start (stop - start).toNat) ∧
    (∀ b, b ∈ (WriteBlockChainTree chain x create_fails range_keys start stop).node_map ↔
      ∃ h, start ≤ h ∧ h < stop ∧ b ∈ x.Get_Blocks_At_Height h) ∧
    (∀ b ∈ (WriteBlockChainTree chain x create_fails range_keys start stop).node_map,
      b ∉ x.Get_Blocks_At_Height stop) ∧
    (graphNodes (WriteBlockChainTree chain x create_fails range_keys start stop).file).Nodup ∧
    (∀ b ∈ graphNodes (WriteBlockChainTree chain x create_fails range_keys start stop).file,
      b ∈ (WriteBlockChainTree chain x create_fails range_keys start stop).node_map ∧
      (∃ h, start ≤ h ∧ h < stop ∧ b ∈ x.Get_Blocks_At_Height h) ∧
      b ∉ x.Get_Blocks_At_Height stop) ∧
    ((WriteBlockChainTree chain x create_fails range_keys start stop).outcome = .returned →
      (graphNodes (WriteBlockChainTree chain x create_fails range_keys start stop).file).Perm
        (WriteBlockChainTree chain x create_fails range_keys start stop).node_map) ∧
    (create_fails = false →
      (∀ b ∈ (WriteBlockChainTree chain x create_fails range_keys start stop).node_map,
        chain.Load_BL_FROM_ID b ≠ none ∧ x.DecodeCompressed_fails b = false) →
      (WriteBlockChainTree chain x create_fails range_keys start stop).outcome = .returned) ∧
    (∀ (n : Int) (s : Str), ParseInt s = some n → 0 ≤ n → n ≤ x.Load_TOPO_HEIGHT →
      ∃ t, graph chain x create_fails range_keys ["graph".toList, s, s] = ⟨none, some t⟩ ∧
        t.node_map = [] ∧ graphNodes t.file = [] ∧
        (create_fails = false → t = ⟨.returned, [], [.digraph, .close]⟩)) := by
  have hmem : ∀ h, h ∈ heightsFrom start (stop - start).toNat ↔ start ≤ h ∧ h < stop := by
    intro h
    rw [mem_heightsFrom]
    omega
  have hnd : (blocksAt x (heightsFrom start (stop - start).toNat)).Nodup :=
    blocksAt_nodup chain x hlisted _ (heightsFrom_nodup start _)
  have hc := collect_eq x (stop - start).toNat start [] List.nodup_nil
  simp only [List.nil_append, hnd, if_true] at hc
  have hfrom : ∀ b, b ∈ blocksAt x (heightsFrom start (stop - start).toNat) ↔
      ∃ h, start ≤ h ∧ h < stop ∧ b ∈ x.Get_Blocks_At_Height h := by
    intro b
    simp only [blocksAt, List.mem_flatten, List.mem_map]
    constructor
    · rintro ⟨l, ⟨h, hh, rfl⟩, hbl⟩
      exact ⟨h, ((hmem h).mp hh).1, ((hmem h).mp hh).2, hbl⟩
    · rintro ⟨h, h1, h2, hbl⟩
      exact ⟨_, ⟨h, (hmem h).mpr ⟨h1, h2⟩, rfl⟩, hbl⟩
  have hstop : ∀ b, b ∈ blocksAt x (heightsFrom start (stop - start).toNat) →
      b ∉ x.Get_Blocks_At_Height stop := by
    intro b hb hs
    obtain ⟨h, _, h2, hbl⟩ := (hfrom b).mp hb
    have e1 := (hlisted h).2 b hbl
    have e2 := (hlisted stop).2 b hs
    omega
  have hmap : (WriteBlockChainTree chain x create_fails range_keys start stop).node_map =
      blocksAt x (heightsFrom start (stop - start).toNat) := by
    unfold WriteBlockChainTree
    rw [hc]
    simp only []
    split_ifs <;> rfl
  have hpre := (write_nodes_nodes chain x start
    (range_keys (blocksAt x (heightsFrom start (stop - start).toNat)))).1
  have hall := (write_nodes_nodes chain x start
    (range_keys (blocksAt x (heightsFrom start (stop - start).toNat)))).2
  have hperm := hrange (blocksAt x (heightsFrom start (stop - start).toNat))
  have hsub : List.Sublist
      (graphNodes (WriteBlockChainTree chain x create_fails range_keys start stop).file)
      (range_keys (blocksAt x (heightsFrom start (stop - start).toNat))) := by
    unfold WriteBlockChainTree
    rw [hc]
    simp only []
    split_ifs
    · simp [graphNodes]
    · simp only [graphNodes]
      exact hpre.sublist
    · rw [graphNodes_file]
      exact hpre.sublist
  have hin : ∀ b ∈ graphNodes
      (WriteBlockChainTree chain x create_fails range_keys start stop).file,
      b ∈ blocksAt x (heightsFrom start (stop - start).toNat) :=
    fun b hb => hperm.subset (hsub.subset hb)
  refine ⟨hmem, ?_, hmap, ?_, ?_, ?_, ?_, ?_, ?_, ?_⟩
  · unfold WriteBlockChainTree
    rw [hc]
    simp only []
    split_ifs <;> simp
  · intro b
    rw [hmap]
    exact hfrom b
  · intro b hb
    rw [hmap] at hb
    exact hstop b hb
  · exact List.Nodup.sublist hsub (hperm.nodup_iff.mpr hnd)
  · intro b hb
    rw [hmap]
    exact ⟨hin b hb, (hfrom b).mp (hin b hb), hstop b (hin b hb)⟩
  · rw [hmap]
    unfold WriteBlockChainTree
    rw [hc]
    simp only []
    split_ifs with h1 h2
    · simp
    · simp
    · intro _
      rw [graphNodes_file, hall (by simpa using h2)]
      exact hperm
  · intro hcf hok
    rw [hmap] at hok
    have hret := write_nodes_returns chain x start
      (range_keys (blocksAt x (heightsFrom start (stop - start).toNat)))
      (fun b hb => hok b (hperm.subset hb))
    unfold WriteBlockChainTree
    rw [hc]
    simp [hcf, hret]
  · intro n s hs h0 htopo
    have e : graph chain x create_fails range_keys ["graph".toList, s, s] =
        ⟨none, some (WriteBlockChainTree chain x create_fails range_keys n n)⟩ := by
      have h1 : ¬ (n < 0 ∨ x.Load_TOPO_HEIGHT < n) := by omega
      have h2 : ¬ x.Load_TOPO_HEIGHT < n := by omega
      simp [graph, arg, hs, h1, h2, h0, htopo]
    have hnil : range_keys [] = [] := (hrange []).eq_nil
    have e2 : WriteBlockChainTree chain x create_fails range_keys n n =
        if create_fails then ⟨.createFailed, [], []⟩
        else ⟨.returned, [], [.digraph, .close]⟩ := by
      simp [WriteBlockChainTree, collect, write_nodes, hnil]
    refine ⟨_, e, ?_, ?_, ?_⟩
    · rw [e2]; split_ifs <;> rfl
    · rw [e2]; split_ifs <;> rfl
    · intro hcf
      rw [e2, hcf]
      rfl

/-- C30 on `chainA`: `graph 1 3` draws the blocks 1 and 2 and not block 3, in the order in
which the keys are met (here the order of insertion, then the reverse); `graph 2 2` draws
no block. -/
theorem graph_half_open_witness :
    graph chainA explorerA false id ["graph".toList, "1".toList, "3".toList] =
      ⟨none, some ⟨.returned, [1, 2],
        [.digraph, .nodeOpen, .node 1 "green" 1 1, .nodeClose, .nodeOpen,
          .node 2 "green" 2 2, .nodeClose, .edge 1 2, .close]⟩⟩ ∧
    graph chainA explorerA false List.reverse ["graph".toList, "1".toList, "3".toList] =
      ⟨none, some ⟨.returned, [1, 2],
        [.digraph, .nodeOpen, .node 2 "green" 2 2, .nodeClose, .edge 1 2, .nodeOpen,
          .node 1 "green" 1 1, .nodeClose, .close]⟩⟩ ∧
    (∀ b ∈ (WriteBlockChainTree chainA explorerA false List.reverse 1 3).node_map,
      b ∉ explorerA.Get_Blocks_At_Height 3) ∧
    ∃ t, graph chainA explorerA false List.reverse ["graph".toList, "2".toList, "2".toList] =
        ⟨none, some t⟩ ∧
      t.node_map = [] ∧ graphNodes t.file = [] ∧
      (false = false → t = ⟨.returned, [], [.digraph, .close]⟩) :=
  ⟨by decide, by decide,
    (graph_half_open chainA explorerA false List.reverse 1 3 listedAtOwnHeight_A
      (fun keys => List.reverse_perm keys)).2.2.2.2.1,
    (graph_half_open chainA explorerA false List.reverse 0 0 listedAtOwnHeight_A
      (fun keys => List.reverse_perm keys)).2.2.2.2.2.2.2.2.2 2 "2".toList (by decide)
      (by decide) (by decide)⟩

/-! ## Claims on `hashratetostring` and the peer bounds -/

/-- C29: `hashratetostring` gives the empty string for 0, `%d H/s` of the rate itself up to
1000, and above that the rate divided by 10^3, 10^6, 10^9 or 10^12 with the unit KH/s, MH/s,
GH/s or TH/s, each threshold strict; for a rate that is not 0 the format and the divisor are
determined, and the quotient of a scaled unit is greater than 1. -/
theorem hashrate_units (n : Nat) :
    (n = 0 → hashratetostring n = .empty) ∧
    (1 ≤ n → n ≤ 1000 → hashratetostring n = .text "%d H/s" n 1) ∧
    (1000 < n → n ≤ 10 ^ 6 → hashratetostring n = .text "%.3f KH/s" n (10 ^ 3)) ∧
    (10 ^ 6 < n → n ≤ 10 ^ 9 → hashratetostring n = .text "%.3f MH/s" n (10 ^ 6)) ∧
    (10 ^ 9 < n → n ≤ 10 ^ 12 → hashratetostring n = .text "%.3f GH/s" n (10 ^ 9)) ∧
    (10 ^ 12 < n → hashratetostring n = .text "%.3f TH/s" n (10 ^ 12)) ∧
    (n ≠ 0 → ∃ format divisor, hashratetostring n = .text format n divisor ∧
      (format ≠ "%d H/s" → (1 : ℚ) < (n : ℚ) / (divisor : ℚ))) := by
  unfold hashratetostring
  refine ⟨?_, ?_, ?_, ?_, ?_, ?_, ?_⟩
  · rintro rfl; rfl
  · intro h1 h2
    rw [if_neg (by omega), if_neg (by omega), if_neg (by omega), if_neg (by omega),
      if_pos (by omega)]
  · intro h1 h2
    rw [if_neg (by omega), if_neg (by omega), if_neg (by omega), if_pos (by omega)]
    rfl
  · intro h1 h2
    rw [if_neg (by omega), if_neg (by omega), if_pos (by omega)]
    rfl
  · intro h1 h2
    rw [if_neg (by omega), if_pos (by omega)]
    rfl
  · intro h1
    rw [if_pos (by omega)]
    rfl
  · intro h0
    have scaled : ∀ d : Nat, 0 < d → d < n → (1 : ℚ) < (n : ℚ) / (d : ℚ) := by
      intro d hd hn
      rw [lt_div_iff₀ (by exact_mod_cast hd), one_mul]
      exact_mod_cast hn
    split_ifs with h1 h2 h3 h4 h5
    · exact ⟨_, _, rfl, fun _ => scaled _ (by norm_num) h1⟩
    · exact ⟨_, _, rfl, fun _ => scaled _ (by norm_num) h2⟩
    · exact ⟨_, _, rfl, fun _ => scaled _ (by norm_num) h3⟩
    · exact ⟨_, _, rfl, fun _ => scaled _ (by norm_num) h4⟩
    · exact ⟨_, _, rfl, fun h => absurd rfl h⟩
    · omega

/-- C28: after `config min_peers <n>` or `config max_peers <n>` with an integer `n`,
`p2p.Min_Peers <= p2p.Max_Peers` holds whatever the values were, the bound that was set is
`n`, and the two values of the running configuration equal the two bounds if they did
before (the minimum of the configuration equals the bound after `min_peers` in any case,
the maximum after `max_peers`). -/
theorem peer_bounds_after_config (env : Env) (st : Console) (key value : Str) (n : Int)
    (hkey : key = "min_peers".toList ∨ key = "max_peers".toList)
    (hn : ParseInt value = some n) :
    (config env ["config".toList, key, value] st).1.Min_Peers ≤
      (config env ["config".toList, key, value] st).1.Max_Peers ∧
    (key = "min_peers".toList →
      (config env ["config".toList, key, value] st).1.Min_Peers = n ∧
      (config env ["config".toList, key, value] st).1.RunningConfig.Min_Peers = n) ∧
    (key = "max_peers".toList →
      (config env ["config".toList, key, value] st).1.Max_Peers = n ∧
      (config env ["config".toList, key, value] st).1.RunningConfig.Max_Peers = n) ∧
    (st.RunningConfig.Min_Peers = st.Min_Peers → st.RunningConfig.Max_Peers = st.Max_Peers →
      (config env ["config".toList, key, value] st).1.RunningConfig.Min_Peers =
        (config env ["config".toList, key, value] st).1.Min_Peers ∧
      (config env ["config".toList, key, value] st).1.RunningConfig.Max_Peers =
        (config env ["config".toList, key, value] st).1.Max_Peers) := by
  rcases hkey with rfl | rfl
  · have e : (config env ["config".toList, "min_peers".toList, value] st).1 =
        set_min_peers n st := by
      simp +decide [config, config_blocks, config_int, config_flip, arg, hn]
    rw [e]
    unfold set_min_peers
    split_ifs with h <;> simp +decide
    omega
  · have e : (config env ["config".toList, "max_peers".toList, value] st).1 =
        set_max_peers n st := by
      simp +decide [config, config_blocks, config_int, config_flip, arg, hn]
    rw [e]
    unfold set_max_peers
    split_ifs with h <;> simp +decide
    omega

theorem peer_bounds_after_config_witness :
    console0.Min_Peers = 0 ∧ console0.Max_Peers = 0 ∧
    (config env0 ["config".toList, "min_peers".toList, "5".toList] console0).1.Min_Peers ≤
      (config env0 ["config".toList, "min_peers".toList, "5".toList] console0).1.Max_Peers ∧
    (config env0 ["config".toList, "min_peers".toList, "5".toList] console0).1.Min_Peers
      = 5 ∧
    (config env0 ["config".toList, "min_peers".toList, "5".toList] console0).1.Max_Peers
      = 5 :=
  ⟨rfl, rfl,
    (peer_bounds_after_config env0 console0 "min_peers".toList "5".toList 5 (Or.inl rfl)
      (by decide)).1,
    ((peer_bounds_after_config env0 console0 "min_peers".toList "5".toList 5 (Or.inl rfl)
      (by decide)).2.1 rfl).1,
    by decide⟩

/-! ## The loop against the first-tip walk of the specification -/

/-- An iteration that ends in the `break` stands at a block below the floor. -/
theorem walk_body_done (floor : Int) (chain : Chain) (cur : Hash) (store s : TopoStore)
    (evs : List Event) (h : walk_body floor chain cur store = .stop .done s evs) :
    chain.Load_Height_for_BL_ID cur < floor := by
  by_contra hH
  simp only [walk_body, walk_advance] at h
  rcases hS : store (chain.Load_Height_for_BL_ID cur) with _ | r
  · simp [hH, hS] at h
  · by_cases hB : r.BLOCK_ID = cur <;>
    rcases hV : chain.ReadBlockSnapshotVersion cur with _ | v <;>
    rcases hL : chain.Load_BL_FROM_ID cur with _ | (_ | ⟨t, ts⟩) <;>
    simp [hH, hS, hB, hV, hL] at h

theorem firstTipWalk_head (floor : Int) (chain : Chain) (n : Nat) (b : Hash) :
    ∃ rest, firstTipWalk floor chain (n + 1) b = b :: rest := by
  simp only [firstTipWalk]
  by_cases hH : chain.Load_Height_for_BL_ID b < floor
  · exact ⟨[], by simp [hH]⟩
  · rcases hL : chain.Load_BL_FROM_ID b with _ | (_ | ⟨t, ts⟩)
    · exact ⟨[], by simp [hH]⟩
    · exact ⟨[], by simp [hH]⟩
    · exact ⟨firstTipWalk floor chain n t, by simp [hH]⟩

/-- The blocks a loop visits are the first blocks of the first-tip walk from its start, and
all of them when the loop ends in its `break` or at the bound of the model. -/
theorem walk_loop_first_tips (floor : Int) (chain : Chain) :
    ∀ (fuel : Nat) (cur : Hash) (store : TopoStore),
    List.IsPrefix (walked (walk_loop floor chain fuel cur store).trace)
      (firstTipWalk floor chain fuel cur) ∧
    ((walk_loop floor chain fuel cur store).outcome = .done →
      walked (walk_loop floor chain fuel cur store).trace = firstTipWalk floor chain fuel cur) := by
  intro fuel
  induction fuel with
  | zero => intro cur store; simp [walk_loop, walked, firstTipWalk]
  | succ n ih =>
    intro cur store
    have hw := walk_body_walked floor chain cur store
    obtain ⟨rest, hrest⟩ := firstTipWalk_head floor chain n cur
    simp only [walk_loop]
    cases hbody : walk_body floor chain cur store with
    | stop o s evs =>
      rw [hbody] at hw
      simp only [Step.evs] at hw
      simp only [hw]
      refine ⟨by rw [hrest]; exact ⟨rest, rfl⟩, ?_⟩
      intro ho
      subst ho
      have hlow := walk_body_done floor chain cur store s evs hbody
      simp [firstTipWalk, hlow]
    | next t s evs =>
      rw [hbody] at hw
      simp only [Step.evs] at hw
      obtain ⟨hfl, _, ⟨tips, hL⟩, _⟩ := walk_body_next floor chain cur store t s evs hbody
      obtain ⟨i1, i2⟩ := ih t s
      have e : firstTipWalk floor chain (n + 1) cur = cur :: firstTipWalk floor chain n t := by
        simp [firstTipWalk, not_lt.mpr hfl, hL]
      simp only [WalkResult.after, walked_append, hw, e, List.singleton_append]
      refine ⟨(List.prefix_cons_inj cur).mpr i1, ?_⟩
      intro ho
      rw [i2 ho]

/-- Going on for more steps only adds blocks at the end of the first-tip walk. -/
theorem firstTipWalk_le (floor : Int) (chain : Chain) :
    ∀ (n m : Nat) (b : Hash), n ≤ m →
      List.IsPrefix (firstTipWalk floor chain n b) (firstTipWalk floor chain m b) := by
  intro n
  induction n with
  | zero => intro m b _; simp [firstTipWalk]
  | succ n ih =>
    intro m b hnm
    obtain ⟨k, rfl⟩ : ∃ k, m = k + 1 := ⟨m - 1, by omega⟩
    simp only [firstTipWalk]
    by_cases hH : chain.Load_Height_for_BL_ID b < floor
    · simp [hH]
    · rcases hL : chain.Load_BL_FROM_ID b with _ | (_ | ⟨t, ts⟩)
      · simp [hH]
      · simp [hH]
      · simp only [hH, if_false]
        exact (List.prefix_cons_inj b).mpr (ih k t (by omega))

/-- On validated block data the heights fall along the first-tip walk. -/
theorem firstTipWalk_sorted (floor : Int) (chain : Chain) (hvalid : firstTipsDescend chain) :
    ∀ (n : Nat) (b : Hash),
      ((firstTipWalk floor chain n b).map chain.Load_Height_for_BL_ID).Sorted (· > ·) ∧
      ∀ c ∈ firstTipWalk floor chain n b,
        chain.Load_Height_for_BL_ID c ≤ chain.Load_Height_for_BL_ID b := by
  intro n
  induction n with
  | zero => intro b; simp [firstTipWalk]
  | succ n ih =>
    intro b
    simp only [firstTipWalk]
    by_cases hH : chain.Load_Height_for_BL_ID b < floor
    · simp [hH]
    · rcases hL : chain.Load_BL_FROM_ID b with _ | (_ | ⟨t, ts⟩)
      · simp [hH]
      · simp [hH]
      · obtain ⟨i1, i2⟩ := ih t
        have hlt := hvalid b t ts hL
        simp only [hH, if_false, List.map_cons, List.sorted_cons, List.mem_map,
          forall_exists_index, and_imp, forall_apply_eq_imp_iff₂, List.mem_cons,
          forall_eq_or_imp, le_refl, true_and]
        refine ⟨⟨fun c hc => ?_, i1⟩, fun c hc => ?_⟩
        · have := i2 c hc
          omega
        · have := i2 c hc
          omega

/-- On validated block data the heights fall along the blocks a loop visits. -/
theorem walk_loop_sorted (floor : Int) (chain : Chain) (hvalid : firstTipsDescend chain)
    (fuel : Nat) (cur : Hash) (store : TopoStore) :
    ((walked (walk_loop floor chain fuel cur store).trace).map
      chain.Load_Height_for_BL_ID).Sorted (· > ·) :=
  List.Pairwise.sublist
    ((walk_loop_first_tips floor chain fuel cur store).1.map _).sublist
    (firstTipWalk_sorted floor chain hvalid fuel cur).1

/-- A loop that ended in its `break` has walked the whole first-tip walk: more steps add no
block to it. -/
theorem firstTipWalk_complete (floor : Int) (chain : Chain) (fuel : Nat) (cur : Hash)
    (store : TopoStore) (hdone : (walk_loop floor chain fuel cur store).outcome = .done)
    (n : Nat) (hn : fuel ≤ n) :
    firstTipWalk floor chain n cur = firstTipWalk floor chain fuel cur := by
  obtain ⟨k, rfl⟩ : ∃ k, n = fuel + k := ⟨n - fuel, by omega⟩
  have hmore := walk_loop_more_fuel floor chain k fuel cur store (by rw [hdone]; simp)
  have h1 := (walk_loop_first_tips floor chain (fuel + k) cur store).2
  rw [hmore] at h1
  rw [← h1 hdone, (walk_loop_first_tips floor chain fuel cur store).2 hdone]

/-! ### Where a loop reads and where it stops -/

/-- What the calls of one iteration are about: every `Read` is at the height of the block
of the iteration, and a call that returns an error is a call for this block. -/
theorem walk_body_subject (floor : Int) (chain : Chain) (cur : Hash) (store : TopoStore) :
    (floor ≤ chain.Load_Height_for_BL_ID cur →
      ∃ r, Event.Read (chain.Load_Height_for_BL_ID cur) r ∈
        (walk_body floor chain cur store).evs) ∧
    (∀ ev ∈ (walk_body floor chain cur store).evs, ev.err ≠ none →
      ev = .Read (chain.Load_Height_for_BL_ID cur) none ∨ ev = .Version cur none ∨
        ev = .Load cur none) := by
  simp only [walk_body, walk_advance]
  by_cases hH : chain.Load_Height_for_BL_ID cur < floor
  · simp [hH, Step.evs, Event.err]
  · rcases hS : store (chain.Load_Height_for_BL_ID cur) with _ | r
    · simp [hH, Step.evs, Event.err]
    · by_cases hB : r.BLOCK_ID = cur <;>
      rcases hV : chain.ReadBlockSnapshotVersion cur with _ | v <;>
      rcases hL : chain.Load_BL_FROM_ID cur with _ | (_ | ⟨t, ts⟩) <;>
      simp [hH, hB, Step.evs, Event.err]

/-- Every walked block that is not below the floor has the entry at its height read, and a
call that returns an error is a call for the last walked block. -/
theorem walk_loop_subject (floor : Int) (chain : Chain) :
    ∀ (fuel : Nat) (cur : Hash) (store : TopoStore),
    (∀ c ∈ walked (walk_loop floor chain fuel cur store).trace,
      floor ≤ chain.Load_Height_for_BL_ID c →
      ∃ r, Event.Read (chain.Load_Height_for_BL_ID c) r ∈
        (walk_loop floor chain fuel cur store).trace) ∧
    (∀ ev ∈ (walk_loop floor chain fuel cur store).trace, ev.err ≠ none →
      ∃ b, (walked (walk_loop floor chain fuel cur store).trace).getLast? = some b ∧
        (ev = .Read (chain.Load_Height_for_BL_ID b) none ∨ ev = .Version b none ∨
          ev = .Load b none)) := by
  intro fuel
  induction fuel with
  | zero => intro cur store; simp [walk_loop, walked]
  | succ n ih =>
    intro cur store
    have hw := walk_body_walked floor chain cur store
    obtain ⟨s1, s2⟩ := walk_body_subject floor chain cur store
    simp only [walk_loop]
    cases hbody : walk_body floor chain cur store with
    | stop o s evs =>
      rw [hbody] at hw s1 s2
      simp only [Step.evs] at hw s1 s2
      simp only [hw, List.mem_singleton, forall_eq]
      exact ⟨s1, fun ev hev he => ⟨cur, rfl, s2 ev hev he⟩⟩
    | next t s evs =>
      rw [hbody] at hw s1 s2
      simp only [Step.evs] at hw s1 s2
      obtain ⟨_, _, _, hnf⟩ := walk_body_next floor chain cur store t s evs hbody
      obtain ⟨i1, i2⟩ := ih t s
      simp only [WalkResult.after, walked_append, hw, List.singleton_append, List.mem_cons,
        forall_eq_or_imp, List.mem_append]
      refine ⟨⟨fun h => ?_, fun c hc h => ?_⟩, fun ev hev he => ?_⟩
      · obtain ⟨r, hr⟩ := s1 h
        exact ⟨r, Or.inl hr⟩
      · obtain ⟨r, hr⟩ := i1 c hc h
        exact ⟨r, Or.inr hr⟩
      · rcases hev with hev | hev
        · exfalso
          cases hE : ev.err with
          | none => exact he hE
          | some e =>
            have := final_of_err floor ev e hE
            rw [hnf ev hev] at this
            cases this
        · obtain ⟨b, hb, hsub⟩ := i2 ev hev he
          refine ⟨b, ?_, hsub⟩
          rw [← List.singleton_append, List.getLast?_append, hb]
          rfl

/-- How a loop ends: a walked block below the floor is the last one and ends the loop in
its `break`; the `break` is taken only there, after blocks that are not below the floor; a
panic follows a final call (a returned error, or a loaded block without tips); and the
bound of the model is reached only after as many blocks as the bound allows. -/
theorem walk_loop_stops (floor : Int) (chain : Chain) :
    ∀ (fuel : Nat) (cur : Hash) (store : TopoStore),
    (∀ pre c post, walked (walk_loop floor chain fuel cur store).trace = pre ++ c :: post →
      chain.Load_Height_for_BL_ID c < floor →
      post = [] ∧ (walk_loop floor chain fuel cur store).outcome = .done) ∧
    ((walk_loop floor chain fuel cur store).outcome = .done →
      ∃ pre b, walked (walk_loop floor chain fuel cur store).trace = pre ++ [b] ∧
        chain.Load_Height_for_BL_ID b < floor ∧
        ∀ c ∈ pre, floor ≤ chain.Load_Height_for_BL_ID c) ∧
    (∀ e, (walk_loop floor chain fuel cur store).outcome = .panic e →
      ∃ ev, (walk_loop floor chain fuel cur store).trace.getLast? = some ev ∧
        ev.final floor = some (.panic e)) ∧
    ((walk_loop floor chain fuel cur store).outcome = .outOfFuel →
      (walked (walk_loop floor chain fuel cur store).trace).length = fuel) := by
  intro fuel
  induction fuel with
  | zero => intro cur store; simp [walk_loop, walked]
  | succ n ih =>
    intro cur store
    have hw := walk_body_walked floor chain cur store
    simp only [walk_loop]
    cases hbody : walk_body floor chain cur store with
    | stop o s evs =>
      rw [hbody] at hw
      simp only [Step.evs] at hw
      obtain ⟨_, ev, hl, hf⟩ := walk_body_stop floor chain cur store o s evs hbody
      simp only [hw]
      refine ⟨fun pre c post hsplit hlow => ?_, fun ho => ?_, fun e ho => ?_, fun ho => ?_⟩
      · have hc : pre = [] ∧ c = cur ∧ post = [] := by
          cases pre with
          | nil =>
            simp only [List.nil_append, List.cons.injEq] at hsplit
            exact ⟨rfl, hsplit.1.symm, hsplit.2.symm⟩
          | cons p ps => simp at hsplit
        obtain ⟨_, rfl, rfl⟩ := hc
        refine ⟨rfl, ?_⟩
        simp only [walk_body, hlow, if_true] at hbody
        cases hbody
        rfl
      · subst ho
        exact ⟨[], cur, rfl, walk_body_done floor chain cur store s evs hbody, by simp⟩
      · subst ho
        exact ⟨ev, hl, hf⟩
      · subst ho
        exfalso
        cases ev with
        | Height b h =>
          simp only [Event.final] at hf
          split_ifs at hf
          cases hf
        | Read i r => cases r <;> simp [Event.final] at hf
        | Version b v => cases v <;> simp [Event.final] at hf
        | Load b t =>
          rcases t with _ | (_ | ⟨t, ts⟩) <;> simp [Event.final] at hf
        | Write i b v h => simp [Event.final] at hf
        | TopoIndex i b => simp [Event.final] at hf
    | next t s evs =>
      rw [hbody] at hw
      simp only [Step.evs] at hw
      obtain ⟨hfl, _, _, _⟩ := walk_body_next floor chain cur store t s evs hbody
      obtain ⟨i1, i2, i3, i4⟩ := ih t s
      simp only [WalkResult.after, walked_append, hw, List.singleton_append]
      refine ⟨fun pre c post hsplit hlow => ?_, fun ho => ?_, fun e ho => ?_, fun ho => ?_⟩
      · cases pre with
        | nil =>
          simp only [List.nil_append, List.cons.injEq] at hsplit
          rw [← hsplit.1] at hlow
          omega
        | cons p ps =>
          simp only [List.cons_append, List.cons.injEq] at hsplit
          exact i1 ps c post hsplit.2 hlow
      · obtain ⟨pre, b, h1, h2, h3⟩ := i2 ho
        refine ⟨cur :: pre, b, by rw [h1]; rfl, h2, ?_⟩
        intro c hc
        rcases List.mem_cons.mp hc with rfl | hc
        · exact hfl
        · exact h3 c hc
      · obtain ⟨ev, h1, h2⟩ := i3 e ho
        refine ⟨ev, ?_, h2⟩
        rw [List.getLast?_append, h1]
        rfl
      · simp [i4 ho]

/-- Two blocks a loop visits one after the other: the first is not below the floor and
lists the second as its first tip. -/
theorem walk_loop_links (floor : Int) (chain : Chain) :
    ∀ (fuel : Nat) (cur : Hash) (store : TopoStore) (p : List Hash) (c d : Hash)
      (q : List Hash),
    walked (walk_loop floor chain fuel cur store).trace = p ++ c :: d :: q →
    floor ≤ chain.Load_Height_for_BL_ID c ∧
      ∃ ts, chain.Load_BL_FROM_ID c = some (d :: ts) := by
  intro fuel
  induction fuel with
  | zero => intro cur store p c d q h; simp [walk_loop, walked] at h
  | succ n ih =>
    intro cur store p c d q h
    have hw := walk_body_walked floor chain cur store
    simp only [walk_loop] at h
    cases hbody : walk_body floor chain cur store with
    | stop o s evs =>
      rw [hbody] at hw h
      simp only [Step.evs] at hw h
      rw [hw] at h
      cases p with
      | nil => simp at h
      | cons x xs => simp at h
    | next t s evs =>
      rw [hbody] at hw h
      simp only [Step.evs, WalkResult.after, walked_append] at hw h
      rw [hw] at h
      obtain ⟨hfl, _, ⟨tips, hL⟩, _⟩ := walk_body_next floor chain cur store t s evs hbody
      cases p with
      | nil =>
        simp only [List.singleton_append, List.nil_append, List.cons.injEq] at h
        obtain ⟨rfl, h2⟩ := h
        cases n with
        | zero => simp [walk_loop, walked] at h2
        | succ m =>
          have hh := walk_loop_head floor chain m t s
          rw [h2] at hh
          simp only [List.head?_cons, Option.some.injEq] at hh
          subst hh
          exact ⟨hfl, tips, hL⟩
      | cons x xs =>
        simp only [List.singleton_append, List.cons_append, List.cons.injEq] at h
        exact ih t s xs c d q h.2

/-- The height of a block below the floor is the last call of a loop, which ends in its
`break`. -/
theorem walk_loop_break_last (floor : Int) (chain : Chain) (fuel : Nat) (cur : Hash)
    (store : TopoStore) (pre post : List Event) (b : Hash)
    (htrace : (walk_loop floor chain fuel cur store).trace =
      pre ++ .Height b (chain.Load_Height_for_BL_ID b) :: post)
    (hlow : chain.Load_Height_for_BL_ID b < floor) :
    post = [] ∧ (walk_loop floor chain fuel cur store).outcome = .done := by
  obtain ⟨h1, h2⟩ := walk_loop_final floor chain fuel cur store
  have hfin : (Event.Height b (chain.Load_Height_for_BL_ID b)).final floor = some .done := by
    simp [Event.final, hlow]
  have hpost : post = [] :=
    last_of_dropLast (fun x => x.final floor ≠ none) _ pre post _
      (fun y hy => by simp [h1 y hy]) htrace
      (by show Event.final floor _ ≠ none; rw [hfin]; simp)
  subst hpost
  exact ⟨rfl, h2 _ _ (by rw [htrace]; simp) hfin⟩

theorem firstTipsDescend_chainA : firstTipsDescend chainA := by
  intro b t ts h
  by_cases h0 : b = 0
  · simp [chainA, h0] at h
  · simp only [chainA, h0, if_false, Option.some.injEq, List.cons.injEq] at h
    obtain ⟨rfl, _⟩ := h
    have h1 : b - 1 < b := Nat.sub_lt (Nat.pos_of_ne_zero h0) Nat.one_pos
    show ((b - 1 : Nat) : Int) < (b : Int)
    exact_mod_cast h1

theorem firstTipsDescend_chainG : firstTipsDescend chainG := by
  intro b t ts h
  simp only [chainG] at h ⊢
  split_ifs at h <;> simp at h <;> obtain ⟨rfl, _⟩ := h <;> subst_vars <;> decide

/-- The two walks as a loop behind the calls made before it: none for `fix`, the lookup at
a topo index for the start-up self-check. -/
theorem walk_after_floor (floor : Int) (chain : Chain) (fuel : Nat) (start : Hash)
    (store : TopoStore) (pre0 : List Event)
    (hpre : pre0 = [] ∨ ∃ i x, pre0 = [.TopoIndex i x]) :
    (0 < fuel →
      (walked ((walk_loop floor chain fuel start store).after pre0).trace).head? = some start) ∧
    List.IsPrefix (walked ((walk_loop floor chain fuel start store).after pre0).trace)
      (firstTipWalk floor chain fuel start) ∧
    (∀ p c d q, walked ((walk_loop floor chain fuel start store).after pre0).trace =
        p ++ c :: d :: q →
      floor ≤ chain.Load_Height_for_BL_ID c ∧
        ∃ ts, chain.Load_BL_FROM_ID c = some (d :: ts)) ∧
    (∀ c ∈ walked ((walk_loop floor chain fuel start store).after pre0).trace,
      floor ≤ chain.Load_Height_for_BL_ID c →
      ∃ rec, Event.Read (chain.Load_Height_for_BL_ID c) rec ∈
        ((walk_loop floor chain fuel start store).after pre0).trace) ∧
    (∀ pre post b, ((walk_loop floor chain fuel start store).after pre0).trace =
        pre ++ .Height b (chain.Load_Height_for_BL_ID b) :: post →
      chain.Load_Height_for_BL_ID b < floor →
      post = [] ∧ ((walk_loop floor chain fuel start store).after pre0).outcome = .done) ∧
    (((walk_loop floor chain fuel start store).after pre0).outcome = .done →
      walked ((walk_loop floor chain fuel start store).after pre0).trace =
        firstTipWalk floor chain fuel start ∧
      ∃ pre b, walked ((walk_loop floor chain fuel start store).after pre0).trace =
          pre ++ [b] ∧
        chain.Load_Height_for_BL_ID b < floor ∧
        ∀ c ∈ pre, floor ≤ chain.Load_Height_for_BL_ID c) ∧
    (∀ e, ((walk_loop floor chain fuel start store).after pre0).outcome = .panic e →
      ∃ ev, ((walk_loop floor chain fuel start store).after pre0).trace.getLast? = some ev ∧
        ev.final floor = some (.panic e)) ∧
    (((walk_loop floor chain fuel start store).after pre0).outcome = .outOfFuel →
      (walked ((walk_loop floor chain fuel start store).after pre0).trace).length = fuel) ∧
    (∀ i ∈ touched ((walk_loop floor chain fuel start store).after pre0).trace, floor ≤ i) := by
  have hwp : walked pre0 = [] := by
    rcases hpre with rfl | ⟨i, x, rfl⟩ <;> rfl
  have htp : touched pre0 = [] := by
    rcases hpre with rfl | ⟨i, x, rfl⟩ <;> rfl
  obtain ⟨s1, s2, s3, s4⟩ := walk_loop_stops floor chain fuel start store
  obtain ⟨f1, f2⟩ := walk_loop_first_tips floor chain fuel start store
  obtain ⟨r1, _⟩ := walk_loop_subject floor chain fuel start store
  simp only [WalkResult.after, walked_append, touched_append, hwp, htp, List.nil_append]
  refine ⟨fun hf => ?_, f1, walk_loop_links floor chain fuel start store, fun c hc hfl => ?_,
    fun pre post b htrace hlow => ?_, fun ho => ⟨f2 ho, s2 ho⟩, fun e ho => ?_, s4,
    fun i hi => (walk_loop_touched floor chain fuel start store i hi).1⟩
  · obtain ⟨m, rfl⟩ : ∃ m, fuel = m + 1 := ⟨fuel - 1, by omega⟩
    exact walk_loop_head floor chain m start store
  · obtain ⟨rec, hrec⟩ := r1 c hc hfl
    exact ⟨rec, List.mem_append_right _ hrec⟩
  · rcases hpre with rfl | ⟨i, x, rfl⟩
    · exact walk_loop_break_last floor chain fuel start store pre post b htrace hlow
    · cases pre with
      | nil => simp at htrace
      | cons y ys =>
        simp only [List.singleton_append, List.cons_append, List.cons.injEq] at htrace
        exact walk_loop_break_last floor chain fuel start store ys post b htrace.2 hlow
  · obtain ⟨ev, h1, h2⟩ := s3 e ho
    refine ⟨ev, ?_, h2⟩
    rw [List.getLast?_append, h1]
    rfl

/-! ## Claims on the repair walk -/

/-- C1 (repair correctness of the `fix` walk): when the first-tip walk from the first current
tip visits each height at most once and the `fix` walk completes, then `fix` has visited
exactly the blocks of that first-tip walk, the first-tip walk is complete (more steps add no
block to it), and for every height `h` with `1 ≤ h ≤ height(first tip)` the persisted entry
at `h` names the block that the first-tip walk reaches at height `h`; the entry at the
height of the first tip names the first tip. -/
theorem fix_repairs_first_tip_walk (chain : Chain) (store : TopoStore) (fuel : Nat)
    (tip0 : Hash) (tips : List Hash) (htips : chain.Get_TIPS = tip0 :: tips)
    (honce : ((firstTipWalk 1 chain fuel tip0).map chain.Load_Height_for_BL_ID).Nodup)
    (hdone : (fix chain fuel store).outcome = .done) :
    walked (fix chain fuel store).trace = firstTipWalk 1 chain fuel tip0 ∧
    (∀ n, fuel ≤ n → firstTipWalk 1 chain n tip0 = firstTipWalk 1 chain fuel tip0) ∧
    (∀ h, 1 ≤ h → h ≤ chain.Load_Height_for_BL_ID tip0 →
      ∀ b ∈ firstTipWalk 1 chain fuel tip0, chain.Load_Height_for_BL_ID b = h →
        ∃ r, (fix chain fuel store).store h = some r ∧ r.BLOCK_ID = b) ∧
    (1 ≤ chain.Load_Height_for_BL_ID tip0 →
      ∃ r, (fix chain fuel store).store (chain.Load_Height_for_BL_ID tip0) = some r ∧
        r.BLOCK_ID = tip0) := by
  simp only [fix, htips, fix_loop_eq] at hdone ⊢
  have hwalk := (walk_loop_first_tips 1 chain fuel tip0 store).2 hdone
  have hrep := walk_loop_repaired 1 chain fuel tip0 store hdone (by rw [hwalk]; exact honce)
  rw [hwalk] at hrep
  refine ⟨hwalk, firstTipWalk_complete 1 chain fuel tip0 store hdone, ?_, ?_⟩
  · intro h h1 _ b hb hbh
    subst hbh
    exact hrep b hb h1
  · intro h1
    apply hrep tip0 _ h1
    obtain ⟨m, rfl⟩ : ∃ m, fuel = m + 1 := by
      cases fuel with
      | zero => simp [walk_loop] at hdone
      | succ m => exact ⟨m, rfl⟩
    obtain ⟨rest, hrest⟩ := firstTipWalk_head 1 chain m tip0
    rw [hrest]
    exact List.mem_cons_self _ _

/-- The scenario of C1 on `chainG`: the first-tip walk from block 3 is 3, 2, 1, 0; the entry
at height 2, which named the side block 9, names block 2 after `fix`. -/
theorem fix_repairs_first_tip_walk_witness :
    chainG.Get_TIPS = 3 :: [9] ∧ firstTipWalk 1 chainG 10 3 = [3, 2, 1, 0] ∧
    (fix chainG 10 storeG).outcome = .done ∧
    (storeG 2).map (·.BLOCK_ID) = some 9 ∧
    ∃ r, (fix chainG 10 storeG).store 2 = some r ∧ r.BLOCK_ID = 2 :=
  ⟨rfl, by decide, by decide, by decide,
    (fix_repairs_first_tip_walk chainG storeG 10 3 [9] rfl (by decide) (by decide)).2.2.1 2
      (by decide) (by decide) 2 (by decide) (by decide)⟩

/-- C2 (idempotent repair): on validated block data, where the first tip of a block is
strictly lower than the block, for every store on which the `fix` walk completes, a second
walk right afterwards completes, performs no `Topo_store.Write`, and leaves every persisted
entry as the first pass left it. -/
theorem fix_second_pass_no_writes (chain : Chain) (hvalid : firstTipsDescend chain)
    (store : TopoStore) (fuel : Nat)
    (hdone : (fix chain fuel store).outcome = .done) :
    (fix chain fuel (fix chain fuel store).store).outcome = .done ∧
    writes (fix chain fuel (fix chain fuel store).store).trace = [] ∧
    (fix chain fuel (fix chain fuel store).store).store = (fix chain fuel store).store ∧
    ∀ i, (fix chain fuel (fix chain fuel store).store).store i =
      (fix chain fuel store).store i := by
  unfold fix at hdone ⊢
  cases htips : chain.Get_TIPS with
  | nil => simp [htips] at hdone
  | cons tip0 tips =>
    simp only [htips, fix_loop_eq] at hdone ⊢
    have honce := (walk_loop_sorted 1 chain hvalid fuel tip0 store).nodup
    obtain ⟨h1, h2, h3, _⟩ := walk_loop_second 1 chain fuel tip0 store
      (walk_loop 1 chain fuel tip0 store).store hdone
      (walk_loop_repaired 1 chain fuel tip0 store hdone honce)
    exact ⟨h1, h2, h3, fun i => by rw [h3]⟩

/-- C2 on `chainG`: the first pass repairs height 2, the second writes nothing. -/
theorem fix_second_pass_no_writes_witness :
    (fix chainG 10 storeG).outcome = .done ∧
    writes (fix chainG 10 storeG).trace = [.Write 2 2 102 2] ∧
    ((fix chainG 10 (fix chainG 10 storeG).store).outcome = .done ∧
     writes (fix chainG 10 (fix chainG 10 storeG).store).trace = [] ∧
     (fix chainG 10 (fix chainG 10 storeG).store).store = (fix chainG 10 storeG).store ∧
     ∀ i, (fix chainG 10 (fix chainG 10 storeG).store).store i =
       (fix chainG 10 storeG).store i) :=
  ⟨by decide, by decide,
    fix_second_pass_no_writes chainG firstTipsDescend_chainG storeG 10 (by decide)⟩

/-- C3 (abort on failure): on validated block data, where the first tip of a block is
strictly lower than the block, in the `fix` walk and in the start-up self-check a call of
`Topo_store.Read`, `ReadBlockSnapshotVersion` or `Load_BL_FROM_ID` that returns an error is
the last call of the walk (nothing is read, written or visited after it), the walk ends in a
panic with that error, the failing call is a call for the last walked block, no topo entry
below the height of that block is read or written, and no block is skipped: every walked
block but the first is the first tip of the block walked before it. -/
theorem walk_aborts_at_failure (chain : Chain) (hvalid : firstTipsDescend chain) (fuel : Nat)
    (store : TopoStore) (r : WalkResult)
    (hr : r = fix chain fuel store ∨ r = startup_check chain fuel store)
    (pre post : List Event) (ev : Event) (e : WalkError)
    (htrace : r.trace = pre ++ ev :: post) (hfail : ev.err = some e) :
    post = [] ∧ r.outcome = .panic e ∧
    (∃ b, (walked r.trace).getLast? = some b ∧
      (ev = .Read (chain.Load_Height_for_BL_ID b) none ∨ ev = .Version b none ∨
        ev = .Load b none) ∧
      ∀ i ∈ touched r.trace, chain.Load_Height_for_BL_ID b ≤ i) ∧
    (∀ p c d q, walked r.trace = p ++ c :: d :: q →
      ∃ ts, chain.Load_BL_FROM_ID c = some (d :: ts)) := by
  have key : ∀ (floor : Int) (cur : Hash) (pre1 : List Event),
      (walk_loop floor chain fuel cur store).trace = pre1 ++ ev :: post →
      post = [] ∧ (walk_loop floor chain fuel cur store).outcome = .panic e ∧
      (∃ b, (walked (walk_loop floor chain fuel cur store).trace).getLast? = some b ∧
        (ev = .Read (chain.Load_Height_for_BL_ID b) none ∨ ev = .Version b none ∨
          ev = .Load b none) ∧
        ∀ i ∈ touched (walk_loop floor chain fuel cur store).trace,
          chain.Load_Height_for_BL_ID b ≤ i) ∧
      (∀ p c d q, walked (walk_loop floor chain fuel cur store).trace = p ++ c :: d :: q →
        ∃ ts, chain.Load_BL_FROM_ID c = some (d :: ts)) := by
    intro floor cur pre1 ht
    obtain ⟨h1, h2⟩ := walk_loop_aborts floor chain fuel cur store pre1 post ev e ht hfail
    obtain ⟨b, hb, hsub⟩ := (walk_loop_subject floor chain fuel cur store).2 ev
      (by rw [ht]; simp) (by rw [hfail]; simp)
    exact ⟨h1, h2, ⟨b, hb, hsub, fun i hi =>
      walk_loop_above_last floor chain fuel cur store
        (walk_loop_sorted floor chain hvalid fuel cur store) b hb i hi⟩,
      fun p c d q hw => (walk_loop_links floor chain fuel cur store p c d q hw).2⟩
  rcases hr with rfl | rfl
  · unfold fix at htrace ⊢
    cases htips : chain.Get_TIPS with
    | nil => simp [htips] at htrace
    | cons tip0 tips =>
      simp only [htips, fix_loop_eq] at htrace ⊢
      exact key 1 tip0 pre htrace
  · unfold startup_check at htrace ⊢
    cases hidx : chain.Load_Block_Topological_order_at_index store 17600 with
    | none =>
      simp only [hidx] at htrace
      cases pre with
      | nil =>
        simp only [List.nil_append, List.cons.injEq] at htrace
        rw [← htrace.1] at hfail
        simp [Event.err] at hfail
      | cons x xs => simp at htrace
    | some cur =>
      simp only [hidx, startup_loop_eq, WalkResult.after] at htrace ⊢
      cases pre with
      | nil =>
        simp only [List.nil_append, List.singleton_append, List.cons.injEq] at htrace
        rw [← htrace.1] at hfail
        simp [Event.err] at hfail
      | cons x xs =>
        simp only [List.singleton_append, List.cons_append, List.cons.injEq] at htrace
        simp only [List.singleton_append, walked, touched]
        exact key 17500 cur xs htrace.2

/-- C3 on `chainG` with the entry at height 2 unreadable: the walk stops at the failed read
of height 2, the height of the last walked block, and no entry below height 2 has been read
or written. -/
theorem walk_aborts_at_failure_witness :
    (fix chainG 10 (fun i => if i = 2 then none else storeG i)).trace =
      [.Height 3 3, .Read 3 (some ⟨3, 103, 3⟩), .Load 3 (some [2, 9]), .Height 2 2] ++
        .Read 2 none :: [] ∧
    (fix chainG 10 (fun i => if i = 2 then none else storeG i)).outcome =
      .panic (.topoRead 2) ∧
    ∃ b, (walked (fix chainG 10 (fun i => if i = 2 then none else storeG i)).trace).getLast? =
        some b ∧
      (Event.Read 2 none = .Read (chainG.Load_Height_for_BL_ID b) none ∨
        Event.Read 2 none = .Version b none ∨ Event.Read 2 none = .Load b none) ∧
      ∀ i ∈ touched (fix chainG 10 (fun i => if i = 2 then none else storeG i)).trace,
        chainG.Load_Height_for_BL_ID b ≤ i :=
  ⟨by decide,
    (walk_aborts_at_failure chainG firstTipsDescend_chainG 10
      (fun i => if i = 2 then none else storeG i) _ (Or.inl rfl)
      [.Height 3 3, .Read 3 (some ⟨3, 103, 3⟩), .Load 3 (some [2, 9]), .Height 2 2] []
      (.Read 2 none) (.topoRead 2) (by decide) rfl).2.1,
    (walk_aborts_at_failure chainG firstTipsDescend_chainG 10
      (fun i => if i = 2 then none else storeG i) _ (Or.inl rfl)
      [.Height 3 3, .Read 3 (some ⟨3, 103, 3⟩), .Load 3 (some [2, 9]), .Height 2 2] []
      (.Read 2 none) (.topoRead 2) (by decide) rfl).2.2.1⟩

/-- C4 (walk floors): the `fix` walk (floor 1) starts at the first current tip and the
start-up self-check (floor 17500) at the block stored at topo index 17600.  From its start
the walk visits the blocks of the first-tip walk in order: every walked block that is
followed by another is not below the floor and lists the next as its first tip, and at every
walked block that is not below the floor the entry at its height is read.  The walk stops at
the first walked block whose height is below the floor: the height of such a block is the
last call and the walk ends in its `break`; a walk that ends in its `break` has visited the
whole first-tip walk, whose last block is below the floor and whose other blocks are not.
Otherwise it ends only in a panic after a failed call or a block without tips (or at the
bound of the model, after that many blocks).  No topo entry below the floor is read or
written.  `fix` looks no block up by topo index, the self-check only the one at 17600, and
when that lookup fails the self-check does nothing else. -/
theorem walk_floors (chain : Chain) (fuel : Nat) (store : TopoStore) (r : WalkResult)
    (floor : Int) (start : Hash)
    (hr : (r = fix chain fuel store ∧ floor = 1 ∧ chain.Get_TIPS.head? = some start) ∨
      (r = startup_check chain fuel store ∧ floor = 17500 ∧
        chain.Load_Block_Topological_order_at_index store 17600 = some start)) :
    (0 < fuel → (walked r.trace).head? = some start) ∧
    List.IsPrefix (walked r.trace) (firstTipWalk floor chain fuel start) ∧
    (∀ p c d q, walked r.trace = p ++ c :: d :: q →
      floor ≤ chain.Load_Height_for_BL_ID c ∧
        ∃ ts, chain.Load_BL_FROM_ID c = some (d :: ts)) ∧
    (∀ c ∈ walked r.trace, floor ≤ chain.Load_Height_for_BL_ID c →
      ∃ rec, Event.Read (chain.Load_Height_for_BL_ID c) rec ∈ r.trace) ∧
    (∀ pre post b, r.trace = pre ++ .Height b (chain.Load_Height_for_BL_ID b) :: post →
      chain.Load_Height_for_BL_ID b < floor → post = [] ∧ r.outcome = .done) ∧
    (r.outcome = .done →
      walked r.trace = firstTipWalk floor chain fuel start ∧
      ∃ pre b, walked r.trace = pre ++ [b] ∧ chain.Load_Height_for_BL_ID b < floor ∧
        ∀ c ∈ pre, floor ≤ chain.Load_Height_for_BL_ID c) ∧
    (∀ e, r.outcome = .panic e →
      ∃ ev, r.trace.getLast? = some ev ∧ ev.final floor = some (.panic e)) ∧
    (r.outcome = .outOfFuel → (walked r.trace).length = fuel) ∧
    (∀ i ∈ touched r.trace, floor ≤ i) ∧
    lookedUp (fix chain fuel store).trace = [] ∧
    lookedUp (startup_check chain fuel store).trace = [17600] ∧
    (chain.Load_Block_Topological_order_at_index store 17600 = none →
      startup_check chain fuel store = ⟨.done, store, [.TopoIndex 17600 none]⟩) := by
  have hl1 : lookedUp (fix chain fuel store).trace = [] := by
    unfold fix
    cases htips : chain.Get_TIPS with
    | nil => simp [lookedUp]
    | cons tip0 tips =>
      simp only [fix_loop_eq]
      exact (walk_loop_calls 1 chain fuel tip0 store).1
  have hl2 : lookedUp (startup_check chain fuel store).trace = [17600] := by
    unfold startup_check
    cases hidx : chain.Load_Block_Topological_order_at_index store 17600 with
    | none => simp [lookedUp]
    | some cur =>
      have hl := (walk_loop_calls 17500 chain fuel cur store).1
      simp [startup_loop_eq, WalkResult.after, lookedUp, hl]
  have hl3 : chain.Load_Block_Topological_order_at_index store 17600 = none →
      startup_check chain fuel store = ⟨.done, store, [.TopoIndex 17600 none]⟩ := by
    intro hidx
    simp [startup_check, hidx]
  rcases hr with ⟨rfl, rfl, htips⟩ | ⟨rfl, rfl, hidx⟩
  · have e : fix chain fuel store = (walk_loop 1 chain fuel start store).after [] := by
      cases hT : chain.Get_TIPS with
      | nil => simp [hT] at htips
      | cons tip0 tips =>
        simp only [hT, List.head?_cons, Option.some.injEq] at htips
        subst htips
        simp [fix, hT, fix_loop_eq, WalkResult.after]
    rw [e]
    obtain ⟨a1, a2, a3, a4, a5, a6, a7, a8, a9⟩ :=
      walk_after_floor 1 chain fuel start store [] (Or.inl rfl)
    rw [← e]
    rw [← e] at a1 a2 a3 a4 a5 a6 a7 a8 a9
    exact ⟨a1, a2, a3, a4, a5, a6, a7, a8, a9, hl1, hl2, hl3⟩
  · have e : startup_check chain fuel store =
        (walk_loop 17500 chain fuel start store).after [.TopoIndex 17600 (some start)] := by
      simp [startup_check, hidx, startup_loop_eq]
    obtain ⟨a1, a2, a3, a4, a5, a6, a7, a8, a9⟩ :=
      walk_after_floor 17500 chain fuel start store [.TopoIndex 17600 (some start)]
        (Or.inr ⟨_, _, rfl⟩)
    rw [← e] at a1 a2 a3 a4 a5 a6 a7 a8 a9
    exact ⟨a1, a2, a3, a4, a5, a6, a7, a8, a9, hl1, hl2, hl3⟩

/-- C4 on two runs.  The start-up self-check on `chainA` with the topo index `storeS`
starts at block 17600, visits the 102 blocks down to block 17499, the first below 17500,
repairs the entry at height 17550 on its way and ends in its `break`.  The `fix` walk on
`chainG` starts at the first tip 3 and visits 3, 2, 1 and block 0, the first below 1. -/
theorem walk_floors_witness :
    chainA.Load_Block_Topological_order_at_index storeS 17600 = some 17600 ∧
    (startup_check chainA 200 storeS).outcome = .done ∧
    (walked (startup_check chainA 200 storeS).trace).head? = some 17600 ∧
    (walked (startup_check chainA 200 storeS).trace).length = 102 ∧
    (walked (startup_check chainA 200 storeS).trace).getLast? = some 17499 ∧
    writes (startup_check chainA 200 storeS).trace = [.Write 17550 17550 17650 17550] ∧
    (∀ i ∈ touched (startup_check chainA 200 storeS).trace, (17500 : Int) ≤ i) ∧
    walked (fix chainG 10 storeG).trace = [3, 2, 1, 0] ∧
    (fix chainG 10 storeG).outcome = .done ∧
    (∀ i ∈ touched (fix chainG 10 storeG).trace, (1 : Int) ≤ i) :=
  ⟨by decide, by decide,
    (walk_floors chainA 200 storeS _ 17500 17600 (Or.inr ⟨rfl, rfl, by decide⟩)).1
      (by decide),
    by decide, by decide, by decide,
    (walk_floors chainA 200 storeS _ 17500 17600 (Or.inr ⟨rfl, rfl, by decide⟩)).2.2.2.2.2.2.2.2.1,
    by decide, by decide,
    (walk_floors chainG 10 storeG _ 1 3 (Or.inl ⟨rfl, rfl, rfl⟩)).2.2.2.2.2.2.2.2.1⟩

end Derod
